import Mathlib

/-!
The `init` command of webterm / popcorn.

A shallow embedding of `cmd/init.go` (the native-messaging installer) and of
the pieces of the Go standard library it calls (`path/filepath` on a Unix
system, `os.MkdirAll`, `os.WriteFile`), followed by theorems about the
installer's path resolution, step ordering and filesystem effects.

Go strings are modelled as lists of characters.  The lexical path functions
only ever inspect the ASCII characters `/` and `.`, so working on characters
instead of UTF-8 bytes does not change their behaviour.
-/

namespace Webterm

/-- A Go `string`. -/
abbrev GoString := List Char

/-! ## `path/filepath` (Unix) -/

/-- The constant `filepath.Separator` on Unix. -/
def Separator : Char := '/'

/-- The function `os.IsPathSeparator`. -/
def IsPathSeparator (c : Char) : Bool := c == Separator

/-- The loop state of `filepath.Clean`: `out` is the written part of the lazy
buffer (`out.w` is its length) and `dotdot` is the index where `..` must stop. -/
structure CleanState where
  out : GoString
  dotdot : Nat
deriving DecidableEq, Repr

/-- The inner loop `for out.w > dotdot && !os.IsPathSeparator(out.index(out.w)) { out.w-- }`
of `filepath.Clean`, returning the final value of `out.w`. -/
def backtrack (buf : GoString) (dotdot : Nat) : Nat → Nat
  | 0 => 0
  | w + 1 =>
    if w + 1 > dotdot && !(match buf.get? (w + 1) with
                           | some c => IsPathSeparator c
                           | none => false) then
      backtrack buf dotdot w
    else w + 1

/-- The `..` case of the loop of `filepath.Clean`. -/
def dotdotElem (rooted : Bool) (st : CleanState) : CleanState :=
  if st.out.length > st.dotdot then
    -- can backtrack
    { st with out := st.out.take (backtrack st.out st.dotdot (st.out.length - 1)) }
  else if !rooted then
    -- cannot backtrack, but not rooted, so append .. element
    let out := if st.out.length > 0 then st.out ++ [Separator] else st.out
    let out := out ++ ['.', '.']
    { out := out, dotdot := out.length }
  else st

/-- The copy loop `for ; r < n && !os.IsPathSeparator(path[r]); r++ { out.append(path[r]) }`
of `filepath.Clean`: returns the unread rest of the path and the buffer. -/
def copyElem : GoString → GoString → GoString × GoString
  | [], out => ([], out)
  | c :: rest, out =>
    if IsPathSeparator c then (c :: rest, out) else copyElem rest (out ++ [c])

/-- The test `path[r] == '.' && (r+1 == n || os.IsPathSeparator(path[r+1]))`. -/
def atDot (path : GoString) : Bool :=
  match path with
  | c :: rest =>
    c == '.' && (match rest with
                 | [] => true
                 | d :: _ => IsPathSeparator d)
  | [] => false

/-- The test `path[r] == '.' && path[r+1] == '.' && (r+2 == n || os.IsPathSeparator(path[r+2]))`. -/
def atDotDot (path : GoString) : Bool :=
  match path with
  | c :: d :: rest =>
    c == '.' && d == '.' && (match rest with
                             | [] => true
                             | e :: _ => IsPathSeparator e)
  | _ => false

/-- The main loop `for r < n { ... }` of `filepath.Clean`.  The first argument
bounds the number of iterations; every iteration reads at least one character,
so the length of the unread path is always enough. -/
def cleanLoop (rooted : Bool) : Nat → GoString → CleanState → CleanState
  | 0, _, st => st
  | fuel + 1, path, st =>
    match path with
    | [] => st
    | c :: rest =>
      if IsPathSeparator c then
        -- empty path element
        cleanLoop rooted fuel rest st
      else if atDot (c :: rest) then
        -- . element
        cleanLoop rooted fuel rest st
      else if atDotDot (c :: rest) then
        -- .. element: remove to last separator
        cleanLoop rooted fuel rest.tail (dotdotElem rooted st)
      else
        -- real path element: add slash if needed, copy element
        let out :=
          if (rooted && st.out.length != 1) || (!rooted && st.out.length != 0) then
            st.out ++ [Separator]
          else st.out
        let (rest', out') := copyElem (c :: rest) out
        cleanLoop rooted fuel rest' { st with out := out' }

/-- The function `filepath.Clean` on Unix (no volume names, `FromSlash` is the
identity). -/
def Clean (path : GoString) : GoString :=
  match path with
  | [] => ['.']
  | c :: rest =>
    let rooted := IsPathSeparator c
    let st :=
      if rooted then cleanLoop rooted rest.length rest { out := [Separator], dotdot := 1 }
      else cleanLoop rooted (c :: rest).length (c :: rest) { out := [], dotdot := 0 }
    -- Turn empty string into "."
    if st.out.length = 0 then ['.'] else st.out

/-- The function `strings.Join`. -/
def stringsJoin (elems : List GoString) (sep : GoString) : GoString :=
  sep.intercalate elems

/-- The function `filepath.Join` on Unix: the elements from the first non-empty
one on are joined with the separator and cleaned. -/
def Join : List GoString → GoString
  | [] => []
  | e :: es =>
    if e ≠ [] then Clean (stringsJoin (e :: es) [Separator]) else Join es

/-- The function `filepath.Dir` on Unix: everything up to and including the
last separator, cleaned. -/
def Dir (path : GoString) : GoString :=
  Clean (path.reverse.dropWhile (fun c => !IsPathSeparator c)).reverse

/-- The function `filepath.Base` on Unix: the last element of the path. -/
def Base (path : GoString) : GoString :=
  match path with
  | [] => ['.']
  | _ =>
    -- Strip trailing slashes.
    let p := (path.reverse.dropWhile IsPathSeparator).reverse
    -- Find the last element
    let b := (p.reverse.takeWhile (fun c => !IsPathSeparator c)).reverse
    -- If empty now, it had only slashes.
    if b = [] then [Separator] else b

/-! ## `cmd/init.go`: constants and the manifest path table -/

/-- The constant `manifestName`. -/
def manifestName : GoString := "com.pomdtr.popcorn.json".toList

/-- The package variable `manifestPaths`, as a function of `xdg.DataHome`.  A Go
map literal has pairwise distinct keys; lookup is `List.lookup`. -/
def manifestPaths (dataHome : GoString) : List (GoString × GoString) :=
  [ ("chrome".toList,
      Join [dataHome, "Google".toList, "Chrome".toList, "NativeMessagingHosts".toList, manifestName]),
    ("chrome-beta".toList,
      Join [dataHome, "Google".toList, "Chrome Beta".toList, "NativeMessagingHosts".toList, manifestName]),
    ("edge".toList,
      Join [dataHome, "microsoft".toList, "edge".toList, "NativeMessagingHosts".toList, manifestName]),
    ("brave".toList,
      Join [dataHome, "BraveSoftware".toList, "Brave-Browser".toList, "NativeMessagingHosts".toList, manifestName]),
    ("vivaldi".toList,
      Join [dataHome, "vivaldi".toList, "NativeMessagingHosts".toList, manifestName]),
    ("arc".toList,
      Join [dataHome, "Google".toList, "Chrome".toList, "NativeMessagingHosts".toList, manifestName]) ]

/-- Lines 53-60 of `cmd/init.go`: the manifest path for a browser flag and a
profile-directory flag; `none` is the `!ok` branch of the map lookup. -/
def resolveManifestPath (dataHome browser profileDirectory : GoString) : Option GoString :=
  match (manifestPaths dataHome).lookup browser with
  | none => none
  | some manifestPath =>
    if profileDirectory ≠ [] then some (Join [manifestPath, profileDirectory])
    else some manifestPath

/-! ## The filesystem and `os` -/

/-- A filesystem object: a regular file with its mode and contents, or a
directory with its mode (the permission bits it has on disk). -/
inductive Node where
  | file (perm : Nat) (data : GoString)
  | dir (perm : Nat)
deriving DecidableEq, Repr

/-- A filesystem state: the object each name refers to.  Names are resolved as
written (no symbolic links, no case folding); the root `/` and the working
directory `.` always exist and are not stored. -/
abbrev FS := GoString → Option Node

/-- The state `fs` with `name` bound to `node`. -/
def FS.set (fs : FS) (name : GoString) (node : Node) : FS :=
  fun k => if k = name then some node else fs k

/-- The function `os.Stat` (and `os.Lstat`): the object at `name`, if any. -/
def Stat (fs : FS) (name : GoString) : Option Node :=
  if name = [Separator] ∨ name = ['.'] then some (Node.dir 0o755) else fs name

/-- Whether a `Stat` result is a directory (`FileInfo.IsDir`). -/
def IsDir : Option Node → Bool
  | some (Node.dir _) => true
  | _ => false

/-- The error numbers the model produces. -/
inductive Errno where
  | EEXIST | ENOENT | ENOTDIR | EISDIR | EACCES | ENOSPC
deriving DecidableEq, Repr

/-- The text of an error number (`syscall.Errno.Error`). -/
def Errno.text : Errno → GoString
  | .EEXIST => "file exists".toList
  | .ENOENT => "no such file or directory".toList
  | .ENOTDIR => "not a directory".toList
  | .EISDIR => "is a directory".toList
  | .EACCES => "permission denied".toList
  | .ENOSPC => "no space left on device".toList

/-- The Go operator `&^` (bit clear): the bits of `x` that are not set in `y`.
The operating system creates a file or directory with mode `perm &^ umask`. -/
def andNot (x y : Nat) : Nat :=
  x ^^^ (x &&& y)

/-- The message of an `*fs.PathError`. -/
def pathError (op path : GoString) (e : Errno) : GoString :=
  op ++ " ".toList ++ path ++ ": ".toList ++ e.text

/-- The index `i` of `os.MkdirAll` after `for i > 0 && IsPathSeparator(path[i-1]) { i-- }`. -/
def skipTrailingSep (path : GoString) : Nat :=
  (path.reverse.dropWhile IsPathSeparator).length

/-- The index `j` of `os.MkdirAll` after `for j > 0 && !IsPathSeparator(path[j-1]) { j-- }`,
started at `j = i`. -/
def scanBackElem (path : GoString) (i : Nat) : Nat :=
  ((path.take i).reverse.dropWhile (fun c => !IsPathSeparator c)).length

/-- The directory that has to hold `name`: `path[:j-1]` when `j > 1`, and nothing
when the name sits directly in the root or in the working directory. -/
def parentOf (name : GoString) : Option GoString :=
  let j := scanBackElem name (skipTrailingSep name)
  if j > 1 then some (name.take (j - 1)) else none

/-- Whether the directory that has to hold `name` exists. -/
def parentIsDir (fs : FS) (name : GoString) : Bool :=
  match parentOf name with
  | none => true
  | some p => IsDir (Stat fs p)

/-- The system call behind `os.Mkdir`: the new directory has mode
`perm &^ umask`.  `deny` holds the names the operating system refuses to create
or to open for writing; it stands for permission checks and read-only mounts,
which the state does not represent. -/
def Mkdir (deny : GoString → Bool) (umask : Nat) (name : GoString) (perm : Nat) (fs : FS) :
    Option GoString × FS :=
  if (Stat fs name).isSome then (some (pathError "mkdir".toList name Errno.EEXIST), fs)
  else if !parentIsDir fs name then (some (pathError "mkdir".toList name Errno.ENOENT), fs)
  else if deny name then (some (pathError "mkdir".toList name Errno.EACCES), fs)
  else (none, fs.set name (Node.dir (andNot perm umask)))

/-- The function `os.MkdirAll` (the text of Go 1.21; later versions pass the
parent with its trailing separator, which names the same directory).  The first
argument bounds the depth of the recursion on the parent; the parent is strictly
shorter than the path, so the length of the path plus one is always enough and
the first case is never reached from `MkdirAll`. -/
def MkdirAllFuel (deny : GoString → Bool) (umask : Nat) : Nat → GoString → Nat → FS → Option GoString × FS
  | 0, path, _, fs => (some (pathError "mkdir".toList path Errno.ENOENT), fs)
  | fuel + 1, path, perm, fs =>
    -- Fast path: if we can tell whether path is a directory or file, stop with success or error.
    match Stat fs path with
    | some (Node.dir _) => (none, fs)
    | some (Node.file _ _) => (some (pathError "mkdir".toList path Errno.ENOTDIR), fs)
    | none =>
      -- Slow path: make sure parent exists and then call Mkdir for path.
      let r :=
        match parentOf path with
        | some parent => MkdirAllFuel deny umask fuel parent perm fs
        | none => (none, fs)
      match r with
      | (some err, fs1) => (some err, fs1)
      | (none, fs1) =>
        -- Parent now exists; invoke Mkdir and use its result.
        match Mkdir deny umask path perm fs1 with
        | (none, fs2) => (none, fs2)
        | (some err, fs2) =>
          -- Handle arguments like "foo/." by double-checking that directory doesn't exist.
          if IsDir (Stat fs2 path) then (none, fs2) else (some err, fs2)

/-- The function `os.MkdirAll`. -/
def MkdirAll (deny : GoString → Bool) (umask : Nat) (path : GoString) (perm : Nat) (fs : FS) :
    Option GoString × FS :=
  MkdirAllFuel deny umask (path.length + 1) path perm fs

/-- What the write that follows a successful open does.  `fault name data` is
`some (err, left)` when writing `data` to `name` or closing the file fails (the
disk fills up, a quota is reached, the device reports an error): `err` is the
message of the error and `left` is what the file is left holding; it is `none`
when the write succeeds.  The result is the error and the contents of the file
afterwards. -/
def writeResult (fault : GoString → GoString → Option (GoString × GoString))
    (name data : GoString) : Option GoString × GoString :=
  match fault name data with
  | some (err, left) => (some err, left)
  | none => (none, data)

/-- The function `os.WriteFile`: `OpenFile(name, O_WRONLY|O_CREATE|O_TRUNC, perm)`,
then `f.Write(data)` and `f.Close()`.  Opening creates a missing file with mode
`perm &^ umask` and truncates an existing one, which keeps its mode.  When the
open fails nothing changes; when the write fails after the open the file exists
and holds what `fault` says was left of it. -/
def WriteFile (deny : GoString → Bool)
    (fault : GoString → GoString → Option (GoString × GoString)) (umask : Nat)
    (name data : GoString) (perm : Nat) (fs : FS) : Option GoString × FS :=
  match Stat fs name with
  | some (Node.dir _) => (some (pathError "open".toList name Errno.EISDIR), fs)
  | some (Node.file mode _) =>
    if deny name then (some (pathError "open".toList name Errno.EACCES), fs)
    else ((writeResult fault name data).1,
      fs.set name (Node.file mode (writeResult fault name data).2))
  | none =>
    if !parentIsDir fs name then (some (pathError "open".toList name Errno.ENOENT), fs)
    else if deny name then (some (pathError "open".toList name Errno.EACCES), fs)
    else ((writeResult fault name data).1,
      fs.set name (Node.file (andNot perm umask) (writeResult fault name data).2))

/-! ## `cmd/init.go`: the command -/

/-- What the command reads from its process and from the build: the results of
`os.UserHomeDir` and `os.Executable`, the value of `xdg.DataHome`, the two
embedded templates (`manifest.json` and `entrypoint.sh.gotmpl`, taken as the
functions `Execute` computes from their two data values), the names the
operating system refuses to create or open, the writes that fail part-way, and
the umask of the process. -/
structure Env where
  userHomeDir : Except GoString GoString
  dataHome : GoString
  executable : Except GoString GoString
  manifestTmpl : GoString → GoString → Except GoString GoString
  entrypointTmpl : GoString → GoString → Except GoString GoString
  deny : GoString → Bool
  writeFault : GoString → GoString → Option (GoString × GoString)
  umask : Nat

/-- The struct `flags` of `NewCmdInit`. -/
structure Flags where
  Browser : GoString
  ExtensionID : GoString
  ProfileDirectory : GoString
deriving DecidableEq, Repr

/-- The steps of `RunE` that can fail, with the arguments of the call. -/
inductive Step where
  | userHomeDir
  | lookupBrowser (browser : GoString)
  | mkdirAll (path : GoString) (perm : Nat)
  | executeManifest (homeDir extensionID : GoString)
  | writeFile (name data : GoString) (perm : Nat)
  | executable
  | executeEntrypoint (popcornBin browser : GoString)
deriving DecidableEq, Repr

/-- The result of a run of `RunE`: the returned error (`none` is `nil`), the
filesystem it leaves, the messages printed with `cmd.Printf`, and the steps it
executed, in order, each with whether it succeeded. -/
structure Outcome where
  err : Option GoString
  fs : FS
  out : List GoString
  steps : List (Step × Bool)

/-- The entrypoint directory `filepath.Join(homeDir, ".local", "bin")`. -/
def localBin (homeDir : GoString) : GoString :=
  Join [homeDir, ".local".toList, "bin".toList]

/-- The entrypoint path `filepath.Join(homeDir, ".local", "bin", "popcorn.sh")`. -/
def entrypointPath (homeDir : GoString) : GoString :=
  Join [homeDir, ".local".toList, "bin".toList, "popcorn.sh".toList]

/-- The function `RunE` of the `init` command (`cmd/init.go`, lines 47-104). -/
def RunE (env : Env) (flags : Flags) (fs : FS) : Outcome :=
  match env.userHomeDir with
  | .error err =>
    { err := some ("unable to get user home directory: ".toList ++ err), fs := fs, out := [],
      steps := [(.userHomeDir, false)] }
  | .ok homeDir =>
  match resolveManifestPath env.dataHome flags.Browser flags.ProfileDirectory with
  | none =>
    { err := some ("invalid browser: ".toList ++ flags.Browser), fs := fs, out := [],
      steps := [(.userHomeDir, true), (.lookupBrowser flags.Browser, false)] }
  | some manifestPath =>
  let out1 := ["Writing manifest file to ".toList ++ manifestPath ++ "\n".toList]
  let steps2 := [(Step.userHomeDir, true), (Step.lookupBrowser flags.Browser, true)]
  match MkdirAll env.deny env.umask (Dir manifestPath) 0o755 fs with
  | (some err, fs1) =>
    { err := some ("unable to create manifest directory: ".toList ++ err), fs := fs1, out := out1,
      steps := steps2 ++ [(.mkdirAll (Dir manifestPath) 0o755, false)] }
  | (none, fs1) =>
  let steps3 := steps2 ++ [(Step.mkdirAll (Dir manifestPath) 0o755, true)]
  match env.manifestTmpl homeDir flags.ExtensionID with
  | .error err =>
    { err := some ("unable to execute manifest template: ".toList ++ err), fs := fs1, out := out1,
      steps := steps3 ++ [(.executeManifest homeDir flags.ExtensionID, false)] }
  | .ok manifestBuffer =>
  let steps4 := steps3 ++ [(Step.executeManifest homeDir flags.ExtensionID, true)]
  match WriteFile env.deny env.writeFault env.umask manifestPath manifestBuffer 0o644 fs1 with
  | (some err, fs2) =>
    { err := some ("unable to write manifest file: ".toList ++ err), fs := fs2, out := out1,
      steps := steps4 ++ [(.writeFile manifestPath manifestBuffer 0o644, false)] }
  | (none, fs2) =>
  let out2 := out1 ++ ["Manifest file written successfully\n".toList]
  let steps5 := steps4 ++ [(Step.writeFile manifestPath manifestBuffer 0o644, true)]
  match MkdirAll env.deny env.umask (localBin homeDir) 0o755 fs2 with
  | (some err, fs3) =>
    { err := some ("unable to create entrypoint directory: ".toList ++ err), fs := fs3, out := out2,
      steps := steps5 ++ [(.mkdirAll (localBin homeDir) 0o755, false)] }
  | (none, fs3) =>
  let steps6 := steps5 ++ [(Step.mkdirAll (localBin homeDir) 0o755, true)]
  match env.executable with
  | .error err =>
    { err := some ("unable to get executable path: ".toList ++ err), fs := fs3, out := out2,
      steps := steps6 ++ [(.executable, false)] }
  | .ok execPath =>
  let steps7 := steps6 ++ [(Step.executable, true)]
  match env.entrypointTmpl execPath flags.Browser with
  | .error err =>
    { err := some ("unable to execute entrypoint template: ".toList ++ err), fs := fs3, out := out2,
      steps := steps7 ++ [(.executeEntrypoint execPath flags.Browser, false)] }
  | .ok entrypointBuffer =>
  let steps8 := steps7 ++ [(Step.executeEntrypoint execPath flags.Browser, true)]
  let out3 := out2 ++ ["Writing entrypoint file to ".toList ++ entrypointPath homeDir ++ "\n".toList]
  match WriteFile env.deny env.writeFault env.umask (entrypointPath homeDir) entrypointBuffer 0o755 fs3 with
  | (some err, fs4) =>
    { err := some ("unable to write entrypoint file: ".toList ++ err), fs := fs4, out := out3,
      steps := steps8 ++ [(.writeFile (entrypointPath homeDir) entrypointBuffer 0o755, false)] }
  | (none, fs4) =>
    { err := none, fs := fs4,
      out := out3 ++ ["Entrypoint file written successfully\n".toList],
      steps := steps8 ++ [(.writeFile (entrypointPath homeDir) entrypointBuffer 0o755, true)] }

/-- The completion function registered for the `--browser` flag (lines 109-116).
`iter` is the order in which `range manifestPaths` visits the entries of the
map, which Go leaves unspecified; the second component is
`cobra.ShellCompDirectiveNoFileComp`. -/
def browserCompletion (iter : List (GoString × GoString)) (_args : List GoString)
    (_toComplete : GoString) : List GoString × Nat :=
  (iter.foldl (fun completions entry => completions ++ [entry.1]) [], 4)

/-- Modelled from the spec: `cmd.Execute`, defined in `cmd/root.go`, which is not
among the sources.  The spec has every error "propagated to the top level
unhandled", after which "the process reports the error and exits non-zero":
`Execute` runs the `init` command on the parsed flags and returns what `RunE`
returns. -/
def Execute (env : Env) (flags : Flags) (fs : FS) : Outcome :=
  RunE env flags fs

/-- The function `main` (`main.go`): the exit status, given the error returned by
`cmd.Execute`; `os.Exit(1)` when it is not nil, and 0 when `main` returns. -/
def main (executeErr : Option GoString) : Nat :=
  if executeErr ≠ none then 1 else 0

/-- One iteration of the main loop of `filepath.Clean`, as a function from the
unread path and the state to the next unread path and state. -/
def cleanStep (rooted : Bool) (c : Char) (rest : GoString) (st : CleanState) :
    GoString × CleanState :=
  if IsPathSeparator c then (rest, st)
  else if atDot (c :: rest) then (rest, st)
  else if atDotDot (c :: rest) then (rest.tail, dotdotElem rooted st)
  else
    ((c :: rest).dropWhile (fun c => !IsPathSeparator c),
      { st with out :=
          (if (rooted && st.out.length != 1) || (!rooted && st.out.length != 0) then
            st.out ++ [Separator] else st.out)
            ++ (c :: rest).takeWhile (fun c => !IsPathSeparator c) })

/-- The main loop of `filepath.Clean` run on the whole unread path. -/
def cleanRun (rooted : Bool) (p : GoString) (st : CleanState) : CleanState :=
  cleanLoop rooted p.length p st

/-- The condition under which `filepath.Clean` writes a separator before a real
path element. -/
def needSep (rooted : Bool) (out : GoString) : Bool :=
  (rooted && out.length != 1) || (!rooted && out.length != 0)

/-- The effect of a real path element on the state of `filepath.Clean`. -/
def pushElem (rooted : Bool) (st : CleanState) (e : GoString) : CleanState :=
  { st with out := (if needSep rooted st.out then st.out ++ [Separator] else st.out) ++ e }

/-- A real path element: not empty, without separator, neither `.` nor `..`. -/
def isRealElem (e : GoString) : Bool :=
  e != [] && e.all (fun c => !IsPathSeparator c) && e != ['.'] && e != ['.', '.']

/-- The invariant of the loop of `filepath.Clean` on a rooted path: the buffer
starts with the separator and `..` never backtracks over it. -/
def RootedInv (st : CleanState) : Prop :=
  st.out.head? = some Separator ∧ 1 ≤ st.dotdot

/-- The state of `filepath.Clean` when its loop ends, with the `rooted` flag. -/
def cleanState (path : GoString) : Bool × CleanState :=
  match path with
  | [] => (false, { out := [], dotdot := 0 })
  | c :: rest =>
    if IsPathSeparator c then (true, cleanRun true rest { out := [Separator], dotdot := 1 })
    else (false, cleanRun false (c :: rest) { out := [], dotdot := 0 })

/-- What `filepath.Join` has written when it starts on the second element: the
cleaned first element, followed by a separator unless the buffer is empty or the
root. -/
def joinedHead (first : GoString) : GoString :=
  if needSep (cleanState first).1 (cleanState first).2.out then
    (cleanState first).2.out ++ [Separator]
  else (cleanState first).2.out

/-- The real path elements `es`, each preceded by a separator. -/
def sepElems (es : List GoString) : GoString :=
  (es.map (fun e => Separator :: e)).flatten

/-- The names `os.MkdirAll` may create: the path and its parents, as the recursion
visits them. -/
def pathAndParents : Nat → GoString → List GoString
  | 0, path => [path]
  | n + 1, path =>
    path :: (match parentOf path with
             | some parent => pathAndParents n parent
             | none => [])

/-- The slow path of `os.MkdirAll` after the recursive call on the parent
returned `r`. -/
def mkdirTail (deny : GoString → Bool) (umask : Nat) (path : GoString) (perm : Nat)
    (r : Option GoString × FS) : Option GoString × FS :=
  match r with
  | (some err, fs1) => (some err, fs1)
  | (none, fs1) =>
    match Mkdir deny umask path perm fs1 with
    | (none, fs2) => (none, fs2)
    | (some err, fs2) => if IsDir (Stat fs2 path) then (none, fs2) else (some err, fs2)

/-- The recursive call of `os.MkdirAll` on the parent of the path. -/
def mkdirParent (deny : GoString → Bool) (umask : Nat) (n : Nat) (path : GoString) (perm : Nat) (fs : FS) :
    Option GoString × FS :=
  match parentOf path with
  | some parent => MkdirAllFuel deny umask n parent perm fs
  | none => (none, fs)

/-- The name of the call a step makes. -/
def Step.name : Step → String
  | .userHomeDir => "os.UserHomeDir"
  | .lookupBrowser _ => "manifestPaths[flags.Browser]"
  | .mkdirAll _ _ => "os.MkdirAll"
  | .executeManifest _ _ => "manifestTmpl.Execute"
  | .writeFile _ _ _ => "os.WriteFile"
  | .executable => "os.Executable"
  | .executeEntrypoint _ _ => "entrypointTmpl.Execute"

/-- The calls of `RunE` in the order of the source: home directory, browser
lookup, manifest directory, manifest render, manifest write, local-bin
directory, executable path, entrypoint render, entrypoint write. -/
def stepOrder : List String :=
  ["os.UserHomeDir", "manifestPaths[flags.Browser]", "os.MkdirAll", "manifestTmpl.Execute",
    "os.WriteFile", "os.MkdirAll", "os.Executable", "entrypointTmpl.Execute", "os.WriteFile"]

/-- The mode of the file at `name` after `os.WriteFile` opened it on `fs`: an
existing file keeps its mode, a new file gets `mode` (the caller passes
`perm &^ umask`). -/
def modeAfterWrite (fs : FS) (name : GoString) (mode : Nat) : Nat :=
  match Stat fs name with
  | some (Node.file old _) => old
  | _ => mode

/-- The runs of `RunE`, one case for each `return` of the source, with what the
steps before it returned. -/
inductive Run (env : Env) (flags : Flags) (fs : FS) : Outcome → Prop where
  | homeDirFails (err : GoString) (h1 : env.userHomeDir = .error err) :
    Run env flags fs
      { err := some ("unable to get user home directory: ".toList ++ err), fs := fs, out := [],
        steps := [(.userHomeDir, false)] }
  | invalidBrowser (homeDir : GoString) (h1 : env.userHomeDir = .ok homeDir)
      (h2 : resolveManifestPath env.dataHome flags.Browser flags.ProfileDirectory = none) :
    Run env flags fs
      { err := some ("invalid browser: ".toList ++ flags.Browser), fs := fs, out := [],
        steps := [(.userHomeDir, true), (.lookupBrowser flags.Browser, false)] }
  | manifestDirFails (homeDir p1 err : GoString) (fs1 : FS)
      (h1 : env.userHomeDir = .ok homeDir)
      (h2 : resolveManifestPath env.dataHome flags.Browser flags.ProfileDirectory = some p1)
      (h3 : MkdirAll env.deny env.umask (Dir p1) 0o755 fs = (some err, fs1)) :
    Run env flags fs
      { err := some ("unable to create manifest directory: ".toList ++ err), fs := fs1,
        out := ["Writing manifest file to ".toList ++ p1 ++ "\n".toList],
        steps := [(.userHomeDir, true), (.lookupBrowser flags.Browser, true),
          (.mkdirAll (Dir p1) 0o755, false)] }
  | manifestRenderFails (homeDir p1 err : GoString) (fs1 : FS)
      (h1 : env.userHomeDir = .ok homeDir)
      (h2 : resolveManifestPath env.dataHome flags.Browser flags.ProfileDirectory = some p1)
      (h3 : MkdirAll env.deny env.umask (Dir p1) 0o755 fs = (none, fs1))
      (h4 : env.manifestTmpl homeDir flags.ExtensionID = .error err) :
    Run env flags fs
      { err := some ("unable to execute manifest template: ".toList ++ err), fs := fs1,
        out := ["Writing manifest file to ".toList ++ p1 ++ "\n".toList],
        steps := [(.userHomeDir, true), (.lookupBrowser flags.Browser, true),
          (.mkdirAll (Dir p1) 0o755, true),
          (.executeManifest homeDir flags.ExtensionID, false)] }
  | manifestWriteFails (homeDir p1 b1 err : GoString) (fs1 fs2 : FS)
      (h1 : env.userHomeDir = .ok homeDir)
      (h2 : resolveManifestPath env.dataHome flags.Browser flags.ProfileDirectory = some p1)
      (h3 : MkdirAll env.deny env.umask (Dir p1) 0o755 fs = (none, fs1))
      (h4 : env.manifestTmpl homeDir flags.ExtensionID = .ok b1)
      (h5 : WriteFile env.deny env.writeFault env.umask p1 b1 0o644 fs1 = (some err, fs2)) :
    Run env flags fs
      { err := some ("unable to write manifest file: ".toList ++ err), fs := fs2,
        out := ["Writing manifest file to ".toList ++ p1 ++ "\n".toList],
        steps := [(.userHomeDir, true), (.lookupBrowser flags.Browser, true),
          (.mkdirAll (Dir p1) 0o755, true),
          (.executeManifest homeDir flags.ExtensionID, true),
          (.writeFile p1 b1 0o644, false)] }
  | binDirFails (homeDir p1 b1 err : GoString) (fs1 fs2 fs3 : FS)
      (h1 : env.userHomeDir = .ok homeDir)
      (h2 : resolveManifestPath env.dataHome flags.Browser flags.ProfileDirectory = some p1)
      (h3 : MkdirAll env.deny env.umask (Dir p1) 0o755 fs = (none, fs1))
      (h4 : env.manifestTmpl homeDir flags.ExtensionID = .ok b1)
      (h5 : WriteFile env.deny env.writeFault env.umask p1 b1 0o644 fs1 = (none, fs2))
      (h6 : MkdirAll env.deny env.umask (localBin homeDir) 0o755 fs2 = (some err, fs3)) :
    Run env flags fs
      { err := some ("unable to create entrypoint directory: ".toList ++ err), fs := fs3,
        out := ["Writing manifest file to ".toList ++ p1 ++ "\n".toList,
          "Manifest file written successfully\n".toList],
        steps := [(.userHomeDir, true), (.lookupBrowser flags.Browser, true),
          (.mkdirAll (Dir p1) 0o755, true),
          (.executeManifest homeDir flags.ExtensionID, true),
          (.writeFile p1 b1 0o644, true),
          (.mkdirAll (localBin homeDir) 0o755, false)] }
  | executableFails (homeDir p1 b1 err : GoString) (fs1 fs2 fs3 : FS)
      (h1 : env.userHomeDir = .ok homeDir)
      (h2 : resolveManifestPath env.dataHome flags.Browser flags.ProfileDirectory = some p1)
      (h3 : MkdirAll env.deny env.umask (Dir p1) 0o755 fs = (none, fs1))
      (h4 : env.manifestTmpl homeDir flags.ExtensionID = .ok b1)
      (h5 : WriteFile env.deny env.writeFault env.umask p1 b1 0o644 fs1 = (none, fs2))
      (h6 : MkdirAll env.deny env.umask (localBin homeDir) 0o755 fs2 = (none, fs3))
      (h7 : env.executable = .error err) :
    Run env flags fs
      { err := some ("unable to get executable path: ".toList ++ err), fs := fs3,
        out := ["Writing manifest file to ".toList ++ p1 ++ "\n".toList,
          "Manifest file written successfully\n".toList],
        steps := [(.userHomeDir, true), (.lookupBrowser flags.Browser, true),
          (.mkdirAll (Dir p1) 0o755, true),
          (.executeManifest homeDir flags.ExtensionID, true),
          (.writeFile p1 b1 0o644, true),
          (.mkdirAll (localBin homeDir) 0o755, true),
          (.executable, false)] }
  | entrypointRenderFails (homeDir p1 b1 execPath err : GoString) (fs1 fs2 fs3 : FS)
      (h1 : env.userHomeDir = .ok homeDir)
      (h2 : resolveManifestPath env.dataHome flags.Browser flags.ProfileDirectory = some p1)
      (h3 : MkdirAll env.deny env.umask (Dir p1) 0o755 fs = (none, fs1))
      (h4 : env.manifestTmpl homeDir flags.ExtensionID = .ok b1)
      (h5 : WriteFile env.deny env.writeFault env.umask p1 b1 0o644 fs1 = (none, fs2))
      (h6 : MkdirAll env.deny env.umask (localBin homeDir) 0o755 fs2 = (none, fs3))
      (h7 : env.executable = .ok execPath)
      (h8 : env.entrypointTmpl execPath flags.Browser = .error err) :
    Run env flags fs
      { err := some ("unable to execute entrypoint template: ".toList ++ err), fs := fs3,
        out := ["Writing manifest file to ".toList ++ p1 ++ "\n".toList,
          "Manifest file written successfully\n".toList],
        steps := [(.userHomeDir, true), (.lookupBrowser flags.Browser, true),
          (.mkdirAll (Dir p1) 0o755, true),
          (.executeManifest homeDir flags.ExtensionID, true),
          (.writeFile p1 b1 0o644, true),
          (.mkdirAll (localBin homeDir) 0o755, true),
          (.executable, true),
          (.executeEntrypoint execPath flags.Browser, false)] }
  | entrypointWriteFails (homeDir p1 b1 execPath b2 err : GoString) (fs1 fs2 fs3 fs4 : FS)
      (h1 : env.userHomeDir = .ok homeDir)
      (h2 : resolveManifestPath env.dataHome flags.Browser flags.ProfileDirectory = some p1)
      (h3 : MkdirAll env.deny env.umask (Dir p1) 0o755 fs = (none, fs1))
      (h4 : env.manifestTmpl homeDir flags.ExtensionID = .ok b1)
      (h5 : WriteFile env.deny env.writeFault env.umask p1 b1 0o644 fs1 = (none, fs2))
      (h6 : MkdirAll env.deny env.umask (localBin homeDir) 0o755 fs2 = (none, fs3))
      (h7 : env.executable = .ok execPath)
      (h8 : env.entrypointTmpl execPath flags.Browser = .ok b2)
      (h9 : WriteFile env.deny env.writeFault env.umask (entrypointPath homeDir) b2 0o755 fs3 = (some err, fs4)) :
    Run env flags fs
      { err := some ("unable to write entrypoint file: ".toList ++ err), fs := fs4,
        out := ["Writing manifest file to ".toList ++ p1 ++ "\n".toList,
          "Manifest file written successfully\n".toList,
          "Writing entrypoint file to ".toList ++ entrypointPath homeDir ++ "\n".toList],
        steps := [(.userHomeDir, true), (.lookupBrowser flags.Browser, true),
          (.mkdirAll (Dir p1) 0o755, true),
          (.executeManifest homeDir flags.ExtensionID, true),
          (.writeFile p1 b1 0o644, true),
          (.mkdirAll (localBin homeDir) 0o755, true),
          (.executable, true),
          (.executeEntrypoint execPath flags.Browser, true),
          (.writeFile (entrypointPath homeDir) b2 0o755, false)] }
  | done (homeDir p1 b1 execPath b2 : GoString) (fs1 fs2 fs3 fs4 : FS)
      (h1 : env.userHomeDir = .ok homeDir)
      (h2 : resolveManifestPath env.dataHome flags.Browser flags.ProfileDirectory = some p1)
      (h3 : MkdirAll env.deny env.umask (Dir p1) 0o755 fs = (none, fs1))
      (h4 : env.manifestTmpl homeDir flags.ExtensionID = .ok b1)
      (h5 : WriteFile env.deny env.writeFault env.umask p1 b1 0o644 fs1 = (none, fs2))
      (h6 : MkdirAll env.deny env.umask (localBin homeDir) 0o755 fs2 = (none, fs3))
      (h7 : env.executable = .ok execPath)
      (h8 : env.entrypointTmpl execPath flags.Browser = .ok b2)
      (h9 : WriteFile env.deny env.writeFault env.umask (entrypointPath homeDir) b2 0o755 fs3 = (none, fs4)) :
    Run env flags fs
      { err := none, fs := fs4,
        out := ["Writing manifest file to ".toList ++ p1 ++ "\n".toList,
          "Manifest file written successfully\n".toList,
          "Writing entrypoint file to ".toList ++ entrypointPath homeDir ++ "\n".toList,
          "Entrypoint file written successfully\n".toList],
        steps := [(.userHomeDir, true), (.lookupBrowser flags.Browser, true),
          (.mkdirAll (Dir p1) 0o755, true),
          (.executeManifest homeDir flags.ExtensionID, true),
          (.writeFile p1 b1 0o644, true),
          (.mkdirAll (localBin homeDir) 0o755, true),
          (.executable, true),
          (.executeEntrypoint execPath flags.Browser, true),
          (.writeFile (entrypointPath homeDir) b2 0o755, true)] }

/-- Every step of the sequence of `RunE` succeeds: home directory, browser
lookup, manifest directory, manifest render, manifest write, local-bin
directory, executable path, entrypoint render, entrypoint write, each on the
filesystem the step before it left. -/
def AllStepsSucceed (env : Env) (flags : Flags) (fs : FS) : Prop :=
  ∃ (homeDir manifestPath manifestBuffer execPath entrypointBuffer : GoString)
    (fs1 fs2 fs3 fs4 : FS),
    env.userHomeDir = .ok homeDir ∧
    resolveManifestPath env.dataHome flags.Browser flags.ProfileDirectory = some manifestPath ∧
    MkdirAll env.deny env.umask (Dir manifestPath) 0o755 fs = (none, fs1) ∧
    env.manifestTmpl homeDir flags.ExtensionID = .ok manifestBuffer ∧
    WriteFile env.deny env.writeFault env.umask manifestPath manifestBuffer 0o644 fs1 = (none, fs2) ∧
    MkdirAll env.deny env.umask (localBin homeDir) 0o755 fs2 = (none, fs3) ∧
    env.executable = .ok execPath ∧
    env.entrypointTmpl execPath flags.Browser = .ok entrypointBuffer ∧
    WriteFile env.deny env.writeFault env.umask (entrypointPath homeDir) entrypointBuffer 0o755 fs3 = (none, fs4)

/-- A sample environment: a home directory, the default Linux data home below
it, an executable path, two templates that render both of their values, and an
operating system that refuses nothing. -/
def sampleEnv : Env :=
  { userHomeDir := .ok "/h".toList
    dataHome := "/h/.local/share".toList
    executable := .ok "/bin/popcorn".toList
    manifestTmpl := fun homeDir extensionID =>
      .ok (homeDir ++ "/.local/bin/popcorn.sh ".toList ++ extensionID)
    entrypointTmpl := fun popcornBin browser =>
      .ok ("exec ".toList ++ popcornBin ++ " ".toList ++ browser)
    deny := fun _ => false
    writeFault := fun _ _ => none
    umask := 0o022 }

/-- The sample environment without a home directory (`$HOME` unset). -/
def noHomeEnv : Env :=
  { sampleEnv with userHomeDir := .error "$HOME is not defined".toList }

/-- The sample environment on a disk that fills up while `/h/.local/bin/x` is
written: the file is created and left empty. -/
def fullDiskEnv : Env :=
  { sampleEnv with
    writeFault := fun name _ =>
      if name = "/h/.local/bin/x".toList then
        some (pathError "write".toList name Errno.ENOSPC, [])
      else none }

/-- The sample environment when the write of the entrypoint script to
`/h/.local/bin/popcorn.sh` fails with an I/O error after the file was opened and
truncated. -/
def scriptFaultEnv : Env :=
  { sampleEnv with
    writeFault := fun name data =>
      if name = "/h/.local/bin/popcorn.sh".toList then
        (if data = "exec /bin/popcorn chrome".toList then
          some ("write /h/.local/bin/popcorn.sh: input/output error".toList, [])
        else none)
      else none }

/-- The filesystem with nothing below the root. -/
def emptyFS : FS := fun _ => none

/-- A filesystem where the entrypoint script already exists, with mode 0644. -/
def oldScriptFS : FS :=
  ((((emptyFS.set "/h".toList (Node.dir 0o755)).set "/h/.local".toList (Node.dir 0o755)).set
    "/h/.local/bin".toList (Node.dir 0o755)).set
    "/h/.local/bin/popcorn.sh".toList (Node.file 0o644 "old".toList))

/-- Flags naming a browser that is not in the table. -/
def firefoxFlags : Flags :=
  { Browser := "firefox".toList, ExtensionID := "abc".toList, ProfileDirectory := "Default".toList }

/-- Flags for Chrome without a profile directory. -/
def chromeFlags : Flags :=
  { Browser := "chrome".toList, ExtensionID := "abc".toList, ProfileDirectory := [] }

/-- Flags for Chrome with a profile directory that climbs out of the data home
into the local-bin directory. -/
def climbingFlags : Flags :=
  { Browser := "chrome".toList, ExtensionID := "abc".toList,
    ProfileDirectory := "../../../../../bin/x".toList }

/-- The sample environment on a system that refuses to write the Chrome
manifest. -/
def refuseManifestEnv : Env :=
  { sampleEnv with
    deny := fun name =>
      name == "/h/.local/share/Google/Chrome/NativeMessagingHosts/com.pomdtr.popcorn.json".toList }

/-- The sample environment when the path of the executable cannot be found. -/
def noExecutableEnv : Env :=
  { sampleEnv with executable := .error "readlink /proc/self/exe: no such file or directory".toList }

/-- Flags for Chrome with a profile directory that makes the manifest path the
entrypoint path `/h/.local/bin/popcorn.sh`. -/
def aliasFlags : Flags :=
  { Browser := "chrome".toList, ExtensionID := "abc".toList,
    ProfileDirectory := "../../../../../bin/popcorn.sh".toList }

/-- The function `filepath.IsAbs` on Unix: the path starts with the separator. -/
def IsAbs (path : GoString) : Bool :=
  match path with
  | c :: _ => c == Separator
  | [] => false

/-- The directory of the manifest below the data home, for each key of
`manifestPaths`, read off the table. -/
def browserDirs : List (GoString × GoString) :=
  [ ("chrome".toList, "Google/Chrome/NativeMessagingHosts".toList),
    ("chrome-beta".toList, "Google/Chrome Beta/NativeMessagingHosts".toList),
    ("edge".toList, "microsoft/edge/NativeMessagingHosts".toList),
    ("brave".toList, "BraveSoftware/Brave-Browser/NativeMessagingHosts".toList),
    ("vivaldi".toList, "vivaldi/NativeMessagingHosts".toList),
    ("arc".toList, "Google/Chrome/NativeMessagingHosts".toList) ]

/-- The invariant of the loop of `filepath.Clean`, written for the proof that
cleaning a cleaned path changes nothing: reading the buffer again gives the
same state; so does reading it up to any separator at or after `dotdot`, and up
to `dotdot` itself; and on a rooted path the buffer starts with the separator
and `dotdot` is 1. -/
structure Canon (rooted : Bool) (st : CleanState) : Prop where
  whole : cleanState st.out = (rooted, st)
  bound : st.dotdot ≤ st.out.length
  split : ∀ p q : GoString, st.out = p ++ Separator :: q → st.dotdot ≤ p.length →
    cleanState p = (rooted, { out := p, dotdot := st.dotdot })
  upto : cleanState (st.out.take st.dotdot)
    = (rooted, { out := st.out.take st.dotdot, dotdot := st.dotdot })
  root : rooted = true → st.out.head? = some Separator ∧ st.dotdot = 1

/-- The elements of a path: the pieces between its separators. -/
def pathElems (path : GoString) : List GoString :=
  path.splitOn Separator

/-- A path made of real elements only: no empty element (no leading, trailing or
doubled separator), no `.` and no `..`. -/
def isPlainPath (path : GoString) : Bool :=
  (pathElems path).all isRealElem

/-- The effect of one path element on the state of `filepath.Clean`: an empty
element and `.` are skipped, `..` backtracks, any other element is copied. -/
def elemStep (rooted : Bool) (st : CleanState) (e : GoString) : CleanState :=
  if e = [] ∨ e = ['.'] then st
  else if e = ['.', '.'] then dotdotElem rooted st
  else pushElem rooted st e

/-- Walking the elements of a path from a directory `depth` levels below a fixed
ancestor: an empty element and `.` stay, `..` goes to the parent, any other
element enters a child.  The walk stays below the ancestor when it never takes
`..` at depth 0. -/
def staysBelow : List GoString → Nat → Bool
  | [], _ => true
  | e :: es, depth =>
    if e = [] ∨ e = ['.'] then staysBelow es depth
    else if e = ['.', '.'] then
      (match depth with
       | 0 => false
       | d + 1 => staysBelow es d)
    else staysBelow es (depth + 1)

/-- Joined to a directory, the path never climbs more than `n` levels above it,
whatever it enters on the way. -/
def climbsAtMost (n : Nat) (path : GoString) : Bool :=
  staysBelow (pathElems path) n

set_option maxRecDepth 100000

/-! ## Lemmas on `filepath.Clean` -/

theorem copyElem_eq (p out : GoString) :
    copyElem p out
      = (p.dropWhile (fun c => !IsPathSeparator c), out ++ p.takeWhile (fun c => !IsPathSeparator c)) := by
  induction p generalizing out with
  | nil => simp [copyElem]
  | cons c rest ih =>
    by_cases h : IsPathSeparator c = true
    · simp [copyElem, h]
    · simp [copyElem, h, ih]

theorem cleanLoop_succ_cons (rooted : Bool) (fuel : Nat) (c : Char) (rest : GoString)
    (st : CleanState) :
    cleanLoop rooted (fuel + 1) (c :: rest) st
      = cleanLoop rooted fuel (cleanStep rooted c rest st).1 (cleanStep rooted c rest st).2 := by
  rw [cleanLoop]
  unfold cleanStep
  by_cases h1 : IsPathSeparator c = true
  · simp [h1]
  · by_cases h2 : atDot (c :: rest) = true
    · simp [h1, h2]
    · by_cases h3 : atDotDot (c :: rest) = true
      · simp [h1, h2, h3]
      · simp only [h1, h2, h3, copyElem_eq]
        simp

theorem cleanStep_length (rooted : Bool) (c : Char) (rest : GoString) (st : CleanState) :
    (cleanStep rooted c rest st).1.length ≤ rest.length := by
  unfold cleanStep
  by_cases h1 : IsPathSeparator c = true
  · simp [h1]
  · by_cases h2 : atDot (c :: rest) = true
    · simp [h1, h2]
    · by_cases h3 : atDotDot (c :: rest) = true
      · simp [h1, h2, h3]
      · simp only [h1, h2, h3]
        have : (List.dropWhile (fun c => !IsPathSeparator c) (c :: rest))
            = List.dropWhile (fun c => !IsPathSeparator c) rest := by
          simp [List.dropWhile, h1]
        simp only [Bool.false_eq_true, if_false, this]
        exact (List.dropWhile_sublist _).length_le

theorem cleanLoop_succ (rooted : Bool) :
    ∀ (fuel : Nat) (p : GoString) (st : CleanState), p.length ≤ fuel →
      cleanLoop rooted (fuel + 1) p st = cleanLoop rooted fuel p st := by
  intro fuel
  induction fuel with
  | zero =>
    intro p st h
    have : p = [] := List.length_eq_zero.mp (Nat.le_zero.mp h)
    subst this
    simp [cleanLoop]
  | succ n ih =>
    intro p st h
    cases p with
    | nil => simp [cleanLoop]
    | cons c rest =>
      rw [cleanLoop_succ_cons, cleanLoop_succ_cons]
      apply ih
      have := cleanStep_length rooted c rest st
      simp only [List.length_cons] at h
      omega

theorem cleanLoop_of_le (rooted : Bool) :
    ∀ (fuel : Nat) (p : GoString) (st : CleanState), p.length ≤ fuel →
      cleanLoop rooted fuel p st = cleanLoop rooted p.length p st := by
  intro fuel
  induction fuel with
  | zero =>
    intro p st h
    have : p = [] := List.length_eq_zero.mp (Nat.le_zero.mp h)
    subst this
    rfl
  | succ n ih =>
    intro p st h
    by_cases h' : p.length ≤ n
    · rw [cleanLoop_succ rooted n p st h', ih p st h']
    · have : p.length = n + 1 := by omega
      rw [this]

theorem cleanRun_nil (rooted : Bool) (st : CleanState) : cleanRun rooted [] st = st := rfl

theorem cleanRun_cons (rooted : Bool) (c : Char) (rest : GoString) (st : CleanState) :
    cleanRun rooted (c :: rest) st
      = cleanRun rooted (cleanStep rooted c rest st).1 (cleanStep rooted c rest st).2 := by
  unfold cleanRun
  rw [List.length_cons, cleanLoop_succ_cons]
  exact cleanLoop_of_le rooted _ _ _ (cleanStep_length rooted c rest st)

theorem dropWhile_append_sep (p q : GoString) :
    (p ++ Separator :: q).dropWhile (fun c => !IsPathSeparator c)
      = p.dropWhile (fun c => !IsPathSeparator c) ++ Separator :: q := by
  induction p with
  | nil => simp [List.dropWhile, IsPathSeparator]
  | cons c rest ih =>
    by_cases h : IsPathSeparator c = true
    · simp [List.dropWhile, h]
    · simp only [List.cons_append, List.dropWhile, h, Bool.not_false]
      simpa using ih

theorem takeWhile_append_sep (p q : GoString) :
    (p ++ Separator :: q).takeWhile (fun c => !IsPathSeparator c)
      = p.takeWhile (fun c => !IsPathSeparator c) := by
  induction p with
  | nil => simp [List.takeWhile, IsPathSeparator]
  | cons c rest ih =>
    by_cases h : IsPathSeparator c = true
    · simp [List.takeWhile, h]
    · simp only [List.cons_append, List.takeWhile, h, Bool.not_false]
      simpa using ih

theorem atDot_append_sep (c : Char) (rest q : GoString) :
    atDot (c :: (rest ++ Separator :: q)) = atDot (c :: rest) := by
  cases rest with
  | nil => simp [atDot, IsPathSeparator]
  | cons d r2 => simp [atDot]

theorem atDotDot_append_sep (c : Char) (rest q : GoString) :
    atDotDot (c :: (rest ++ Separator :: q)) = atDotDot (c :: rest) := by
  cases rest with
  | nil => simp [atDotDot, Separator]
  | cons d r2 =>
    cases r2 with
    | nil => simp [atDotDot, IsPathSeparator]
    | cons e r3 => simp [atDotDot]

theorem atDotDot_ne_nil {c : Char} {rest : GoString} (h : atDotDot (c :: rest) = true) :
    rest ≠ [] := by
  cases rest with
  | nil => simp [atDotDot] at h
  | cons d r2 => simp

theorem cleanStep_append_sep (rooted : Bool) (c : Char) (rest q : GoString) (st : CleanState) :
    cleanStep rooted c (rest ++ Separator :: q) st
      = ((cleanStep rooted c rest st).1 ++ Separator :: q, (cleanStep rooted c rest st).2) := by
  unfold cleanStep
  rw [atDot_append_sep, atDotDot_append_sep]
  by_cases h1 : IsPathSeparator c = true
  · simp [h1]
  · by_cases h2 : atDot (c :: rest) = true
    · simp [h1, h2]
    · by_cases h3 : atDotDot (c :: rest) = true
      · have hne := atDotDot_ne_nil h3
        cases rest with
        | nil => exact absurd rfl hne
        | cons d r2 => simp [h1, h2, h3]
      · simp only [h1, h2, h3, Bool.false_eq_true, if_false]
        have e1 := dropWhile_append_sep (c :: rest) q
        have e2 := takeWhile_append_sep (c :: rest) q
        simp only [List.cons_append] at e1 e2
        rw [e1, e2]

/-- Reading `p`, then a separator, then `q` is reading `p` to its end and then
going on with `q`: the loop never looks further ahead than the next separator. -/
theorem cleanRun_append_sep (rooted : Bool) (q : GoString) :
    ∀ (n : Nat) (p : GoString) (st : CleanState), p.length ≤ n →
      cleanRun rooted (p ++ Separator :: q) st = cleanRun rooted q (cleanRun rooted p st) := by
  intro n
  induction n with
  | zero =>
    intro p st h
    have : p = [] := List.length_eq_zero.mp (Nat.le_zero.mp h)
    subst this
    rw [List.nil_append, cleanRun_cons, cleanRun_nil]
    simp [cleanStep, IsPathSeparator]
  | succ n ih =>
    intro p st h
    cases p with
    | nil =>
      rw [List.nil_append, cleanRun_cons, cleanRun_nil]
      simp [cleanStep, IsPathSeparator]
    | cons c rest =>
      rw [List.cons_append, cleanRun_cons, cleanStep_append_sep, cleanRun_cons rooted c rest]
      apply ih
      have := cleanStep_length rooted c rest st
      simp only [List.length_cons] at h
      omega

theorem takeWhile_of_all (e : GoString) (h : e.all (fun c => !IsPathSeparator c) = true) :
    e.takeWhile (fun c => !IsPathSeparator c) = e := by
  induction e with
  | nil => rfl
  | cons c rest ih =>
    simp only [List.all_cons, Bool.and_eq_true] at h
    simp [List.takeWhile, h.1, ih h.2]

theorem dropWhile_of_all (e : GoString) (h : e.all (fun c => !IsPathSeparator c) = true) :
    e.dropWhile (fun c => !IsPathSeparator c) = [] := by
  induction e with
  | nil => rfl
  | cons c rest ih =>
    simp only [List.all_cons, Bool.and_eq_true] at h
    simp [List.dropWhile, h.1, ih h.2]

theorem cleanRun_realElem (rooted : Bool) (e : GoString) (st : CleanState)
    (h : isRealElem e = true) : cleanRun rooted e st = pushElem rooted st e := by
  unfold isRealElem at h
  simp only [Bool.and_eq_true, bne_iff_ne, ne_eq] at h
  obtain ⟨⟨⟨hne, hall⟩, hdot⟩, hdd⟩ := h
  cases e with
  | nil => exact absurd rfl hne
  | cons c rest =>
    have hall' := hall
    simp only [List.all_cons, Bool.and_eq_true] at hall
    have hc : IsPathSeparator c = false := by simpa using hall.1
    have h2 : atDot (c :: rest) = false := by
      cases rest with
      | nil =>
        simp only [atDot, Bool.and_true, beq_eq_false_iff_ne, ne_eq]
        intro hc'
        exact hdot (by rw [hc'])
      | cons d r2 =>
        simp only [List.all_cons, Bool.and_eq_true] at hall
        have hd : IsPathSeparator d = false := by simpa using hall.2.1
        simp [atDot, hd]
    have h3 : atDotDot (c :: rest) = false := by
      cases rest with
      | nil => simp [atDotDot]
      | cons d r2 =>
        cases r2 with
        | nil =>
          simp only [atDotDot, Bool.and_true, Bool.and_eq_false_imp, beq_iff_eq]
          intro hc' 
          simp only [beq_eq_false_iff_ne, ne_eq]
          intro hd'
          exact hdd (by rw [hc', hd'])
        | cons e r3 =>
          simp only [List.all_cons, Bool.and_eq_true] at hall
          have he : IsPathSeparator e = false := by simpa using hall.2.2.1
          simp [atDotDot, he]
    rw [cleanRun_cons]
    unfold cleanStep
    simp only [hc, h2, h3, Bool.false_eq_true, if_false]
    rw [takeWhile_of_all _ hall', dropWhile_of_all _ hall', cleanRun_nil]
    rfl

theorem cleanRun_realElem_sep (rooted : Bool) (e q : GoString) (st : CleanState)
    (h : isRealElem e = true) :
    cleanRun rooted (e ++ Separator :: q) st = cleanRun rooted q (pushElem rooted st e) := by
  rw [cleanRun_append_sep rooted q e.length e st (Nat.le_refl _), cleanRun_realElem rooted e st h]

theorem backtrack_ge (buf : GoString) (dotdot : Nat) :
    ∀ w : Nat, dotdot ≤ w → dotdot ≤ backtrack buf dotdot w := by
  intro w
  induction w with
  | zero => intro h; simpa [backtrack] using h
  | succ w ih =>
    intro h
    unfold backtrack
    split
    · rename_i hc
      simp only [gt_iff_lt, Bool.and_eq_true, decide_eq_true_eq] at hc
      exact ih (by omega)
    · exact h

theorem backtrack_le (buf : GoString) (dotdot : Nat) :
    ∀ w : Nat, backtrack buf dotdot w ≤ w := by
  intro w
  induction w with
  | zero => simp [backtrack]
  | succ w ih =>
    unfold backtrack
    split
    · omega
    · exact Nat.le_refl _

theorem head?_take_of_pos {l : GoString} {k : Nat} (hk : 1 ≤ k) : (l.take k).head? = l.head? := by
  cases l with
  | nil => simp
  | cons a t =>
    cases k with
    | zero => omega
    | succ k => simp

theorem head?_append_of_head? {l m : GoString} {c : Char} (h : l.head? = some c) :
    (l ++ m).head? = some c := by
  cases l with
  | nil => simp at h
  | cons a t => simpa using h

theorem dotdotElem_rootedInv (st : CleanState) (h : RootedInv st) :
    RootedInv (dotdotElem true st) := by
  unfold dotdotElem
  by_cases h1 : st.out.length > st.dotdot
  · simp only [h1, if_true]
    refine ⟨?_, h.2⟩
    have hge := backtrack_ge st.out st.dotdot (st.out.length - 1) (by omega)
    rw [head?_take_of_pos (by have := h.2; omega)]
    exact h.1
  · simpa [h1] using h

theorem cleanStep_rootedInv (c : Char) (rest : GoString) (st : CleanState) (h : RootedInv st) :
    RootedInv (cleanStep true c rest st).2 := by
  unfold cleanStep
  by_cases h1 : IsPathSeparator c = true
  · simpa [h1] using h
  · by_cases h2 : atDot (c :: rest) = true
    · simpa [h1, h2] using h
    · by_cases h3 : atDotDot (c :: rest) = true
      · simpa [h1, h2, h3] using dotdotElem_rootedInv st h
      · simp only [h1, h2, h3, Bool.false_eq_true, if_false]
        refine ⟨?_, h.2⟩
        split
        · exact head?_append_of_head? (head?_append_of_head? h.1)
        · exact head?_append_of_head? h.1

theorem cleanRun_rootedInv :
    ∀ (n : Nat) (p : GoString) (st : CleanState), p.length ≤ n → RootedInv st →
      RootedInv (cleanRun true p st) := by
  intro n
  induction n with
  | zero =>
    intro p st h hinv
    have : p = [] := List.length_eq_zero.mp (Nat.le_zero.mp h)
    subst this
    exact hinv
  | succ n ih =>
    intro p st h hinv
    cases p with
    | nil => exact hinv
    | cons c rest =>
      rw [cleanRun_cons]
      apply ih _ _ _ (cleanStep_rootedInv c rest st hinv)
      have := cleanStep_length true c rest st
      simp only [List.length_cons] at h
      omega

theorem Clean_cons_eq (c : Char) (rest : GoString) :
    Clean (c :: rest)
      = if (cleanState (c :: rest)).2.out.length = 0 then ['.'] else (cleanState (c :: rest)).2.out := by
  unfold Clean cleanState cleanRun
  by_cases h : IsPathSeparator c = true
  · simp [h]
  · simp [h]

theorem cleanState_rooted_inv (path : GoString) (h : (cleanState path).1 = true) :
    RootedInv (cleanState path).2 := by
  cases path with
  | nil => simp [cleanState] at h
  | cons c rest =>
    unfold cleanState at h ⊢
    by_cases hc : IsPathSeparator c = true
    · simp only [hc, if_true]
      exact cleanRun_rootedInv rest.length rest _ (Nat.le_refl _) ⟨rfl, Nat.le_refl _⟩
    · simp [hc] at h

theorem needSep_pushElem (rooted : Bool) (st : CleanState) (e : GoString) (he : e ≠ [])
    (hinv : rooted = true → st.out ≠ []) : needSep rooted (pushElem rooted st e).out = true := by
  have hlen : 0 < e.length := List.length_pos.mpr he
  cases rooted with
  | false =>
    simp only [needSep, pushElem, Bool.false_and, Bool.not_false, Bool.true_and, Bool.false_or,
      bne_iff_ne, ne_eq, List.length_eq_zero, List.append_eq_nil, not_and]
    intro _
    exact he
  | true =>
    have hpos : 0 < st.out.length := List.length_pos.mpr (hinv rfl)
    simp only [needSep, pushElem, Bool.true_and, Bool.not_true, Bool.false_and, Bool.or_false,
      bne_iff_ne, ne_eq]
    split <;> simp only [List.length_append] <;> omega

theorem pushElem_out_ne_nil (rooted : Bool) (st : CleanState) (e : GoString) (he : e ≠ []) :
    (pushElem rooted st e).out ≠ [] := by
  simp [pushElem, he]

theorem foldl_pushElem_out (rooted : Bool) :
    ∀ (es : List GoString) (st : CleanState), (∀ e ∈ es, e ≠ []) → st.out ≠ [] →
      needSep rooted st.out = true →
      (es.foldl (pushElem rooted) st).out = st.out ++ sepElems es := by
  intro es
  induction es with
  | nil => intro st _ _ _; simp [sepElems]
  | cons e es ih =>
    intro st hes hne hsep
    have he : e ≠ [] := hes e (List.mem_cons_self _ _)
    rw [List.foldl_cons,
      ih (pushElem rooted st e) (fun x hx => hes x (List.mem_cons_of_mem _ hx))
        (pushElem_out_ne_nil rooted st e he)
        (needSep_pushElem rooted st e he (fun _ => hne))]
    simp [pushElem, hsep, sepElems]

theorem intercalate_cons_eq (e : GoString) (es : List GoString) :
    stringsJoin (e :: es) [Separator] = e ++ sepElems es := by
  induction es generalizing e with
  | nil => simp [stringsJoin, sepElems, List.intercalate]
  | cons x xs ih =>
    have := ih x
    simp only [stringsJoin, List.intercalate, List.intersperse, sepElems, List.map_cons,
      List.flatten_cons] at this ⊢
    rw [this]
    simp

theorem cleanRun_elems (rooted : Bool) :
    ∀ (es : List GoString) (e : GoString) (st : CleanState),
      (∀ x ∈ e :: es, isRealElem x = true) →
      cleanRun rooted (e ++ sepElems es) st = (e :: es).foldl (pushElem rooted) st := by
  intro es
  induction es with
  | nil =>
    intro e st h
    simp only [sepElems, List.map_nil, List.flatten_nil, List.append_nil, List.foldl_cons,
      List.foldl_nil]
    exact cleanRun_realElem rooted e st (h e (List.mem_cons_self _ _))
  | cons x xs ih =>
    intro e st h
    have hx := ih x (pushElem rooted st e) (fun y hy => h y (List.mem_cons_of_mem _ hy))
    have : e ++ sepElems (x :: xs) = e ++ Separator :: (x ++ sepElems xs) := by
      simp [sepElems]
    rw [this, cleanRun_realElem_sep rooted e _ st (h e (List.mem_cons_self _ _)), hx]
    rfl

theorem cleanState_append_sep (c : Char) (rest X : GoString) :
    cleanState ((c :: rest) ++ Separator :: X)
      = ((cleanState (c :: rest)).1,
          cleanRun (cleanState (c :: rest)).1 X (cleanState (c :: rest)).2) := by
  unfold cleanState
  by_cases hc : IsPathSeparator c = true
  · simp only [List.cons_append, hc, if_true]
    rw [cleanRun_append_sep true X rest.length rest _ (Nat.le_refl _)]
  · simp only [List.cons_append, hc, Bool.false_eq_true, if_false]
    have := cleanRun_append_sep false X (c :: rest).length (c :: rest)
      { out := [], dotdot := 0 } (Nat.le_refl _)
    simp only [List.cons_append] at this
    rw [this]

theorem foldl_pushElem_cons_out (rooted : Bool) (e : GoString) (es : List GoString)
    (st : CleanState) (h : ∀ x ∈ e :: es, isRealElem x = true)
    (hinv : rooted = true → st.out ≠ []) :
    ((e :: es).foldl (pushElem rooted) st).out
      = (if needSep rooted st.out then st.out ++ [Separator] else st.out) ++ (e ++ sepElems es) := by
  have hne : ∀ x ∈ e :: es, x ≠ [] := by
    intro x hx
    have := h x hx
    unfold isRealElem at this
    simp only [Bool.and_eq_true, bne_iff_ne, ne_eq] at this
    exact this.1.1.1
  have he := hne e (List.mem_cons_self _ _)
  rw [List.foldl_cons,
    foldl_pushElem_out rooted es (pushElem rooted st e)
      (fun x hx => hne x (List.mem_cons_of_mem _ hx))
      (pushElem_out_ne_nil rooted st e he) (needSep_pushElem rooted st e he hinv)]
  simp [pushElem]

theorem rootedInv_out_ne_nil {st : CleanState} (h : RootedInv st) : st.out ≠ [] := by
  intro hnil
  have := h.1
  rw [hnil] at this
  simp at this

/-- The value of `filepath.Join` on a first element followed by real path
elements: the cleaned first element and then the elements as they are. -/
theorem Join_realElems (first e : GoString) (es : List GoString)
    (h : ∀ x ∈ e :: es, isRealElem x = true) :
    Join (first :: e :: es) = joinedHead first ++ (e ++ sepElems es) := by
  have hreal := h e (List.mem_cons_self _ _)
  have he : e ≠ [] := by
    unfold isRealElem at hreal
    simp only [Bool.and_eq_true, bne_iff_ne, ne_eq] at hreal
    exact hreal.1.1.1
  have key : ∀ p : GoString, p ≠ [] →
      cleanState p = ((cleanState first).1,
        ((e :: es).foldl (pushElem (cleanState first).1) (cleanState first).2)) →
      Clean p = joinedHead first ++ (e ++ sepElems es) := by
    intro p hp hst
    cases p with
    | nil => exact absurd rfl hp
    | cons c rest =>
      rw [Clean_cons_eq, hst]
      have hout := foldl_pushElem_cons_out (cleanState first).1 e es (cleanState first).2 h
        (fun hr => rootedInv_out_ne_nil (cleanState_rooted_inv first hr))
      simp only [hout, joinedHead]
      have : ((if needSep (cleanState first).1 (cleanState first).2.out = true then
          (cleanState first).2.out ++ [Separator] else (cleanState first).2.out)
            ++ (e ++ sepElems es)).length ≠ 0 := by
        have := List.length_pos.mpr he
        simp only [List.length_append]
        omega
      simp only [this, if_false]
  cases first with
  | nil =>
    have hj : Join ([] :: e :: es) = Clean (stringsJoin (e :: es) [Separator]) := by
      simp [Join, he]
    rw [hj, intercalate_cons_eq]
    apply key _ (by simp [he])
    cases e with
    | nil => exact absurd rfl he
    | cons c rest =>
      have hc : IsPathSeparator c = false := by
        unfold isRealElem at hreal
        simp only [Bool.and_eq_true, bne_iff_ne, ne_eq, List.all_cons] at hreal
        simpa using hreal.1.1.2.1
      have := cleanRun_elems false es (c :: rest) { out := [], dotdot := 0 } h
      simp only [List.cons_append] at this
      simp only [cleanState, List.cons_append, hc, Bool.false_eq_true, if_false, this]
  | cons c rest =>
    have hj : Join ((c :: rest) :: e :: es)
        = Clean ((c :: rest) ++ Separator :: (e ++ sepElems es)) := by
      have := intercalate_cons_eq (c :: rest) (e :: es)
      simp only [Join, ne_eq, reduceCtorEq, not_false_eq_true, if_true, this]
      simp [sepElems]
    rw [hj]
    apply key _ (by simp)
    rw [cleanState_append_sep, cleanRun_elems _ es e _ h]

theorem dropWhile_eq_self_of_head {p : Char → Bool} {c : Char} {l : List Char}
    (h : p c = false) : (c :: l).dropWhile p = c :: l := by
  simp [List.dropWhile, h]

/-- The last element of a path that ends in a separator followed by a real
element is that element. -/
theorem Base_append_sep (x e : GoString) (h : isRealElem e = true) :
    Base (x ++ Separator :: e) = e := by
  unfold isRealElem at h
  simp only [Bool.and_eq_true, bne_iff_ne, ne_eq] at h
  obtain ⟨⟨⟨hne, hall⟩, _⟩, _⟩ := h
  have hrev : (e.reverse).all (fun c => !IsPathSeparator c) = true := by
    simpa [List.all_eq_true] using hall
  have hstrip : ((x ++ Separator :: e).reverse.dropWhile IsPathSeparator).reverse
      = x ++ Separator :: e := by
    have hre : e.reverse ≠ [] := by simpa using hne
    cases hr : e.reverse with
    | nil => exact absurd hr hre
    | cons a t =>
      have ha : IsPathSeparator a = false := by
        rw [hr] at hrev
        simp only [List.all_cons, Bool.and_eq_true] at hrev
        simpa using hrev.1
      have : (x ++ Separator :: e).reverse = a :: (t ++ Separator :: x.reverse) := by
        simp [hr]
      rw [this, dropWhile_eq_self_of_head ha, ← this, List.reverse_reverse]
  have htake : ((x ++ Separator :: e).reverse.takeWhile (fun c => !IsPathSeparator c)).reverse
      = e := by
    have h1 : (x ++ Separator :: e).reverse = e.reverse ++ Separator :: x.reverse := by simp
    rw [h1, takeWhile_append_sep, takeWhile_of_all _ hrev, List.reverse_reverse]
  unfold Base
  cases hx : x ++ Separator :: e with
  | nil => simp at hx
  | cons a t =>
    simp only
    rw [← hx, hstrip, htake]
    simp [hne]

/-! ## Lemmas on the filesystem operations -/

theorem FS.set_apply (fs : FS) (name : GoString) (node : Node) (k : GoString) :
    (fs.set name node) k = if k = name then some node else fs k := rfl

theorem FS.set_same (fs : FS) (name : GoString) (node : Node) (h : fs name = some node) :
    fs.set name node = fs := by
  funext k
  by_cases hk : k = name
  · subst hk; simp [FS.set, h]
  · simp [FS.set, hk]

theorem FS.set_set (fs : FS) (name : GoString) (a b : Node) :
    (fs.set name a).set name b = fs.set name b := by
  funext k
  by_cases hk : k = name <;> simp [FS.set, hk]

theorem Stat_eq_none {fs : FS} {name : GoString} (h : Stat fs name = none) :
    fs name = none ∧ name ≠ [Separator] ∧ name ≠ ['.'] := by
  unfold Stat at h
  by_cases hr : name = [Separator] ∨ name = ['.']
  · simp [hr] at h
  · simp only [hr, if_false] at h
    exact ⟨h, fun h1 => hr (Or.inl h1), fun h2 => hr (Or.inr h2)⟩

theorem Stat_of_not_special {fs : FS} {name : GoString} (h1 : name ≠ [Separator])
    (h2 : name ≠ ['.']) : Stat fs name = fs name := by
  simp [Stat, h1, h2]

theorem Stat_file {fs : FS} {name : GoString} {m : Nat} {d : GoString}
    (h : Stat fs name = some (Node.file m d)) :
    fs name = some (Node.file m d) ∧ name ≠ [Separator] ∧ name ≠ ['.'] := by
  unfold Stat at h
  by_cases hr : name = [Separator] ∨ name = ['.']
  · simp [hr] at h
  · simp only [hr, if_false] at h
    exact ⟨h, fun h1 => hr (Or.inl h1), fun h2 => hr (Or.inr h2)⟩

theorem Stat_set_ne (fs : FS) (name k : GoString) (node : Node) (h : k ≠ name) :
    Stat (fs.set name node) k = Stat fs k := by
  simp [Stat, FS.set, h]

theorem Stat_set_self (fs : FS) (name : GoString) (node : Node) (h1 : name ≠ [Separator])
    (h2 : name ≠ ['.']) : Stat (fs.set name node) name = some node := by
  simp [Stat, FS.set, h1, h2]

theorem Stat_congr {fs fs' : FS} {name : GoString} (h : fs' name = fs name) :
    Stat fs' name = Stat fs name := by
  simp [Stat, h]

theorem parentOf_length {name p : GoString} (h : parentOf name = some p) :
    p.length < name.length := by
  unfold parentOf at h
  simp only at h
  split at h
  · rename_i hj
    simp only [Option.some.injEq] at h
    subst h
    have h1 : scanBackElem name (skipTrailingSep name) ≤ name.length := by
      unfold scanBackElem
      calc ((name.take (skipTrailingSep name)).reverse.dropWhile
              (fun c => !IsPathSeparator c)).length
          ≤ (name.take (skipTrailingSep name)).reverse.length :=
            (List.dropWhile_sublist _).length_le
        _ ≤ name.length := by simp [List.length_take]
    simp only [List.length_take]
    omega
  · simp at h

theorem pathAndParents_length :
    ∀ (n : Nat) (path x : GoString), x ∈ pathAndParents n path → x.length ≤ path.length := by
  intro n
  induction n with
  | zero =>
    intro path x hx
    simp only [pathAndParents, List.mem_singleton] at hx
    rw [hx]
  | succ n ih =>
    intro path x hx
    simp only [pathAndParents, List.mem_cons] at hx
    rcases hx with hx | hx
    · rw [hx]
    · cases hp : parentOf path with
      | none => simp [hp] at hx
      | some parent =>
        simp only [hp] at hx
        have := ih parent x hx
        have := parentOf_length hp
        omega

theorem Mkdir_cases (deny : GoString → Bool) (umask : Nat) (name : GoString) (perm : Nat) (fs : FS) :
    (∃ e, Mkdir deny umask name perm fs = (some e, fs)) ∨
    (Mkdir deny umask name perm fs = (none, fs.set name (Node.dir (andNot perm umask))) ∧ Stat fs name = none) := by
  unfold Mkdir
  by_cases h1 : (Stat fs name).isSome = true
  · left; exact ⟨_, by rw [if_pos h1]⟩
  · rw [if_neg h1]
    by_cases h2 : parentIsDir fs name = true
    · have h2' : ¬ ((!parentIsDir fs name) = true) := by simp [h2]
      rw [if_neg h2']
      by_cases h3 : deny name = true
      · left; exact ⟨_, by rw [if_pos h3]⟩
      · right
        refine ⟨by rw [if_neg h3], ?_⟩
        simpa using h1
    · have h2' : (!parentIsDir fs name) = true := by simpa using h2
      left; exact ⟨_, by rw [if_pos h2']⟩

/-- What `os.MkdirAll` changes: a name keeps its object, or it was free, is the
path or one of its parents, and now is a directory with the requested mode. -/
theorem MkdirAllFuel_touch (deny : GoString → Bool) (umask : Nat) (perm : Nat) :
    ∀ (fuel : Nat) (path : GoString) (fs : FS) (k : GoString),
      (MkdirAllFuel deny umask fuel path perm fs).2 k = fs k ∨
      (k ∈ pathAndParents fuel path ∧ Stat fs k = none ∧
        (MkdirAllFuel deny umask fuel path perm fs).2 k = some (Node.dir (andNot perm umask))) := by
  intro fuel
  induction fuel with
  | zero => intro path fs k; left; rfl
  | succ n ih =>
    intro path fs k
    rw [MkdirAllFuel]
    cases hs : Stat fs path with
    | some node =>
      cases node with
      | file m d => left; rfl
      | dir m => left; rfl
    | none =>
      simp only
      -- the recursive call on the parent
      have hpar : ∀ r : Option GoString × FS,
          (r.2 k = fs k ∨ (k ∈ pathAndParents (n + 1) path ∧ Stat fs k = none ∧
              r.2 k = some (Node.dir (andNot perm umask)))) →
          (Stat r.2 path = none → True) →
          ((match r with
            | (some err, fs1) => (some err, fs1)
            | (none, fs1) =>
              match Mkdir deny umask path perm fs1 with
              | (none, fs2) => (none, fs2)
              | (some err, fs2) =>
                if IsDir (Stat fs2 path) then (none, fs2) else (some err, fs2)).2 k = fs k ∨
            (k ∈ pathAndParents (n + 1) path ∧ Stat fs k = none ∧
              (match r with
              | (some err, fs1) => (some err, fs1)
              | (none, fs1) =>
                match Mkdir deny umask path perm fs1 with
                | (none, fs2) => (none, fs2)
                | (some err, fs2) =>
                  if IsDir (Stat fs2 path) then (none, fs2) else (some err, fs2)).2 k
                = some (Node.dir (andNot perm umask)))) := by
        intro r hr _
        obtain ⟨e, fs1⟩ := r
        cases e with
        | some err => simpa using hr
        | none =>
          simp only
          rcases Mkdir_cases deny umask path perm fs1 with ⟨e, he⟩ | ⟨hm, _⟩
          · rw [he]
            simp only
            split <;> simpa using hr
          · rw [hm]
            simp only
            by_cases hk : k = path
            · right
              subst hk
              refine ⟨by simp [pathAndParents], hs, by simp [FS.set]⟩
            · have : (fs1.set path (Node.dir (andNot perm umask))) k = fs1 k := by simp [FS.set, hk]
              rw [this]
              simpa using hr
      cases hp : parentOf path with
      | none =>
        exact hpar (none, fs) (Or.inl rfl) (fun _ => trivial)
      | some parent =>
        apply hpar (MkdirAllFuel deny umask n parent perm fs) _ (fun _ => trivial)
        rcases ih parent fs k with h | ⟨hmem, hst, hd⟩
        · left; exact h
        · right
          refine ⟨?_, hst, hd⟩
          simp [pathAndParents, hp, hmem]

theorem MkdirAllFuel_succ_none (deny : GoString → Bool) (umask : Nat) (n : Nat) (path : GoString) (perm : Nat)
    (fs : FS) (h : Stat fs path = none) :
    MkdirAllFuel deny umask (n + 1) path perm fs
      = mkdirTail deny umask path perm (mkdirParent deny umask n path perm fs) := by
  rw [MkdirAllFuel]
  simp only [h, mkdirTail, mkdirParent]

theorem MkdirAllFuel_succ_dir (deny : GoString → Bool) (umask : Nat) (n : Nat) (path : GoString) (perm : Nat)
    (fs : FS) (h : IsDir (Stat fs path) = true) :
    MkdirAllFuel deny umask (n + 1) path perm fs = (none, fs) := by
  rw [MkdirAllFuel]
  cases hs : Stat fs path with
  | none => simp [hs, IsDir] at h
  | some node =>
    cases node with
    | file m d => simp [hs, IsDir] at h
    | dir m => rfl

theorem MkdirAllFuel_succ_file (deny : GoString → Bool) (umask : Nat) (n : Nat) (path : GoString) (perm : Nat)
    (fs : FS) {m : Nat} {d : GoString} (h : Stat fs path = some (Node.file m d)) :
    MkdirAllFuel deny umask (n + 1) path perm fs
      = (some (pathError "mkdir".toList path Errno.ENOTDIR), fs) := by
  rw [MkdirAllFuel]
  simp only [h]

theorem mkdirParent_keeps (deny : GoString → Bool) (umask : Nat) (n : Nat) (path : GoString) (perm : Nat)
    (fs : FS) : (mkdirParent deny umask n path perm fs).2 path = fs path := by
  unfold mkdirParent
  cases hp : parentOf path with
  | none => rfl
  | some parent =>
    simp only
    rcases MkdirAllFuel_touch deny umask perm n parent fs path with h | ⟨hmem, _, _⟩
    · exact h
    · have h1 := pathAndParents_length n parent path hmem
      have h2 := parentOf_length hp
      omega

theorem mkdirTail_ok_isDir (deny : GoString → Bool) (umask : Nat) (path : GoString) (perm : Nat)
    (r : Option GoString × FS) (hsp : path ≠ [Separator] ∧ path ≠ ['.'])
    (h : (mkdirTail deny umask path perm r).1 = none) :
    IsDir (Stat (mkdirTail deny umask path perm r).2 path) = true := by
  obtain ⟨e, fs1⟩ := r
  cases e with
  | some err => simp [mkdirTail] at h
  | none =>
    unfold mkdirTail at h ⊢
    simp only at h ⊢
    rcases Mkdir_cases deny umask path perm fs1 with ⟨e, he⟩ | ⟨hm, _⟩
    · rw [he] at h ⊢
      simp only at h ⊢
      by_cases hd : IsDir (Stat fs1 path) = true
      · simp [hd]
      · simp [hd] at h
    · rw [hm]
      simp only
      rw [Stat_set_self _ _ _ hsp.1 hsp.2]
      rfl

/-- When `os.MkdirAll` returns nil, the path is a directory. -/
theorem MkdirAllFuel_ok_isDir (deny : GoString → Bool) (umask : Nat) (fuel : Nat) (path : GoString)
    (perm : Nat) (fs : FS) (h : (MkdirAllFuel deny umask fuel path perm fs).1 = none) :
    IsDir (Stat (MkdirAllFuel deny umask fuel path perm fs).2 path) = true := by
  cases fuel with
  | zero => simp [MkdirAllFuel] at h
  | succ n =>
    cases hs : Stat fs path with
    | some node =>
      cases node with
      | file m d => rw [MkdirAllFuel_succ_file deny umask n path perm fs hs] at h; simp at h
      | dir m =>
        have hd : IsDir (Stat fs path) = true := by rw [hs]; rfl
        rw [MkdirAllFuel_succ_dir deny umask n path perm fs hd]
        exact hd
    | none =>
      rw [MkdirAllFuel_succ_none deny umask n path perm fs hs] at h ⊢
      exact mkdirTail_ok_isDir deny umask path perm _ (Stat_eq_none hs).2 h

theorem mkdirTail_rerun (deny : GoString → Bool) (umask : Nat) (path : GoString) (perm : Nat)
    (r : Option GoString × FS) (hnone : Stat r.2 path = none)
    (n : Nat)
    (hpar : mkdirParent deny umask n path perm r.2 = r)
    (hpar' : ∀ fs2 : FS, fs2 = r.2.set path (Node.dir (andNot perm umask)) → True) :
    (Stat (mkdirTail deny umask path perm r).2 path = none →
      MkdirAllFuel deny umask (n + 1) path perm (mkdirTail deny umask path perm r).2
        = mkdirTail deny umask path perm r) ∧
    (Stat (mkdirTail deny umask path perm r).2 path ≠ none →
      MkdirAllFuel deny umask (n + 1) path perm (mkdirTail deny umask path perm r).2
        = mkdirTail deny umask path perm r) := by
  obtain ⟨e, fs1⟩ := r
  simp only at hnone hpar
  cases e with
  | some err =>
    have ht : mkdirTail deny umask path perm (some err, fs1) = (some err, fs1) := rfl
    rw [ht]
    simp only
    refine ⟨fun _ => ?_, fun h => absurd hnone h⟩
    rw [MkdirAllFuel_succ_none deny umask n path perm fs1 hnone, hpar, ht]
  | none =>
    rcases Mkdir_cases deny umask path perm fs1 with ⟨e, he⟩ | ⟨hm, _⟩
    · have hnd : IsDir (Stat fs1 path) = false := by rw [hnone]; rfl
      have ht : mkdirTail deny umask path perm (none, fs1) = (some e, fs1) := by
        simp [mkdirTail, he, hnd]
      rw [ht]
      simp only
      refine ⟨fun _ => ?_, fun h => absurd hnone h⟩
      rw [MkdirAllFuel_succ_none deny umask n path perm fs1 hnone, hpar, ht]
    · have ht : mkdirTail deny umask path perm (none, fs1) = (none, fs1.set path (Node.dir (andNot perm umask))) := by
        simp [mkdirTail, hm]
      rw [ht]
      simp only
      have hsp := (Stat_eq_none hnone).2
      have hd : IsDir (Stat (fs1.set path (Node.dir (andNot perm umask))) path) = true := by
        rw [Stat_set_self _ _ _ hsp.1 hsp.2]; rfl
      refine ⟨fun _ => ?_, fun _ => ?_⟩ <;>
        exact MkdirAllFuel_succ_dir deny umask n path perm _ hd

/-- Running `os.MkdirAll` again on the state it left gives the same result and
changes nothing. -/
theorem MkdirAllFuel_rerun (deny : GoString → Bool) (umask : Nat) (perm : Nat) :
    ∀ (fuel : Nat) (path : GoString) (fs : FS),
      MkdirAllFuel deny umask fuel path perm (MkdirAllFuel deny umask fuel path perm fs).2
        = MkdirAllFuel deny umask fuel path perm fs := by
  intro fuel
  induction fuel with
  | zero => intro path fs; rfl
  | succ n ih =>
    intro path fs
    cases hs : Stat fs path with
    | some node =>
      cases node with
      | file m d =>
        rw [MkdirAllFuel_succ_file deny umask n path perm fs hs]
        exact MkdirAllFuel_succ_file deny umask n path perm fs hs
      | dir m =>
        have hd : IsDir (Stat fs path) = true := by rw [hs]; rfl
        rw [MkdirAllFuel_succ_dir deny umask n path perm fs hd]
        exact MkdirAllFuel_succ_dir deny umask n path perm fs hd
    | none =>
      rw [MkdirAllFuel_succ_none deny umask n path perm fs hs]
      have hkeep := mkdirParent_keeps deny umask n path perm fs
      have hnone : Stat (mkdirParent deny umask n path perm fs).2 path = none := by
        rw [Stat_congr hkeep]; exact hs
      have hpar : mkdirParent deny umask n path perm (mkdirParent deny umask n path perm fs).2
          = mkdirParent deny umask n path perm fs := by
        unfold mkdirParent
        cases hp : parentOf path with
        | none => rfl
        | some parent => exact ih parent fs
      have := mkdirTail_rerun deny umask path perm (mkdirParent deny umask n path perm fs) hnone n hpar
        (fun _ _ => trivial)
      by_cases hq : Stat (mkdirTail deny umask path perm (mkdirParent deny umask n path perm fs)).2 path = none
      · exact this.1 hq
      · exact this.2 hq

/-- The bound on the recursion of `os.MkdirAll` is never reached: more fuel than
the length of the path plus one changes nothing. -/
theorem MkdirAllFuel_adequate (deny : GoString → Bool) (umask : Nat) (perm : Nat) :
    ∀ (fuel : Nat) (path : GoString) (fs : FS), path.length < fuel →
      MkdirAllFuel deny umask fuel path perm fs = MkdirAll deny umask path perm fs := by
  intro fuel
  induction fuel using Nat.strong_induction_on with
  | _ fuel ih =>
    intro path fs hlt
    unfold MkdirAll
    cases fuel with
    | zero => omega
    | succ n =>
      cases hs : Stat fs path with
      | some node =>
        cases node with
        | file m d =>
          rw [MkdirAllFuel_succ_file deny umask n path perm fs hs,
            MkdirAllFuel_succ_file deny umask _ path perm fs hs]
        | dir m =>
          have hd : IsDir (Stat fs path) = true := by rw [hs]; rfl
          rw [MkdirAllFuel_succ_dir deny umask n path perm fs hd,
            MkdirAllFuel_succ_dir deny umask _ path perm fs hd]
      | none =>
        rw [MkdirAllFuel_succ_none deny umask n path perm fs hs,
          MkdirAllFuel_succ_none deny umask _ path perm fs hs]
        congr 1
        unfold mkdirParent
        cases hp : parentOf path with
        | none => rfl
        | some parent =>
          simp only
          have hlen := parentOf_length hp
          rw [ih n (Nat.lt_succ_self n) parent fs (by omega),
            ih path.length (by omega) parent fs hlen]

theorem writeResult_ok {fault : GoString → GoString → Option (GoString × GoString)}
    {name data : GoString}
    (h : (writeResult fault name data).1 = none) : (writeResult fault name data).2 = data := by
  unfold writeResult at h ⊢
  cases hf : fault name data with
  | none => rfl
  | some left => simp [hf] at h

/-- The two ways `os.WriteFile` ends: the open fails and nothing changes, or the
file is opened, so that it exists with the mode an existing file had or the mode
of a new file, and holds what the write left. -/
theorem WriteFile_shape (deny : GoString → Bool)
    (fault : GoString → GoString → Option (GoString × GoString))
    (umask : Nat) (name data : GoString) (perm : Nat) (fs : FS) :
    (∃ e, WriteFile deny fault umask name data perm fs = (some e, fs)) ∨
    (WriteFile deny fault umask name data perm fs
        = ((writeResult fault name data).1,
            fs.set name (Node.file (modeAfterWrite fs name (andNot perm umask))
              (writeResult fault name data).2)) ∧
      deny name = false ∧ name ≠ [Separator] ∧ name ≠ ['.'] ∧ IsDir (Stat fs name) = false) := by
  unfold WriteFile modeAfterWrite
  cases hs : Stat fs name with
  | some node =>
    cases node with
    | dir m => left; exact ⟨_, rfl⟩
    | file m d =>
      simp only
      by_cases hd : deny name = true
      · left; exact ⟨_, by rw [if_pos hd]⟩
      · right
        have hsp := (Stat_file hs).2
        exact ⟨by rw [if_neg hd], by simpa using hd, hsp.1, hsp.2, rfl⟩
  | none =>
    simp only
    by_cases hp : parentIsDir fs name = true
    · have hp' : ¬ ((!parentIsDir fs name) = true) := by simp [hp]
      rw [if_neg hp']
      by_cases hd : deny name = true
      · left; exact ⟨_, by rw [if_pos hd]⟩
      · right
        have hsp := (Stat_eq_none hs).2
        exact ⟨by rw [if_neg hd], by simpa using hd, hsp.1, hsp.2, rfl⟩
    · have hp' : (!parentIsDir fs name) = true := by simpa using hp
      left; exact ⟨_, by rw [if_pos hp']⟩

theorem WriteFile_on_file (deny : GoString → Bool)
    (fault : GoString → GoString → Option (GoString × GoString))
    (umask : Nat) (name data : GoString) (perm : Nat) (fs : FS)
    {mode : Nat} {old : GoString} (hs : Stat fs name = some (Node.file mode old))
    (hd : deny name = false) :
    WriteFile deny fault umask name data perm fs
      = ((writeResult fault name data).1,
          fs.set name (Node.file mode (writeResult fault name data).2)) := by
  unfold WriteFile
  simp [hs, hd]

/-- Whatever `os.WriteFile` returns, it changes no name but its own. -/
theorem WriteFile_frame (deny : GoString → Bool)
    (fault : GoString → GoString → Option (GoString × GoString))
    (umask : Nat) (name data : GoString) (perm : Nat) (fs : FS)
    {e : Option GoString} {fs' : FS} (h : WriteFile deny fault umask name data perm fs = (e, fs'))
    {k : GoString} (hk : k ≠ name) : fs' k = fs k := by
  rcases WriteFile_shape deny fault umask name data perm fs with ⟨e', he⟩ | ⟨hsh, _⟩
  · rw [he] at h
    rw [← (Prod.mk.inj h).2]
  · rw [hsh] at h
    rw [← (Prod.mk.inj h).2]
    simp [FS.set, hk]

/-- A successful `os.WriteFile`: the file holds the data, with the mode an
existing file had or `perm &^ umask` for a new one. -/
theorem WriteFile_ok_mode (deny : GoString → Bool)
    (fault : GoString → GoString → Option (GoString × GoString)) (umask : Nat) (name data : GoString)
    (perm : Nat) (fs : FS) {fs' : FS}
    (h : WriteFile deny fault umask name data perm fs = (none, fs')) :
    fs' = fs.set name (Node.file (modeAfterWrite fs name (andNot perm umask)) data) ∧
      name ≠ [Separator] ∧ name ≠ ['.'] ∧ IsDir (Stat fs name) = false := by
  rcases WriteFile_shape deny fault umask name data perm fs with ⟨e', he⟩ | ⟨hsh, _, h1, h2, h3⟩
  · rw [he] at h
    simp at h
  · rw [hsh] at h
    obtain ⟨hres, hfs⟩ := Prod.mk.inj h
    rw [writeResult_ok hres] at hfs
    exact ⟨hfs.symm, h1, h2, h3⟩

theorem MkdirAll_of_isDir (deny : GoString → Bool) (umask : Nat) (path : GoString) (perm : Nat) (fs : FS)
    (h : IsDir (Stat fs path) = true) : MkdirAll deny umask path perm fs = (none, fs) :=
  MkdirAllFuel_succ_dir deny umask path.length path perm fs h

theorem MkdirAll_rerun (deny : GoString → Bool) (umask : Nat) (path : GoString) (perm : Nat) (fs : FS)
    {e : Option GoString} {fs' : FS} (h : MkdirAll deny umask path perm fs = (e, fs')) :
    MkdirAll deny umask path perm fs' = (e, fs') := by
  have := MkdirAllFuel_rerun deny umask perm (path.length + 1) path fs
  unfold MkdirAll at h ⊢
  rw [h] at this
  exact this

theorem MkdirAll_ok_isDir (deny : GoString → Bool) (umask : Nat) (path : GoString) (perm : Nat) (fs : FS)
    {fs' : FS} (h : MkdirAll deny umask path perm fs = (none, fs')) : IsDir (Stat fs' path) = true := by
  have := MkdirAllFuel_ok_isDir deny umask (path.length + 1) path perm fs
  unfold MkdirAll at h
  rw [h] at this
  exact this rfl

/-- A name bound to an object keeps that object through `os.MkdirAll`. -/
theorem MkdirAll_keeps (deny : GoString → Bool) (umask : Nat) (path : GoString) (perm : Nat) (fs : FS)
    {e : Option GoString} {fs' : FS} (h : MkdirAll deny umask path perm fs = (e, fs'))
    {k : GoString} (hk : Stat fs k ≠ none) : fs' k = fs k := by
  have := MkdirAllFuel_touch deny umask perm (path.length + 1) path fs k
  unfold MkdirAll at h
  rw [h] at this
  rcases this with h1 | ⟨_, h2, _⟩
  · exact h1
  · exact absurd h2 hk

/-- A name that is neither the path nor one of its parents is left as it was by
`os.MkdirAll`. -/
theorem MkdirAll_frame (deny : GoString → Bool) (umask : Nat) (path : GoString) (perm : Nat) (fs : FS)
    {e : Option GoString} {fs' : FS} (h : MkdirAll deny umask path perm fs = (e, fs'))
    {k : GoString} (hk : k ∉ pathAndParents (path.length + 1) path) : fs' k = fs k := by
  have := MkdirAllFuel_touch deny umask perm (path.length + 1) path fs k
  unfold MkdirAll at h
  rw [h] at this
  rcases this with h1 | ⟨h2, _, _⟩
  · exact h1
  · exact absurd h2 hk

theorem Stat_keeps {fs fs' : FS} {k : GoString} (h : fs' k = fs k) : Stat fs' k = Stat fs k :=
  Stat_congr h

/-! ## The runs of `RunE` -/

/-- Every run of `RunE` is one of the cases of `Run`. -/
theorem RunE_run (env : Env) (flags : Flags) (fs : FS) : Run env flags fs (RunE env flags fs) := by
  cases h1 : env.userHomeDir with
  | error e =>
    have := @Run.homeDirFails env flags fs e h1
    simpa only [RunE, h1] using this
  | ok homeDir =>
  cases h2 : resolveManifestPath env.dataHome flags.Browser flags.ProfileDirectory with
  | none =>
    have := @Run.invalidBrowser env flags fs homeDir h1 h2
    simpa only [RunE, h1, h2] using this
  | some p1 =>
  rcases h3 : MkdirAll env.deny env.umask (Dir p1) 0o755 fs with ⟨e3, fs1⟩
  cases e3 with
  | some e =>
    have := Run.manifestDirFails homeDir p1 e fs1 h1 h2 h3
    simpa only [RunE, h1, h2, h3, List.cons_append, List.nil_append] using this
  | none =>
  cases h4 : env.manifestTmpl homeDir flags.ExtensionID with
  | error e =>
    have := Run.manifestRenderFails homeDir p1 e fs1 h1 h2 h3 h4
    simpa only [RunE, h1, h2, h3, h4, List.cons_append, List.nil_append] using this
  | ok b1 =>
  rcases h5 : WriteFile env.deny env.writeFault env.umask p1 b1 0o644 fs1 with ⟨e5, fs2⟩
  cases e5 with
  | some e =>
    have := Run.manifestWriteFails homeDir p1 b1 e fs1 fs2 h1 h2 h3 h4 h5
    simpa only [RunE, h1, h2, h3, h4, h5, List.cons_append, List.nil_append] using this
  | none =>
  rcases h6 : MkdirAll env.deny env.umask (localBin homeDir) 0o755 fs2 with ⟨e6, fs3⟩
  cases e6 with
  | some e =>
    have := Run.binDirFails homeDir p1 b1 e fs1 fs2 fs3 h1 h2 h3 h4 h5 h6
    simpa only [RunE, h1, h2, h3, h4, h5, h6, List.cons_append, List.nil_append] using this
  | none =>
  cases h7 : env.executable with
  | error e =>
    have := Run.executableFails homeDir p1 b1 e fs1 fs2 fs3 h1 h2 h3 h4 h5 h6 h7
    simpa only [RunE, h1, h2, h3, h4, h5, h6, h7, List.cons_append, List.nil_append] using this
  | ok execPath =>
  cases h8 : env.entrypointTmpl execPath flags.Browser with
  | error e =>
    have := Run.entrypointRenderFails homeDir p1 b1 execPath e fs1 fs2 fs3 h1 h2 h3 h4 h5 h6 h7 h8
    simpa only [RunE, h1, h2, h3, h4, h5, h6, h7, h8, List.cons_append, List.nil_append] using this
  | ok b2 =>
  rcases h9 : WriteFile env.deny env.writeFault env.umask (entrypointPath homeDir) b2 0o755 fs3 with ⟨e9, fs4⟩
  cases e9 with
  | some e =>
    have := Run.entrypointWriteFails homeDir p1 b1 execPath b2 e fs1 fs2 fs3 fs4
      h1 h2 h3 h4 h5 h6 h7 h8 h9
    simpa only [RunE, h1, h2, h3, h4, h5, h6, h7, h8, h9, List.cons_append, List.nil_append]
      using this
  | none =>
    have := Run.done homeDir p1 b1 execPath b2 fs1 fs2 fs3 fs4 h1 h2 h3 h4 h5 h6 h7 h8 h9
    simpa only [RunE, h1, h2, h3, h4, h5, h6, h7, h8, h9, List.cons_append, List.nil_append]
      using this

/-! ## Running the command twice -/

theorem isDir_ne_of_not_isDir {fs : FS} {d p : GoString} (hd : IsDir (Stat fs d) = true)
    (hp : IsDir (Stat fs p) = false) : d ≠ p := by
  intro h
  rw [h, hp] at hd
  exact absurd hd (by simp)

theorem Stat_ne_none_of_isDir {fs : FS} {d : GoString} (hd : IsDir (Stat fs d) = true) :
    Stat fs d ≠ none := by
  intro h
  rw [h] at hd
  simp [IsDir] at hd

/-- Running `RunE` again on the filesystem it left, with the same environment
and flags, gives the same outcome: the same error or success, the same steps
with the same arguments (so the same bytes are written), the same messages, and
the same final filesystem. -/
theorem RunE_rerun (env : Env) (flags : Flags) (fs : FS) :
    RunE env flags (RunE env flags fs).fs = RunE env flags fs := by
  cases h1 : env.userHomeDir with
  | error e => simp only [RunE, h1]
  | ok homeDir =>
  cases h2 : resolveManifestPath env.dataHome flags.Browser flags.ProfileDirectory with
  | none => simp only [RunE, h1, h2]
  | some p1 =>
  rcases hM1 : MkdirAll env.deny env.umask (Dir p1) 0o755 fs with ⟨e3, fs1⟩
  have hM1' := MkdirAll_rerun env.deny env.umask (Dir p1) 0o755 fs hM1
  cases e3 with
  | some e => simp only [RunE, h1, h2, hM1, hM1']
  | none =>
  have hd1 := MkdirAll_ok_isDir env.deny env.umask (Dir p1) 0o755 fs hM1
  cases h4 : env.manifestTmpl homeDir flags.ExtensionID with
  | error e => simp only [RunE, h1, h2, hM1, hM1', h4]
  | ok b1 =>
  rcases hW1 : WriteFile env.deny env.writeFault env.umask p1 b1 0o644 fs1 with ⟨e5, fs2⟩
  rcases WriteFile_shape env.deny env.writeFault env.umask p1 b1 0o644 fs1 with
    ⟨e, he⟩ | ⟨hsh, hdeny1, hsp1a, hsp1b, hnd1⟩
  · -- the open failed: nothing changed
    rw [he] at hW1
    obtain ⟨he5, hfs2⟩ := Prod.mk.inj hW1
    subst he5 hfs2
    simp only [RunE, h1, h2, hM1, hM1', h4, he]
  have hW1' := hW1
  rw [hsh] at hW1
  obtain ⟨he5, hfs2⟩ := Prod.mk.inj hW1
  have hW1on : ∀ (fs' : FS) (m : Nat) (old : GoString), Stat fs' p1 = some (Node.file m old) →
      WriteFile env.deny env.writeFault env.umask p1 b1 0o644 fs'
        = (e5, fs'.set p1 (Node.file m (writeResult env.writeFault p1 b1).2)) := by
    intro fs' m old hs
    rw [WriteFile_on_file env.deny env.writeFault env.umask p1 b1 0o644 fs' hs hdeny1, he5]
  have hne1 : Dir p1 ≠ p1 := isDir_ne_of_not_isDir hd1 hnd1
  have hd1_2 : IsDir (Stat fs2 (Dir p1)) = true := by
    rw [← hfs2, Stat_set_ne _ _ _ _ hne1]; exact hd1
  have hf1_2 : fs2 p1 = some (Node.file (modeAfterWrite fs1 p1 (andNot 0o644 env.umask))
      (writeResult env.writeFault p1 b1).2) := by
    rw [← hfs2]; simp [FS.set]
  have hs1_2 : Stat fs2 p1 = some (Node.file (modeAfterWrite fs1 p1 (andNot 0o644 env.umask))
      (writeResult env.writeFault p1 b1).2) := by
    rw [Stat_of_not_special hsp1a hsp1b]; exact hf1_2
  cases e5 with
  | some e =>
    -- the write failed after the open: the file holds what was left
    have hA : MkdirAll env.deny env.umask (Dir p1) 0o755 fs2 = (none, fs2) :=
      MkdirAll_of_isDir env.deny env.umask _ _ fs2 hd1_2
    have hB : WriteFile env.deny env.writeFault env.umask p1 b1 0o644 fs2 = (some e, fs2) := by
      rw [hW1on fs2 _ _ hs1_2, FS.set_same fs2 p1 _ hf1_2]
    simp only [RunE, h1, h2, hM1, h4, hW1', hA, hB]
  | none =>
  rcases hM2 : MkdirAll env.deny env.umask (localBin homeDir) 0o755 fs2 with ⟨e6, fs3⟩
  have hM2' := MkdirAll_rerun env.deny env.umask (localBin homeDir) 0o755 fs2 hM2
  have hd1_3 : IsDir (Stat fs3 (Dir p1)) = true := by
    rw [Stat_keeps (MkdirAll_keeps env.deny env.umask _ _ fs2 hM2 (Stat_ne_none_of_isDir hd1_2))]
    exact hd1_2
  have hf1_3 : fs3 p1 = some (Node.file (modeAfterWrite fs1 p1 (andNot 0o644 env.umask))
      (writeResult env.writeFault p1 b1).2) := by
    rw [MkdirAll_keeps env.deny env.umask _ _ fs2 hM2 (by rw [hs1_2]; simp)]; exact hf1_2
  have hs1_3 : Stat fs3 p1 = some (Node.file (modeAfterWrite fs1 p1 (andNot 0o644 env.umask))
      (writeResult env.writeFault p1 b1).2) := by
    rw [Stat_of_not_special hsp1a hsp1b]; exact hf1_3
  have hA : MkdirAll env.deny env.umask (Dir p1) 0o755 fs3 = (none, fs3) :=
    MkdirAll_of_isDir env.deny env.umask _ _ fs3 hd1_3
  have hB : WriteFile env.deny env.writeFault env.umask p1 b1 0o644 fs3 = (none, fs3) := by
    rw [hW1on fs3 _ _ hs1_3, FS.set_same fs3 p1 _ hf1_3]
  cases e6 with
  | some e => simp only [RunE, h1, h2, hM1, h4, hW1', hM2, hA, hB, hM2']
  | none =>
  have hd2 := MkdirAll_ok_isDir env.deny env.umask (localBin homeDir) 0o755 fs2 hM2
  cases h7 : env.executable with
  | error e => simp only [RunE, h1, h2, hM1, h4, hW1', hM2, hA, hB, hM2', h7]
  | ok execPath =>
  cases h8 : env.entrypointTmpl execPath flags.Browser with
  | error e => simp only [RunE, h1, h2, hM1, h4, hW1', hM2, hA, hB, hM2', h7, h8]
  | ok b2 =>
  rcases hW2 : WriteFile env.deny env.writeFault env.umask (entrypointPath homeDir) b2 0o755 fs3
    with ⟨e9, fs4⟩
  rcases WriteFile_shape env.deny env.writeFault env.umask (entrypointPath homeDir) b2 0o755 fs3
    with ⟨e, he⟩ | ⟨hsh2, hdeny2, hsp2a, hsp2b, hnd2⟩
  · -- the open failed: nothing changed
    rw [he] at hW2
    obtain ⟨he9, hfs4⟩ := Prod.mk.inj hW2
    subst he9 hfs4
    simp only [RunE, h1, h2, hM1, h4, hW1', hM2, hA, hB, hM2', h7, h8, he]
  have hW2' := hW2
  rw [hsh2] at hW2
  obtain ⟨he9, hfs4⟩ := Prod.mk.inj hW2
  have hne2 : Dir p1 ≠ entrypointPath homeDir := isDir_ne_of_not_isDir hd1_3 hnd2
  have hne3 : localBin homeDir ≠ entrypointPath homeDir := isDir_ne_of_not_isDir hd2 hnd2
  have hne4 : localBin homeDir ≠ p1 :=
    isDir_ne_of_not_isDir hd2 (by rw [hs1_3]; rfl)
  have hf2_4 : fs4 (entrypointPath homeDir)
      = some (Node.file (modeAfterWrite fs3 (entrypointPath homeDir) (andNot 0o755 env.umask))
          (writeResult env.writeFault (entrypointPath homeDir) b2).2) := by
    rw [← hfs4]; simp [FS.set]
  -- the second run, step by step
  have hA4 : MkdirAll env.deny env.umask (Dir p1) 0o755 fs4 = (none, fs4) := by
    apply MkdirAll_of_isDir
    rw [← hfs4, Stat_set_ne _ _ _ _ hne2]; exact hd1_3
  obtain ⟨m, old, hs1_4⟩ : ∃ m old, Stat fs4 p1 = some (Node.file m old) := by
    by_cases hp : p1 = entrypointPath homeDir
    · refine ⟨modeAfterWrite fs3 (entrypointPath homeDir) (andNot 0o755 env.umask),
        (writeResult env.writeFault (entrypointPath homeDir) b2).2, ?_⟩
      rw [hp, Stat_of_not_special hsp2a hsp2b]; exact hf2_4
    · refine ⟨modeAfterWrite fs1 p1 (andNot 0o644 env.umask),
        (writeResult env.writeFault p1 b1).2, ?_⟩
      rw [← hfs4, Stat_set_ne _ _ _ _ hp]; exact hs1_3
  have hB4 : WriteFile env.deny env.writeFault env.umask p1 b1 0o644 fs4
      = (none, fs4.set p1 (Node.file m (writeResult env.writeFault p1 b1).2)) :=
    hW1on fs4 m old hs1_4
  have hC4 : MkdirAll env.deny env.umask (localBin homeDir) 0o755
        (fs4.set p1 (Node.file m (writeResult env.writeFault p1 b1).2))
      = (none, fs4.set p1 (Node.file m (writeResult env.writeFault p1 b1).2)) := by
    apply MkdirAll_of_isDir
    rw [Stat_set_ne _ _ _ _ hne4, ← hfs4, Stat_set_ne _ _ _ _ hne3]; exact hd2
  have hD4 : WriteFile env.deny env.writeFault env.umask (entrypointPath homeDir) b2 0o755
        (fs4.set p1 (Node.file m (writeResult env.writeFault p1 b1).2))
      = (e9, fs4) := by
    by_cases hp : p1 = entrypointPath homeDir
    · have hm : m = modeAfterWrite fs3 (entrypointPath homeDir) (andNot 0o755 env.umask) := by
        rw [hp, Stat_of_not_special hsp2a hsp2b, hf2_4] at hs1_4
        simp only [Option.some.injEq, Node.file.injEq] at hs1_4
        exact hs1_4.1.symm
      rw [hp]
      have hs : Stat (fs4.set (entrypointPath homeDir)
            (Node.file m (writeResult env.writeFault (entrypointPath homeDir) b1).2))
            (entrypointPath homeDir)
          = some (Node.file m (writeResult env.writeFault (entrypointPath homeDir) b1).2) :=
        Stat_set_self _ _ _ hsp2a hsp2b
      rw [WriteFile_on_file env.deny env.writeFault env.umask _ b2 0o755 _ hs hdeny2, FS.set_set,
        he9, hm, FS.set_same fs4 _ _ hf2_4]
    · have hf : fs4 p1 = some (Node.file m old) := (Stat_file hs1_4).1
      have hold : Stat fs4 p1 = some (Node.file (modeAfterWrite fs1 p1 (andNot 0o644 env.umask))
          (writeResult env.writeFault p1 b1).2) := by
        rw [← hfs4, Stat_set_ne _ _ _ _ hp]; exact hs1_3
      rw [hs1_4] at hold
      simp only [Option.some.injEq, Node.file.injEq] at hold
      have hf' : fs4 p1 = some (Node.file m (writeResult env.writeFault p1 b1).2) := by
        rw [hf, hold.2]
      rw [FS.set_same fs4 p1 _ hf']
      have hs : Stat fs4 (entrypointPath homeDir)
          = some (Node.file (modeAfterWrite fs3 (entrypointPath homeDir) (andNot 0o755 env.umask))
              (writeResult env.writeFault (entrypointPath homeDir) b2).2) := by
        rw [Stat_of_not_special hsp2a hsp2b]; exact hf2_4
      rw [WriteFile_on_file env.deny env.writeFault env.umask _ b2 0o755 fs4 hs hdeny2, he9,
        FS.set_same fs4 _ _ hf2_4]
  cases e9 with
  | some e => simp only [RunE, h1, h2, hM1, h4, hW1', hM2, h7, h8, hW2', hA4, hB4, hC4, hD4]
  | none => simp only [RunE, h1, h2, hM1, h4, hW1', hM2, h7, h8, hW2', hA4, hB4, hC4, hD4]

theorem lookup_eq_none_of_not_mem (k : GoString) :
    ∀ l : List (GoString × GoString), k ∉ l.map Prod.fst → l.lookup k = none := by
  intro l
  induction l with
  | nil => intro _; rfl
  | cons x xs ih =>
    intro h
    simp only [List.map_cons, List.mem_cons, not_or] at h
    obtain ⟨a, b⟩ := x
    have hne : (k == a) = false := by simpa using h.1
    simp only [List.lookup, hne]
    exact ih h.2

theorem lookup_isSome_of_mem (k : GoString) :
    ∀ l : List (GoString × GoString), k ∈ l.map Prod.fst → ∃ v, l.lookup k = some v := by
  intro l
  induction l with
  | nil => intro h; simp at h
  | cons x xs ih =>
    intro h
    obtain ⟨a, b⟩ := x
    by_cases hk : k = a
    · exact ⟨b, by simp [List.lookup, hk]⟩
    · have hne : (k == a) = false := by simpa using hk
      simp only [List.map_cons, List.mem_cons] at h
      rcases h with h | h
      · exact absurd h hk
      · obtain ⟨v, hv⟩ := ih h
        exact ⟨v, by simp only [List.lookup, hne]; exact hv⟩

theorem resolveManifestPath_eq_none_iff (dataHome browser profileDirectory : GoString) :
    resolveManifestPath dataHome browser profileDirectory = none
      ↔ browser ∉ (manifestPaths dataHome).map Prod.fst := by
  constructor
  · intro h hmem
    obtain ⟨v, hv⟩ := lookup_isSome_of_mem browser _ hmem
    unfold resolveManifestPath at h
    rw [hv] at h
    simp only at h
    split at h <;> simp at h
  · intro h
    unfold resolveManifestPath
    rw [lookup_eq_none_of_not_mem browser _ h]

theorem manifestPaths_keys (dataHome : GoString) :
    (manifestPaths dataHome).map Prod.fst
      = ["chrome".toList, "chrome-beta".toList, "edge".toList, "brave".toList,
          "vivaldi".toList, "arc".toList] := rfl

theorem browserCompletion_eq (iter : List (GoString × GoString)) (args : List GoString)
    (toComplete : GoString) : (browserCompletion iter args toComplete).1 = iter.map Prod.fst := by
  unfold browserCompletion
  have : ∀ (l : List (GoString × GoString)) (acc : List GoString),
      l.foldl (fun completions entry => completions ++ [entry.1]) acc = acc ++ l.map Prod.fst := by
    intro l
    induction l with
    | nil => intro acc; simp
    | cons x xs ih => intro acc; simp [ih]
  simpa using this iter []

theorem modeAfterWrite_MkdirAll (deny : GoString → Bool) (umask : Nat) (path : GoString) (perm : Nat) (fs : FS)
    {e : Option GoString} {fs' : FS} (h : MkdirAll deny umask path perm fs = (e, fs'))
    (name : GoString) (p : Nat) (hnd : IsDir (Stat fs' name) = false) :
    modeAfterWrite fs' name p = modeAfterWrite fs name p := by
  have := MkdirAllFuel_touch deny umask perm (path.length + 1) path fs name
  unfold MkdirAll at h
  rw [h] at this
  rcases this with h1 | ⟨_, h2, h3⟩
  · unfold modeAfterWrite
    rw [Stat_congr h1]
  · have hsp := (Stat_eq_none h2).2
    have h3' : fs' name = some (Node.dir (andNot perm umask)) := h3
    rw [Stat_of_not_special hsp.1 hsp.2, h3'] at hnd
    simp [IsDir] at hnd

theorem MkdirAll_isDir_mono (deny : GoString → Bool) (umask : Nat) (path : GoString) (perm : Nat) (fs : FS)
    {e : Option GoString} {fs' : FS} (h : MkdirAll deny umask path perm fs = (e, fs'))
    {name : GoString} (hd : IsDir (Stat fs name) = true) : IsDir (Stat fs' name) = true := by
  rw [Stat_keeps (MkdirAll_keeps deny umask path perm fs h (Stat_ne_none_of_isDir hd))]
  exact hd

/-! ## The manifest path table -/

theorem joinedHead_of_isAbs (first : GoString) (h : IsAbs first = true) :
    Clean first ≠ [] ∧ (Clean first).head? = some Separator ∧
    joinedHead first = if Clean first = [Separator] then [Separator] else Clean first ++ [Separator] := by
  cases first with
  | nil => simp [IsAbs] at h
  | cons c rest =>
    have hc : IsPathSeparator c = true := by simpa [IsAbs, IsPathSeparator] using h
    have hr : (cleanState (c :: rest)).1 = true := by simp [cleanState, hc]
    have hinv := cleanState_rooted_inv (c :: rest) hr
    have hne := rootedInv_out_ne_nil hinv
    have hlen : (cleanState (c :: rest)).2.out.length ≠ 0 := by
      simpa [List.length_eq_zero] using hne
    have hclean : Clean (c :: rest) = (cleanState (c :: rest)).2.out := by
      rw [Clean_cons_eq]; simp [hlen]
    rw [hclean]
    refine ⟨hne, hinv.1, ?_⟩
    unfold joinedHead
    rw [hr]
    by_cases h1 : (cleanState (c :: rest)).2.out.length = 1
    · have : (cleanState (c :: rest)).2.out = [Separator] := by
        have h' := hinv.1
        cases hout : (cleanState (c :: rest)).2.out with
        | nil => exact absurd hout hne
        | cons a t =>
          rw [hout] at h1 h'
          simp only [List.length_cons, Nat.add_left_eq_self, List.length_eq_zero] at h1
          simp only [List.head?_cons, Option.some.injEq] at h'
          rw [h1, h']
      simp [needSep, h1, this]
    · have : (cleanState (c :: rest)).2.out ≠ [Separator] := by
        intro h2
        rw [h2] at h1
        exact h1 rfl
      simp [needSep, h1, this]

theorem joinedHead_isAbs (first rest : GoString) (h : IsAbs first = true) :
    IsAbs (joinedHead first ++ rest) = true := by
  obtain ⟨hne, hhead, hj⟩ := joinedHead_of_isAbs first h
  rw [hj]
  cases hcl : Clean first with
  | nil => exact absurd hcl hne
  | cons a t =>
    rw [hcl] at hhead
    simp only [List.head?_cons, Option.some.injEq] at hhead
    subst hhead
    split <;> simp [IsAbs]

theorem isAbs_iff_head? (path : GoString) : IsAbs path = true ↔ path.head? = some Separator := by
  cases path with
  | nil => simp [IsAbs]
  | cons c rest => simp [IsAbs]

/-- Each entry of `manifestPaths`: the cleaned data home, the directory of the
browser, and the manifest name. -/
theorem manifestPaths_lookup (dataHome browser dir : GoString)
    (h : (browser, dir) ∈ browserDirs) :
    (manifestPaths dataHome).lookup browser
      = some (joinedHead dataHome ++ dir ++ Separator :: manifestName) := by
  simp only [browserDirs, List.mem_cons, Prod.mk.injEq, List.mem_singleton, List.not_mem_nil,
    or_false] at h
  rcases h with ⟨hb, hd⟩ | ⟨hb, hd⟩ | ⟨hb, hd⟩ | ⟨hb, hd⟩ | ⟨hb, hd⟩ | ⟨hb, hd⟩ <;> subst hb hd
  · have : (manifestPaths dataHome).lookup "chrome".toList
        = some (Join [dataHome, "Google".toList, "Chrome".toList,
            "NativeMessagingHosts".toList, manifestName]) := rfl
    rw [this, Join_realElems _ _ _ (by decide), List.append_assoc]
    rfl
  · have : (manifestPaths dataHome).lookup "chrome-beta".toList
        = some (Join [dataHome, "Google".toList, "Chrome Beta".toList,
            "NativeMessagingHosts".toList, manifestName]) := rfl
    rw [this, Join_realElems _ _ _ (by decide), List.append_assoc]
    rfl
  · have : (manifestPaths dataHome).lookup "edge".toList
        = some (Join [dataHome, "microsoft".toList, "edge".toList,
            "NativeMessagingHosts".toList, manifestName]) := rfl
    rw [this, Join_realElems _ _ _ (by decide), List.append_assoc]
    rfl
  · have : (manifestPaths dataHome).lookup "brave".toList
        = some (Join [dataHome, "BraveSoftware".toList, "Brave-Browser".toList,
            "NativeMessagingHosts".toList, manifestName]) := rfl
    rw [this, Join_realElems _ _ _ (by decide), List.append_assoc]
    rfl
  · have : (manifestPaths dataHome).lookup "vivaldi".toList
        = some (Join [dataHome, "vivaldi".toList,
            "NativeMessagingHosts".toList, manifestName]) := rfl
    rw [this, Join_realElems _ _ _ (by decide), List.append_assoc]
    rfl
  · have : (manifestPaths dataHome).lookup "arc".toList
        = some (Join [dataHome, "Google".toList, "Chrome".toList,
            "NativeMessagingHosts".toList, manifestName]) := rfl
    rw [this, Join_realElems _ _ _ (by decide), List.append_assoc]
    rfl

theorem browserDirs_keys : browserDirs.map Prod.fst
    = ["chrome".toList, "chrome-beta".toList, "edge".toList, "brave".toList,
        "vivaldi".toList, "arc".toList] := rfl

theorem exists_browserDir {browser : GoString}
    (h : browser ∈ ["chrome".toList, "chrome-beta".toList, "edge".toList, "brave".toList,
        "vivaldi".toList, "arc".toList]) : ∃ dir, (browser, dir) ∈ browserDirs := by
  rw [← browserDirs_keys] at h
  obtain ⟨⟨b, d⟩, hmem, hb⟩ := List.mem_map.mp h
  simp only at hb
  subst hb
  exact ⟨d, hmem⟩

/-! ## Cleaning a cleaned path -/

theorem backtrack_spec (buf : GoString) (dotdot : Nat) :
    ∀ w : Nat, dotdot ≤ w →
      backtrack buf dotdot w = dotdot ∨ buf.get? (backtrack buf dotdot w) = some Separator := by
  intro w
  induction w with
  | zero =>
    intro h
    left
    simp only [backtrack]
    omega
  | succ w ih =>
    intro h
    unfold backtrack
    split
    · rename_i hc
      simp only [gt_iff_lt, Bool.and_eq_true, decide_eq_true_eq] at hc
      exact ih (by omega)
    · rename_i hc
      by_cases hlt : dotdot < w + 1
      · right
        cases hg : buf.get? (w + 1) with
        | none =>
          rw [hg] at hc
          simp [hlt] at hc
        | some c =>
          rw [hg] at hc
          have : c = Separator := by simpa [IsPathSeparator, hlt] using hc
          rw [this]
      · left
        omega

theorem eq_take_cons_drop {l : GoString} {w : Nat} {c : Char} (h : l.get? w = some c) :
    l = l.take w ++ c :: l.drop (w + 1) := by
  induction l generalizing w with
  | nil => simp at h
  | cons a t ih =>
    cases w with
    | zero =>
      simp only [List.get?_cons_zero, Option.some.injEq] at h
      simp [h]
    | succ w =>
      simp only [List.get?_cons_succ] at h
      have := ih h
      simp only [List.take_succ_cons, List.drop_succ_cons, List.cons_append]
      rw [← this]

theorem sep_split_cases {a e p q : GoString} (he : e.all (fun c => !IsPathSeparator c) = true)
    (h : a ++ Separator :: e = p ++ Separator :: q) :
    (p = a ∧ q = e) ∨ ∃ q1, a = p ++ Separator :: q1 := by
  have hno : ∀ x y : GoString, e ≠ x ++ Separator :: y := by
    intro x y hxy
    rw [hxy] at he
    simp [IsPathSeparator] at he
  rcases List.append_eq_append_iff.mp h with ⟨a', hp, hx⟩ | ⟨c', ha, hy⟩
  · cases a' with
    | nil =>
      simp only [List.append_nil, List.nil_append, List.cons.injEq, true_and] at hp hx
      exact Or.inl ⟨hp, hx.symm⟩
    | cons b a'' =>
      simp only [List.cons_append, List.cons.injEq] at hx
      exact absurd hx.2 (hno _ _)
  · cases c' with
    | nil =>
      simp only [List.append_nil, List.nil_append, List.cons.injEq, true_and] at ha hy
      exact Or.inl ⟨ha.symm, hy⟩
    | cons b c'' =>
      simp only [List.cons_append, List.cons.injEq] at hy
      rw [← hy.1] at ha
      exact Or.inr ⟨c'', ha⟩

theorem cleanState_nil : cleanState [] = (false, { out := [], dotdot := 0 }) := rfl

theorem canon_init_rooted : Canon true { out := [Separator], dotdot := 1 } where
  whole := rfl
  bound := Nat.le_refl _
  split := by
    intro p q h hp
    cases p with
    | nil => simp at hp
    | cons a t => simp at h
  upto := rfl
  root := fun _ => ⟨rfl, rfl⟩

theorem canon_init_relative : Canon false { out := [], dotdot := 0 } where
  whole := rfl
  bound := Nat.le_refl _
  split := by
    intro p q h _
    simp at h
  upto := rfl
  root := by intro h; cases h

theorem canon_backtrack (rooted : Bool) (st : CleanState) (h : Canon rooted st)
    (hlen : st.out.length > st.dotdot) :
    Canon rooted
      { st with out := st.out.take (backtrack st.out st.dotdot (st.out.length - 1)) } := by
  have hge := backtrack_ge st.out st.dotdot (st.out.length - 1) (by omega)
  have hle := backtrack_le st.out st.dotdot (st.out.length - 1)
  have hw : backtrack st.out st.dotdot (st.out.length - 1) ≤ st.out.length := by omega
  have hwhole : cleanState (st.out.take (backtrack st.out st.dotdot (st.out.length - 1)))
      = (rooted, { out := st.out.take (backtrack st.out st.dotdot (st.out.length - 1)),
                    dotdot := st.dotdot }) := by
    rcases backtrack_spec st.out st.dotdot (st.out.length - 1) (by omega) with heq | hsep
    · rw [heq]
      exact h.upto
    · have := eq_take_cons_drop hsep
      exact h.split _ _ this (by rw [List.length_take]; omega)
  refine ⟨hwhole, ?_, ?_, ?_, ?_⟩
  · simp only [List.length_take]
    omega
  · intro p q hpq hp
    simp only at hpq hp
    apply h.split p (q ++ st.out.drop (backtrack st.out st.dotdot (st.out.length - 1)))
    · have := List.take_append_drop (backtrack st.out st.dotdot (st.out.length - 1)) st.out
      rw [hpq] at this
      conv_lhs => rw [← this]
      simp
    · exact hp
  · simp only
    rw [List.take_take, Nat.min_eq_left hge]
    exact h.upto
  · intro hr
    obtain ⟨h1, h2⟩ := h.root hr
    refine ⟨?_, h2⟩
    simp only
    rw [head?_take_of_pos (by omega)]
    exact h1

theorem cleanRun_dotdot (rooted : Bool) (st : CleanState) :
    cleanRun rooted ['.', '.'] st = dotdotElem rooted st := by
  rw [cleanRun_cons]
  have h1 : IsPathSeparator '.' = false := by decide
  have h2 : atDot ['.', '.'] = false := by decide
  have h3 : atDotDot ['.', '.'] = true := by decide
  simp only [cleanStep, h1, h2, h3, Bool.false_eq_true, if_false, if_true, List.tail_cons]
  exact cleanRun_nil rooted _

theorem canon_dotdotElem (rooted : Bool) (st : CleanState) (h : Canon rooted st) :
    Canon rooted (dotdotElem rooted st) := by
  unfold dotdotElem
  by_cases hlen : st.out.length > st.dotdot
  · simp only [hlen, if_true]
    exact canon_backtrack rooted st h hlen
  · simp only [hlen, if_false]
    cases rooted with
    | true => simpa using h
    | false =>
      simp only [Bool.not_false, if_true]
      have hwhole : cleanState ((if st.out.length > 0 then st.out ++ [Separator] else st.out)
            ++ ['.', '.'])
          = (false, { out := (if st.out.length > 0 then st.out ++ [Separator] else st.out)
                          ++ ['.', '.'],
                      dotdot := ((if st.out.length > 0 then st.out ++ [Separator] else st.out)
                          ++ ['.', '.']).length }) := by
        cases hout : st.out with
        | nil => rfl
        | cons a t =>
          have hpos : (a :: t).length > 0 := by simp
          simp only [hpos, if_true]
          have e1 : (a :: t) ++ [Separator] ++ ['.', '.'] = (a :: t) ++ Separator :: ['.', '.'] := by
            simp
          rw [e1, cleanState_append_sep, ← hout, h.whole]
          simp only
          rw [cleanRun_dotdot]
          unfold dotdotElem
          have hpos' : st.out.length > 0 := by rw [hout]; simp
          simp [hlen, hpos']
      refine ⟨hwhole, Nat.le_refl _, ?_, ?_, ?_⟩
      · intro p q hpq hp
        simp only at hpq hp
        have := congrArg List.length hpq
        simp only [List.length_append, List.length_cons] at this hp
        omega
      · simp only [List.take_length]
        exact hwhole
      · intro hr; cases hr

theorem all_takeWhile (p : Char → Bool) (l : GoString) : (l.takeWhile p).all p = true := by
  induction l with
  | nil => rfl
  | cons a t ih =>
    by_cases ha : p a = true
    · simp only [List.takeWhile, ha, List.all_cons, Bool.true_and]
      exact ih
    · simp [List.takeWhile, ha]

theorem takeWhile_eq_nil_cases {l : GoString}
    (h : l.takeWhile (fun c => !IsPathSeparator c) = []) :
    l = [] ∨ ∃ d t, l = d :: t ∧ IsPathSeparator d = true := by
  cases l with
  | nil => exact Or.inl rfl
  | cons d t =>
    right
    refine ⟨d, t, rfl, ?_⟩
    by_cases hd : IsPathSeparator d = true
    · exact hd
    · simp [List.takeWhile, hd] at h

/-- The element the loop of `filepath.Clean` copies in its last case is a real
path element. -/
theorem takeWhile_isRealElem (c : Char) (rest : GoString) (h1 : IsPathSeparator c = false)
    (h2 : atDot (c :: rest) = false) (h3 : atDotDot (c :: rest) = false) :
    isRealElem ((c :: rest).takeWhile (fun c => !IsPathSeparator c)) = true := by
  have hcons : (c :: rest).takeWhile (fun c => !IsPathSeparator c)
      = c :: rest.takeWhile (fun c => !IsPathSeparator c) := by
    simp [List.takeWhile, h1]
  have hall := all_takeWhile (fun c => !IsPathSeparator c) (c :: rest)
  unfold isRealElem
  simp only [Bool.and_eq_true, bne_iff_ne, ne_eq]
  refine ⟨⟨⟨?_, hall⟩, ?_⟩, ?_⟩
  · rw [hcons]; simp
  · rw [hcons]
    intro heq
    simp only [List.cons.injEq] at heq
    obtain ⟨hc, ht⟩ := heq
    subst hc
    rcases takeWhile_eq_nil_cases ht with hr | ⟨d, t, hr, hd⟩
    · subst hr
      simp [atDot] at h2
    · subst hr
      simp [atDot, hd] at h2
  · rw [hcons]
    intro heq
    simp only [List.cons.injEq] at heq
    obtain ⟨hc, ht⟩ := heq
    subst hc
    cases rest with
    | nil => simp at ht
    | cons d r2 =>
      by_cases hd : IsPathSeparator d = true
      · simp [List.takeWhile, hd] at ht
      · simp only [List.takeWhile, hd, Bool.not_false, List.cons.injEq] at ht
        obtain ⟨hd', ht'⟩ := ht
        subst hd'
        rcases takeWhile_eq_nil_cases ht' with hr | ⟨e, t, hr, he⟩
        · subst hr
          simp [atDotDot] at h3
        · subst hr
          simp [atDotDot, he] at h3

theorem isRealElem_parts {e : GoString} (h : isRealElem e = true) :
    e ≠ [] ∧ e.all (fun c => !IsPathSeparator c) = true := by
  unfold isRealElem at h
  simp only [Bool.and_eq_true, bne_iff_ne, ne_eq] at h
  exact ⟨h.1.1.1, h.1.1.2⟩

theorem not_sep_split {e p q : GoString} (he : e.all (fun c => !IsPathSeparator c) = true) :
    e ≠ p ++ Separator :: q := by
  intro h
  rw [h] at he
  simp [IsPathSeparator] at he

theorem cleanState_realElem (e : GoString) (h : isRealElem e = true) :
    cleanState e = (false, { out := e, dotdot := 0 }) := by
  obtain ⟨hne, hall⟩ := isRealElem_parts h
  cases e with
  | nil => exact absurd rfl hne
  | cons c rest =>
    have hc : IsPathSeparator c = false := by
      simp only [List.all_cons, Bool.and_eq_true] at hall
      simpa using hall.1
    simp only [cleanState, hc, Bool.false_eq_true, if_false]
    rw [cleanRun_realElem false _ _ h]
    simp [pushElem, needSep]

theorem canon_pushElem (rooted : Bool) (st : CleanState) (e : GoString) (h : Canon rooted st)
    (he : isRealElem e = true) : Canon rooted (pushElem rooted st e) := by
  obtain ⟨hne, hall⟩ := isRealElem_parts he
  obtain ⟨out, dotdot⟩ := st
  by_cases hsep : needSep rooted out = true
  · have hout : out ≠ [] := by
      intro hnil
      subst hnil
      cases rooted with
      | true =>
        have := (h.root rfl).1
        simp at this
      | false => simp [needSep] at hsep
    have hpush : pushElem rooted { out := out, dotdot := dotdot } e
        = { out := out ++ Separator :: e, dotdot := dotdot } := by
      simp [pushElem, hsep]
    rw [hpush]
    have hwhole : cleanState (out ++ Separator :: e)
        = (rooted, { out := out ++ Separator :: e, dotdot := dotdot }) := by
      cases hc : out with
      | nil => exact absurd hc hout
      | cons a t =>
        rw [cleanState_append_sep, ← hc]
        have hw := h.whole
        simp only at hw
        rw [hw]
        simp only
        rw [cleanRun_realElem rooted e _ he, hpush]
    refine ⟨hwhole, ?_, ?_, ?_, ?_⟩
    · have := h.bound
      simp only [List.length_append, List.length_cons] at this ⊢
      omega
    · intro p q hpq hp
      simp only at hpq hp
      rcases sep_split_cases hall hpq with ⟨hp', _⟩ | ⟨q1, hq1⟩
      · rw [hp']
        exact h.whole
      · exact h.split p q1 hq1 hp
    · simp only
      rw [List.take_append_of_le_length h.bound]
      exact h.upto
    · intro hr
      obtain ⟨h1, h2⟩ := h.root hr
      exact ⟨head?_append_of_head? h1, h2⟩
  · have hpush : pushElem rooted { out := out, dotdot := dotdot } e
        = { out := out ++ e, dotdot := dotdot } := by
      simp [pushElem, hsep]
    rw [hpush]
    cases rooted with
    | true =>
      obtain ⟨h1, h2⟩ := h.root rfl
      simp only at h1 h2
      have hlen : out.length = 1 := by
        simpa [needSep] using hsep
      have hout : out = [Separator] := by
        cases out with
        | nil => simp at hlen
        | cons a t =>
          simp only [List.length_cons, Nat.add_left_eq_self, List.length_eq_zero] at hlen
          simp only [List.head?_cons, Option.some.injEq] at h1
          rw [hlen, h1]
      subst hout
      subst h2
      have hwhole : cleanState ([Separator] ++ e)
          = (true, { out := [Separator] ++ e, dotdot := 1 }) := by
        have hs : IsPathSeparator Separator = true := by decide
        simp only [List.singleton_append, cleanState, hs, if_true]
        rw [cleanRun_realElem true e _ he]
        simp [pushElem, needSep]
      refine ⟨hwhole, ?_, ?_, ?_, ?_⟩
      · simp
      · intro p q hpq hp
        simp only at hpq hp
        cases p with
        | nil => simp at hp
        | cons a t =>
          simp only [List.singleton_append, List.cons_append, List.cons.injEq] at hpq
          exact absurd hpq.2 (not_sep_split hall)
      · rfl
      · intro _
        exact ⟨rfl, rfl⟩
    | false =>
      have hlen : out.length = 0 := by
        simpa [needSep] using hsep
      have hout : out = [] := List.length_eq_zero.mp hlen
      subst hout
      have hd : dotdot = 0 := by
        have := h.bound
        simp only [List.length_nil] at this
        omega
      subst hd
      simp only [List.nil_append]
      refine ⟨cleanState_realElem e he, Nat.zero_le _, ?_, ?_, ?_⟩
      · intro p q hpq _
        exact absurd hpq (not_sep_split hall)
      · rfl
      · intro hr; cases hr

theorem canon_cleanStep (rooted : Bool) (c : Char) (rest : GoString) (st : CleanState)
    (h : Canon rooted st) : Canon rooted (cleanStep rooted c rest st).2 := by
  unfold cleanStep
  by_cases h1 : IsPathSeparator c = true
  · simpa [h1] using h
  · by_cases h2 : atDot (c :: rest) = true
    · simpa [h1, h2] using h
    · by_cases h3 : atDotDot (c :: rest) = true
      · simpa [h1, h2, h3] using canon_dotdotElem rooted st h
      · simp only [h1, h2, h3, Bool.false_eq_true, if_false]
        have hreal := takeWhile_isRealElem c rest (by simpa using h1) (by simpa using h2)
          (by simpa using h3)
        exact canon_pushElem rooted st _ h hreal

theorem canon_cleanRun (rooted : Bool) :
    ∀ (n : Nat) (p : GoString) (st : CleanState), p.length ≤ n → Canon rooted st →
      Canon rooted (cleanRun rooted p st) := by
  intro n
  induction n with
  | zero =>
    intro p st h hinv
    have : p = [] := List.length_eq_zero.mp (Nat.le_zero.mp h)
    subst this
    exact hinv
  | succ n ih =>
    intro p st h hinv
    cases p with
    | nil => exact hinv
    | cons c rest =>
      rw [cleanRun_cons]
      apply ih _ _ _ (canon_cleanStep rooted c rest st hinv)
      have := cleanStep_length rooted c rest st
      simp only [List.length_cons] at h
      omega

theorem cleanState_canon (path : GoString) : Canon (cleanState path).1 (cleanState path).2 := by
  cases path with
  | nil => exact canon_init_relative
  | cons c rest =>
    unfold cleanState
    by_cases hc : IsPathSeparator c = true
    · simp only [hc, if_true]
      exact canon_cleanRun true rest.length rest _ (Nat.le_refl _) canon_init_rooted
    · simp only [hc, Bool.false_eq_true, if_false]
      exact canon_cleanRun false (c :: rest).length (c :: rest) _ (Nat.le_refl _)
        canon_init_relative

theorem Clean_eq_of_state (path : GoString) :
    Clean path = if (cleanState path).2.out.length = 0 then ['.'] else (cleanState path).2.out := by
  cases path with
  | nil => rfl
  | cons c rest => exact Clean_cons_eq c rest

/-- Reading a cleaned path leaves `filepath.Clean` in the state in which it
produced that path. -/
theorem cleanState_Clean (path : GoString) : cleanState (Clean path) = cleanState path := by
  have hcanon := cleanState_canon path
  rw [Clean_eq_of_state]
  by_cases hlen : (cleanState path).2.out.length = 0
  · simp only [hlen, if_true]
    have hout : (cleanState path).2.out = [] := List.length_eq_zero.mp hlen
    have hd : (cleanState path).2.dotdot = 0 := by
      have := hcanon.bound
      rw [hlen] at this
      omega
    have hr : (cleanState path).1 = false := by
      cases hr : (cleanState path).1 with
      | false => rfl
      | true =>
        have := (hcanon.root hr).1
        rw [hout] at this
        simp at this
    have hdot : cleanState ['.'] = (false, { out := [], dotdot := 0 }) := by decide
    rw [hdot]
    apply Prod.ext
    · exact hr.symm
    · cases hst : (cleanState path).2 with
      | mk out dotdot =>
        rw [hst] at hout hd
        simp only at hout hd
        rw [hout, hd]
  · simp only [hlen, if_false]
    exact hcanon.whole

/-- The function `filepath.Clean` is idempotent. -/
theorem Clean_Clean (path : GoString) : Clean (Clean path) = Clean path := by
  rw [Clean_eq_of_state (Clean path), cleanState_Clean, ← Clean_eq_of_state]

/-! ## Joining a profile directory onto a table entry -/

theorem needSep_foldl_pushElem (rooted : Bool) :
    ∀ (es : List GoString) (st : CleanState), (∀ e ∈ es, e ≠ []) → st.out ≠ [] →
      needSep rooted st.out = true →
      needSep rooted (es.foldl (pushElem rooted) st).out = true ∧
        (es.foldl (pushElem rooted) st).out ≠ [] := by
  intro es
  induction es with
  | nil => intro st _ hne hsep; exact ⟨hsep, hne⟩
  | cons e es ih =>
    intro st hes hne _
    have he : e ≠ [] := hes e (List.mem_cons_self _ _)
    rw [List.foldl_cons]
    exact ih (pushElem rooted st e) (fun x hx => hes x (List.mem_cons_of_mem _ hx))
      (pushElem_out_ne_nil rooted st e he) (needSep_pushElem rooted st e he (fun _ => hne))

theorem realElems_ne_nil {e : GoString} {es : List GoString}
    (h : ∀ x ∈ e :: es, isRealElem x = true) : ∀ x ∈ e :: es, x ≠ [] :=
  fun x hx => (isRealElem_parts (h x hx)).1

/-- The state in which `filepath.Join` ends on a first element followed by real
path elements. -/
theorem Join_realElems_state (first e : GoString) (es : List GoString)
    (h : ∀ x ∈ e :: es, isRealElem x = true) :
    ∃ joined : GoString, Join (first :: e :: es) = Clean joined ∧
      cleanState joined = ((cleanState first).1,
        (e :: es).foldl (pushElem (cleanState first).1) (cleanState first).2) := by
  have he : e ≠ [] := realElems_ne_nil h e (List.mem_cons_self _ _)
  cases first with
  | nil =>
    refine ⟨e ++ sepElems es, ?_, ?_⟩
    · have hj : Join ([] :: e :: es) = Clean (stringsJoin (e :: es) [Separator]) := by
        simp [Join, he]
      rw [hj, intercalate_cons_eq]
    · cases e with
      | nil => exact absurd rfl he
      | cons c rest =>
        have hc : IsPathSeparator c = false := by
          have := (isRealElem_parts (h _ (List.mem_cons_self _ _))).2
          simp only [List.all_cons, Bool.and_eq_true] at this
          simpa using this.1
        have := cleanRun_elems false es (c :: rest) { out := [], dotdot := 0 } h
        simp only [List.cons_append] at this
        simp only [cleanState, List.cons_append, hc, Bool.false_eq_true, if_false, this]
  | cons c rest =>
    refine ⟨(c :: rest) ++ Separator :: (e ++ sepElems es), ?_, ?_⟩
    · have := intercalate_cons_eq (c :: rest) (e :: es)
      simp only [Join, ne_eq, reduceCtorEq, not_false_eq_true, if_true, this]
      simp [sepElems]
    · rw [cleanState_append_sep, cleanRun_elems _ es e _ h]

/-- Joining real path elements onto a path that `filepath.Join` produced from a
first element and real path elements appends them as they are. -/
theorem Join_Join_realElems (first e : GoString) (es : List GoString) (e' : GoString)
    (es' : List GoString) (h : ∀ x ∈ e :: es, isRealElem x = true)
    (h' : ∀ x ∈ e' :: es', isRealElem x = true) :
    Join [Join (first :: e :: es), e' ++ sepElems es']
      = Join (first :: e :: es) ++ Separator :: (e' ++ sepElems es') := by
  obtain ⟨joined, hj, hst⟩ := Join_realElems_state first e es h
  have hinv : (cleanState first).1 = true → (cleanState first).2.out ≠ [] :=
    fun hr => rootedInv_out_ne_nil (cleanState_rooted_inv first hr)
  have he : e ≠ [] := realElems_ne_nil h e (List.mem_cons_self _ _)
  -- the state after the table elements
  have hfold := needSep_foldl_pushElem (cleanState first).1 es
    (pushElem (cleanState first).1 (cleanState first).2 e)
    (fun x hx => realElems_ne_nil h x (List.mem_cons_of_mem _ hx))
    (pushElem_out_ne_nil _ _ e he) (needSep_pushElem _ _ e he hinv)
  rw [← List.foldl_cons] at hfold
  obtain ⟨hsep, hne⟩ := hfold
  have hlen : ((e :: es).foldl (pushElem (cleanState first).1) (cleanState first).2).out.length
      ≠ 0 := by
    simpa [List.length_eq_zero] using hne
  have hT : Join (first :: e :: es)
      = ((e :: es).foldl (pushElem (cleanState first).1) (cleanState first).2).out := by
    rw [hj, Clean_eq_of_state, hst]
    simp only [hlen, if_false]
  have hTst : cleanState (Join (first :: e :: es))
      = ((cleanState first).1,
          (e :: es).foldl (pushElem (cleanState first).1) (cleanState first).2) := by
    rw [hj, cleanState_Clean, hst]
  have hTne : Join (first :: e :: es) ≠ [] := by rw [hT]; exact hne
  cases hc : Join (first :: e :: es) with
  | nil => exact absurd hc hTne
  | cons c rest =>
    have hjj : Join [c :: rest, e' ++ sepElems es']
        = Clean ((c :: rest) ++ Separator :: (e' ++ sepElems es')) := by
      simp [Join, stringsJoin, List.intercalate]
    rw [hjj]
    have hst2 : cleanState ((c :: rest) ++ Separator :: (e' ++ sepElems es'))
        = ((cleanState first).1,
            (e' :: es').foldl (pushElem (cleanState first).1)
              ((e :: es).foldl (pushElem (cleanState first).1) (cleanState first).2)) := by
      rw [cleanState_append_sep, ← hc, hTst]
      simp only
      rw [cleanRun_elems _ es' e' _ h']
    have hout := foldl_pushElem_cons_out (cleanState first).1 e' es'
      ((e :: es).foldl (pushElem (cleanState first).1) (cleanState first).2) h' (fun _ => hne)
    rw [hsep] at hout
    simp only [if_true] at hout
    have hcl : Clean ((c :: rest) ++ Separator :: (e' ++ sepElems es'))
        = (c :: rest) ++ Separator :: (e' ++ sepElems es') := by
      rw [Clean_eq_of_state, hst2]
      simp only
      rw [hout, ← hT, hc]
      simp
    rw [hcl]

theorem isPlainPath_elems {path : GoString} (h : isPlainPath path = true) :
    ∃ e es, path = e ++ sepElems es ∧ ∀ x ∈ e :: es, isRealElem x = true := by
  unfold isPlainPath pathElems at h
  have hint : [Separator].intercalate (path.splitOn Separator) = path :=
    List.intercalate_splitOn path Separator
  cases hs : path.splitOn Separator with
  | nil => exact absurd hs (List.splitOnP_ne_nil _ _)
  | cons e es =>
    rw [hs] at h hint
    refine ⟨e, es, ?_, ?_⟩
    · rw [← intercalate_cons_eq]
      exact hint.symm
    · intro x hx
      exact List.all_eq_true.mp h x hx

theorem isPlainPath_ne_nil {path : GoString} (h : isPlainPath path = true) : path ≠ [] := by
  obtain ⟨e, es, hp, hr⟩ := isPlainPath_elems h
  have := realElems_ne_nil hr e (List.mem_cons_self _ _)
  rw [hp]
  simp [this]

/-- Each entry of `manifestPaths` as the source writes it: the data home joined
with real path elements that spell the directory of the browser and the manifest
name. -/
theorem manifestPaths_lookup_join (dataHome browser dir : GoString)
    (h : (browser, dir) ∈ browserDirs) :
    ∃ e es, (∀ x ∈ e :: es, isRealElem x = true) ∧
      (manifestPaths dataHome).lookup browser = some (Join (dataHome :: e :: es)) ∧
      e ++ sepElems es = dir ++ Separator :: manifestName := by
  simp only [browserDirs, List.mem_cons, Prod.mk.injEq, List.mem_singleton, List.not_mem_nil,
    or_false] at h
  rcases h with ⟨hb, hd⟩ | ⟨hb, hd⟩ | ⟨hb, hd⟩ | ⟨hb, hd⟩ | ⟨hb, hd⟩ | ⟨hb, hd⟩ <;> subst hb hd
  · exact ⟨"Google".toList, ["Chrome".toList, "NativeMessagingHosts".toList, manifestName],
      by decide, rfl, rfl⟩
  · exact ⟨"Google".toList, ["Chrome Beta".toList, "NativeMessagingHosts".toList, manifestName],
      by decide, rfl, rfl⟩
  · exact ⟨"microsoft".toList, ["edge".toList, "NativeMessagingHosts".toList, manifestName],
      by decide, rfl, rfl⟩
  · exact ⟨"BraveSoftware".toList,
      ["Brave-Browser".toList, "NativeMessagingHosts".toList, manifestName],
      by decide, rfl, rfl⟩
  · exact ⟨"vivaldi".toList, ["NativeMessagingHosts".toList, manifestName],
      by decide, rfl, rfl⟩
  · exact ⟨"Google".toList, ["Chrome".toList, "NativeMessagingHosts".toList, manifestName],
      by decide, rfl, rfl⟩

/-- The manifest path the command resolves for a supported browser and a profile
directory made of real elements: the table entry, a separator, and the profile
directory. -/
theorem resolveManifestPath_plain (dataHome browser dir profileDirectory : GoString)
    (hb : (browser, dir) ∈ browserDirs) (hp : isPlainPath profileDirectory = true) :
    resolveManifestPath dataHome browser profileDirectory
      = some (joinedHead dataHome ++ dir ++ Separator :: manifestName
          ++ Separator :: profileDirectory) := by
  obtain ⟨e, es, hreal, hl, hdir⟩ := manifestPaths_lookup_join dataHome browser dir hb
  obtain ⟨e', es', hpe, hreal'⟩ := isPlainPath_elems hp
  have hne := isPlainPath_ne_nil hp
  unfold resolveManifestPath
  rw [hl]
  simp only [ne_eq, hne, not_false_eq_true, if_true]
  rw [hpe, Join_Join_realElems dataHome e es e' es' hreal hreal',
    Join_realElems dataHome e es hreal, hdir]
  simp only [List.append_assoc, List.cons_append]

/-! ## Profile directories that climb above the table entry -/

theorem cleanRun_dot (rooted : Bool) (st : CleanState) : cleanRun rooted ['.'] st = st := by
  rw [cleanRun_cons]
  have h1 : IsPathSeparator '.' = false := by decide
  have h2 : atDot ['.'] = true := by decide
  simp only [cleanStep, h1, h2, Bool.false_eq_true, if_false, if_true]
  exact cleanRun_nil rooted _

theorem cleanRun_elem (rooted : Bool) (e : GoString) (st : CleanState)
    (h : e.all (fun c => !IsPathSeparator c) = true) :
    cleanRun rooted e st = elemStep rooted st e := by
  unfold elemStep
  by_cases h1 : e = [] ∨ e = ['.']
  · rw [if_pos h1]
    rcases h1 with h1 | h1 <;> subst h1
    · rfl
    · exact cleanRun_dot rooted st
  · rw [if_neg h1]
    by_cases h2 : e = ['.', '.']
    · rw [if_pos h2, h2]
      exact cleanRun_dotdot rooted st
    · rw [if_neg h2]
      apply cleanRun_realElem
      simp only [isRealElem, Bool.and_eq_true, bne_iff_ne, ne_eq]
      push_neg at h1
      exact ⟨⟨⟨h1.1, h⟩, h1.2⟩, h2⟩

theorem sep_decompose (p : GoString) :
    p.all (fun c => !IsPathSeparator c) = true ∨
    ∃ e q, p = e ++ Separator :: q ∧ e.all (fun c => !IsPathSeparator c) = true := by
  induction p with
  | nil => left; rfl
  | cons c rest ih =>
    by_cases hc : IsPathSeparator c = true
    · right
      refine ⟨[], rest, ?_, rfl⟩
      have : c = Separator := by simpa [IsPathSeparator] using hc
      rw [this]
      rfl
    · rcases ih with ih | ⟨e, q, hp, he⟩
      · left
        simp only [List.all_cons, Bool.and_eq_true]
        exact ⟨by simpa using hc, ih⟩
      · right
        refine ⟨c :: e, q, by rw [hp]; rfl, ?_⟩
        simp only [List.all_cons, Bool.and_eq_true]
        exact ⟨by simpa using hc, he⟩

theorem pathElems_cases (p : GoString) :
    (p.all (fun c => !IsPathSeparator c) = true ∧ pathElems p = [p]) ∨
    ∃ e q, p = e ++ Separator :: q ∧ e.all (fun c => !IsPathSeparator c) = true ∧
      pathElems p = e :: pathElems q := by
  rcases sep_decompose p with h | ⟨e, q, hp, he⟩
  · left
    refine ⟨h, ?_⟩
    unfold pathElems List.splitOn
    apply List.splitOnP_eq_single
    intro x hx
    have := List.all_eq_true.mp h x hx
    simpa [IsPathSeparator] using this
  · right
    refine ⟨e, q, hp, he, ?_⟩
    subst hp
    unfold pathElems List.splitOn
    apply List.splitOnP_first
    · intro x hx
      have := List.all_eq_true.mp he x hx
      simpa [IsPathSeparator] using this
    · simp

/-- The loop of `filepath.Clean` reads a path element by element. -/
theorem cleanRun_pathElems (rooted : Bool) :
    ∀ (n : Nat) (p : GoString) (st : CleanState), p.length ≤ n →
      cleanRun rooted p st = (pathElems p).foldl (elemStep rooted) st := by
  intro n
  induction n with
  | zero =>
    intro p st h
    have : p = [] := List.length_eq_zero.mp (Nat.le_zero.mp h)
    subst this
    rfl
  | succ n ih =>
    intro p st h
    rcases pathElems_cases p with ⟨hall, hp⟩ | ⟨e, q, hpq, hall, hp⟩
    · rw [hp, List.foldl_cons, List.foldl_nil]
      exact cleanRun_elem rooted p st hall
    · subst hpq
      rw [hp, List.foldl_cons, cleanRun_append_sep rooted q e.length e st (Nat.le_refl _),
        cleanRun_elem rooted e st hall]
      apply ih
      simp only [List.length_append, List.length_cons] at h
      omega

theorem pathElems_sepFree :
    ∀ (n : Nat) (p : GoString), p.length ≤ n →
      ∀ e ∈ pathElems p, e.all (fun c => !IsPathSeparator c) = true := by
  intro n
  induction n with
  | zero =>
    intro p h e he
    have : p = [] := List.length_eq_zero.mp (Nat.le_zero.mp h)
    subst this
    have : e = [] := by simpa [pathElems] using he
    subst this
    rfl
  | succ n ih =>
    intro p h x hx
    rcases pathElems_cases p with ⟨hall, hp⟩ | ⟨e, q, hpq, hall, hp⟩
    · rw [hp] at hx
      have : x = p := by simpa using hx
      rw [this]
      exact hall
    · subst hpq
      rw [hp] at hx
      rcases List.mem_cons.mp hx with hx | hx
      · rw [hx]
        exact hall
      · apply ih q _ x hx
        simp only [List.length_append, List.length_cons] at h
        omega

theorem sepElems_append_singleton (ts : List GoString) (t : GoString) :
    sepElems (ts ++ [t]) = sepElems ts ++ Separator :: t := by
  simp [sepElems]

theorem backtrack_to_sep (x t : GoString) (dd : Nat) (hdd : dd ≤ x.length)
    (ht : t.all (fun c => !IsPathSeparator c) = true) :
    ∀ n, n ≤ t.length → backtrack (x ++ Separator :: t) dd (x.length + n) = x.length := by
  intro n
  induction n with
  | zero =>
    intro _
    rw [Nat.add_zero]
    cases hx : x.length with
    | zero => rfl
    | succ k =>
      unfold backtrack
      have hg : (x ++ Separator :: t).get? (k + 1) = some Separator := by
        rw [← hx, List.get?_eq_getElem?, List.getElem?_append_right (Nat.le_refl _), Nat.sub_self]
        simp
      rw [hg]
      simp [IsPathSeparator]
  | succ n ih =>
    intro hn
    have hg : (x ++ Separator :: t).get? (x.length + n + 1) = t.get? n := by
      simp [List.getElem?_append_right, Nat.add_assoc]
    obtain ⟨c, hc⟩ : ∃ c, t.get? n = some c := by
      have : n < t.length := by omega
      exact ⟨t.get ⟨n, this⟩, List.get?_eq_get this⟩
    have hcs : IsPathSeparator c = false := by
      have := List.all_eq_true.mp ht c (List.get?_mem hc)
      simpa using this
    rw [← Nat.add_assoc]
    unfold backtrack
    rw [hg, hc]
    simp only [hcs, Bool.not_false, Bool.and_true, gt_iff_lt, decide_eq_true_eq]
    rw [if_pos (by omega)]
    exact ih (by omega)

theorem dotdotElem_pop (rooted : Bool) (x t : GoString) (dd : Nat) (hdd : dd ≤ x.length)
    (ht : t.all (fun c => !IsPathSeparator c) = true) :
    dotdotElem rooted { out := x ++ Separator :: t, dotdot := dd }
      = { out := x, dotdot := dd } := by
  unfold dotdotElem
  have hlen : (x ++ Separator :: t).length > dd := by
    simp only [List.length_append, List.length_cons]
    omega
  simp only [hlen, if_true]
  have hb := backtrack_to_sep x t dd hdd ht t.length (Nat.le_refl _)
  have hl : (x ++ Separator :: t).length - 1 = x.length + t.length := by
    simp only [List.length_append, List.length_cons]
    omega
  rw [hl, hb]
  simp

theorem pushElem_long (rooted : Bool) (y e : GoString) (dd : Nat) (hy : 2 ≤ y.length) :
    pushElem rooted { out := y, dotdot := dd } e = { out := y ++ Separator :: e, dotdot := dd } := by
  have hs : needSep rooted y = true := by
    unfold needSep
    cases rooted <;>
      simp only [Bool.true_and, Bool.false_and, Bool.not_true, Bool.not_false, Bool.or_false,
        Bool.false_or, bne_iff_ne, ne_eq, decide_eq_true_eq] <;> omega
  simp [pushElem, hs]

theorem elemStep_skip (rooted : Bool) (st : CleanState) (e : GoString)
    (h : e = [] ∨ e = ['.']) : elemStep rooted st e = st := by
  unfold elemStep
  rw [if_pos h]

theorem elemStep_dotdot (rooted : Bool) (st : CleanState) :
    elemStep rooted st ['.', '.'] = dotdotElem rooted st := rfl

theorem elemStep_push (rooted : Bool) (st : CleanState) (e : GoString)
    (h1 : ¬ (e = [] ∨ e = ['.'])) (h2 : e ≠ ['.', '.']) :
    elemStep rooted st e = pushElem rooted st e := by
  unfold elemStep
  rw [if_neg h1, if_neg h2]

/-- Above a base of the buffer that `..` cannot reach, a path that stays below
does to the buffer what it does to a stack of elements. -/
theorem foldl_elemStep_stays :
    ∀ (elems ts : List GoString),
      (∀ x ∈ elems, x.all (fun c => !IsPathSeparator c) = true) →
      (∀ t ∈ ts, t.all (fun c => !IsPathSeparator c) = true) →
      staysBelow elems ts.length = true →
      ∃ ts' : List GoString, ∀ (rooted : Bool) (base : GoString) (dd : Nat),
        2 ≤ base.length → dd ≤ base.length →
        elems.foldl (elemStep rooted) { out := base ++ sepElems ts, dotdot := dd }
          = { out := base ++ sepElems ts', dotdot := dd } := by
  intro elems
  induction elems with
  | nil =>
    intro ts _ _ _
    exact ⟨ts, fun _ _ _ _ _ => rfl⟩
  | cons e es ih =>
    intro ts hel hts hstay
    have hes : ∀ x ∈ es, x.all (fun c => !IsPathSeparator c) = true :=
      fun x hx => hel x (List.mem_cons_of_mem _ hx)
    have he := hel e (List.mem_cons_self _ _)
    unfold staysBelow at hstay
    by_cases h1 : e = [] ∨ e = ['.']
    · rw [if_pos h1] at hstay
      obtain ⟨ts', h'⟩ := ih ts hes hts hstay
      refine ⟨ts', fun rooted base dd hb hdd => ?_⟩
      rw [List.foldl_cons]
      rw [elemStep_skip rooted _ e h1]
      exact h' rooted base dd hb hdd
    · rw [if_neg h1] at hstay
      by_cases h2 : e = ['.', '.']
      · rw [if_pos h2] at hstay
        rcases List.eq_nil_or_concat ts with hnil | ⟨init, t, hcat⟩
        · subst hnil
          simp at hstay
        · rw [List.concat_eq_append] at hcat
          subst hcat
          have hinit : ∀ t ∈ init, t.all (fun c => !IsPathSeparator c) = true :=
            fun x hx => hts x (List.mem_append_left _ hx)
          have ht := hts t (List.mem_append_right _ (List.mem_singleton_self _))
          simp only [List.length_append, List.length_singleton] at hstay
          obtain ⟨ts', h'⟩ := ih init hes hinit hstay
          refine ⟨ts', fun rooted base dd hb hdd => ?_⟩
          rw [List.foldl_cons]
          rw [h2, elemStep_dotdot, sepElems_append_singleton, ← List.append_assoc,
            dotdotElem_pop rooted _ t dd (by simp only [List.length_append]; omega) ht]
          exact h' rooted base dd hb hdd
      · rw [if_neg h2] at hstay
        have hts' : ∀ t ∈ ts ++ [e], t.all (fun c => !IsPathSeparator c) = true := by
          intro x hx
          rcases List.mem_append.mp hx with hx | hx
          · exact hts x hx
          · rw [List.mem_singleton.mp hx]
            exact he
        have hlen : (ts ++ [e]).length = ts.length + 1 := by simp
        rw [← hlen] at hstay
        obtain ⟨ts', h'⟩ := ih (ts ++ [e]) hes hts' hstay
        refine ⟨ts', fun rooted base dd hb hdd => ?_⟩
        rw [List.foldl_cons]
        rw [elemStep_push rooted _ e h1 h2,
          pushElem_long rooted _ e dd (by simp only [List.length_append]; omega),
          List.append_assoc, ← sepElems_append_singleton]
        exact h' rooted base dd hb hdd

/-- Once a path climbs above the directory that two buffers differ in, the two
runs of `filepath.Clean` are in the same state. -/
theorem foldl_elemStep_climbs :
    ∀ (elems ts : List GoString),
      (∀ x ∈ elems, x.all (fun c => !IsPathSeparator c) = true) →
      (∀ t ∈ ts, t.all (fun c => !IsPathSeparator c) = true) →
      staysBelow elems ts.length = false →
      ∀ (rooted : Bool) (x c1 c2 : GoString) (dd : Nat), 2 ≤ x.length → dd ≤ x.length →
        c1.all (fun c => !IsPathSeparator c) = true →
        c2.all (fun c => !IsPathSeparator c) = true →
        elems.foldl (elemStep rooted) { out := (x ++ Separator :: c1) ++ sepElems ts, dotdot := dd }
          = elems.foldl (elemStep rooted)
              { out := (x ++ Separator :: c2) ++ sepElems ts, dotdot := dd } := by
  intro elems
  induction elems with
  | nil =>
    intro ts _ _ hstay
    simp [staysBelow] at hstay
  | cons e es ih =>
    intro ts hel hts hstay rooted x c1 c2 dd hx hdd hc1 hc2
    have hes : ∀ x ∈ es, x.all (fun c => !IsPathSeparator c) = true :=
      fun x hx => hel x (List.mem_cons_of_mem _ hx)
    have he := hel e (List.mem_cons_self _ _)
    unfold staysBelow at hstay
    rw [List.foldl_cons, List.foldl_cons]
    by_cases h1 : e = [] ∨ e = ['.']
    · rw [if_pos h1] at hstay
      rw [elemStep_skip rooted _ e h1, elemStep_skip rooted _ e h1]
      exact ih ts hes hts hstay rooted x c1 c2 dd hx hdd hc1 hc2
    · rw [if_neg h1] at hstay
      by_cases h2 : e = ['.', '.']
      · rw [if_pos h2] at hstay
        rw [h2, elemStep_dotdot, elemStep_dotdot]
        rcases List.eq_nil_or_concat ts with hnil | ⟨init, t, hcat⟩
        · subst hnil
          simp only [sepElems, List.map_nil, List.flatten_nil, List.append_nil]
          rw [dotdotElem_pop rooted x c1 dd hdd hc1, dotdotElem_pop rooted x c2 dd hdd hc2]
        · rw [List.concat_eq_append] at hcat
          subst hcat
          have hinit : ∀ t ∈ init, t.all (fun c => !IsPathSeparator c) = true :=
            fun x hx => hts x (List.mem_append_left _ hx)
          have ht := hts t (List.mem_append_right _ (List.mem_singleton_self _))
          simp only [List.length_append, List.length_singleton] at hstay
          rw [sepElems_append_singleton, ← List.append_assoc, ← List.append_assoc,
            dotdotElem_pop rooted _ t dd
              (by simp only [List.length_append, List.length_cons]; omega) ht,
            dotdotElem_pop rooted _ t dd
              (by simp only [List.length_append, List.length_cons]; omega) ht]
          exact ih init hes hinit hstay rooted x c1 c2 dd hx hdd hc1 hc2
      · rw [if_neg h2] at hstay
        have hts' : ∀ t ∈ ts ++ [e], t.all (fun c => !IsPathSeparator c) = true := by
          intro x hx
          rcases List.mem_append.mp hx with hx | hx
          · exact hts x hx
          · rw [List.mem_singleton.mp hx]
            exact he
        have hlen : (ts ++ [e]).length = ts.length + 1 := by simp
        rw [← hlen] at hstay
        rw [elemStep_push rooted _ e h1 h2, elemStep_push rooted _ e h1 h2,
          pushElem_long rooted _ e dd
            (by simp only [List.length_append, List.length_cons]; omega),
          pushElem_long rooted _ e dd
            (by simp only [List.length_append, List.length_cons]; omega),
          List.append_assoc (x ++ Separator :: c1), List.append_assoc (x ++ Separator :: c2),
          ← sepElems_append_singleton]
        exact ih (ts ++ [e]) hes hts' hstay rooted x c1 c2 dd hx hdd hc1 hc2

theorem foldl_pushElem_dotdot (rooted : Bool) :
    ∀ (es : List GoString) (st : CleanState),
      (es.foldl (pushElem rooted) st).dotdot = st.dotdot := by
  intro es
  induction es with
  | nil => intro st; rfl
  | cons e es ih =>
    intro st
    rw [List.foldl_cons, ih]
    rfl

theorem cleanState_eq_mk (st : CleanState) (out : GoString) (dd : Nat) (h1 : st.out = out)
    (h2 : st.dotdot = dd) : st = { out := out, dotdot := dd } := by
  cases st
  simp only at h1 h2
  rw [h1, h2]

theorem dotdot_le_joinedHead (first : GoString) :
    (cleanState first).2.dotdot ≤ (joinedHead first).length := by
  have hb := (cleanState_canon first).bound
  unfold joinedHead
  split
  · simp only [List.length_append, List.length_singleton]
    omega
  · exact hb

/-- The state in which `filepath.Clean` reads a table entry back: the buffer is
the entry and `..` stops where it stops in the data home. -/
theorem entry_cleanState (dataHome browser dir : GoString) (hb : (browser, dir) ∈ browserDirs) :
    cleanState (joinedHead dataHome ++ dir ++ Separator :: manifestName)
      = ((cleanState dataHome).1,
          { out := joinedHead dataHome ++ dir ++ Separator :: manifestName,
            dotdot := (cleanState dataHome).2.dotdot }) := by
  obtain ⟨e, es, hreal, hl, hdir⟩ := manifestPaths_lookup_join dataHome browser dir hb
  obtain ⟨joined, hj, hst⟩ := Join_realElems_state dataHome e es hreal
  have hentry : Join (dataHome :: e :: es)
      = joinedHead dataHome ++ dir ++ Separator :: manifestName := by
    have := manifestPaths_lookup dataHome browser dir hb
    rw [hl] at this
    exact Option.some.inj this
  rw [← hentry, hj, cleanState_Clean, hst]
  have hinv : (cleanState dataHome).1 = true → (cleanState dataHome).2.out ≠ [] :=
    fun hr => rootedInv_out_ne_nil (cleanState_rooted_inv dataHome hr)
  have hout := foldl_pushElem_cons_out (cleanState dataHome).1 e es (cleanState dataHome).2
    hreal hinv
  have hdd := foldl_pushElem_dotdot (cleanState dataHome).1 (e :: es) (cleanState dataHome).2
  rw [← hj, hentry]
  congr 1
  apply cleanState_eq_mk _ _ _ _ hdd
  rw [hout, hdir]
  unfold joinedHead
  simp only [List.append_assoc]

/-- The path the command resolves with a profile directory is the cleaned path
in which `filepath.Clean` has read the profile directory, element by element,
on top of the table entry. -/
theorem resolveManifestPath_state (dataHome browser dir profileDirectory : GoString)
    (hb : (browser, dir) ∈ browserDirs) (hp : profileDirectory ≠ []) :
    ∃ path, resolveManifestPath dataHome browser profileDirectory = some (Clean path) ∧
      cleanState path = ((cleanState dataHome).1,
        (pathElems profileDirectory).foldl (elemStep (cleanState dataHome).1)
          { out := joinedHead dataHome ++ dir ++ Separator :: manifestName,
            dotdot := (cleanState dataHome).2.dotdot }) := by
  have hl := manifestPaths_lookup dataHome browser dir hb
  have hst := entry_cleanState dataHome browser dir hb
  unfold resolveManifestPath
  rw [hl]
  simp only [ne_eq, hp, not_false_eq_true, if_true]
  cases hc : joinedHead dataHome ++ dir ++ Separator :: manifestName with
  | nil => simp at hc
  | cons c rest =>
    rw [hc] at hst
    refine ⟨(c :: rest) ++ Separator :: profileDirectory, ?_, ?_⟩
    · simp [Join, stringsJoin, List.intercalate]
    · rw [cleanState_append_sep, hst]
      simp only
      rw [cleanRun_pathElems _ profileDirectory.length profileDirectory _ (Nat.le_refl _)]

/-- A profile directory that climbs at most two levels leaves the part of the
table entry above `NativeMessagingHosts` in place, and what it puts after it
does not depend on the browser. -/
theorem resolveManifestPath_stays (profileDirectory : GoString) (hp : profileDirectory ≠ [])
    (hclimb : climbsAtMost 2 profileDirectory = true) :
    ∃ ts : List GoString, ∀ dataHome browser base : GoString,
      (browser, base ++ Separator :: "NativeMessagingHosts".toList) ∈ browserDirs →
      2 ≤ base.length →
      resolveManifestPath dataHome browser profileDirectory
        = some (joinedHead dataHome ++ base ++ sepElems ts) := by
  obtain ⟨ts, hts⟩ := foldl_elemStep_stays (pathElems profileDirectory)
    ["NativeMessagingHosts".toList, manifestName]
    (pathElems_sepFree profileDirectory.length profileDirectory (Nat.le_refl _))
    (by decide) hclimb
  refine ⟨ts, fun dataHome browser base hb hbase => ?_⟩
  obtain ⟨path, hres, hst⟩ := resolveManifestPath_state dataHome browser _ profileDirectory hb hp
  have hstart : joinedHead dataHome ++ (base ++ Separator :: "NativeMessagingHosts".toList)
        ++ Separator :: manifestName
      = (joinedHead dataHome ++ base)
        ++ sepElems ["NativeMessagingHosts".toList, manifestName] := by
    simp [sepElems]
  rw [hstart, hts (cleanState dataHome).1 (joinedHead dataHome ++ base)
    (cleanState dataHome).2.dotdot (by simp only [List.length_append]; omega)
    (by
      have := dotdot_le_joinedHead dataHome
      simp only [List.length_append]
      omega)] at hst
  rw [hres, Clean_eq_of_state, hst]
  have hlen : (joinedHead dataHome ++ base ++ sepElems ts).length ≠ 0 := by
    simp only [List.length_append]
    omega
  simp only [hlen, if_false]

/-- A profile directory that climbs three levels or more takes `chrome` and
`chrome-beta` to the same path. -/
theorem resolveManifestPath_climbs (dataHome profileDirectory : GoString)
    (hclimb : climbsAtMost 2 profileDirectory = false) :
    resolveManifestPath dataHome "chrome".toList profileDirectory
      = resolveManifestPath dataHome "chrome-beta".toList profileDirectory := by
  have hp : profileDirectory ≠ [] := by
    intro h
    rw [h] at hclimb
    exact absurd hclimb (by decide)
  obtain ⟨p1, hres1, hst1⟩ := resolveManifestPath_state dataHome "chrome".toList
    "Google/Chrome/NativeMessagingHosts".toList profileDirectory (by decide) hp
  obtain ⟨p2, hres2, hst2⟩ := resolveManifestPath_state dataHome "chrome-beta".toList
    "Google/Chrome Beta/NativeMessagingHosts".toList profileDirectory (by decide) hp
  have hs1 : joinedHead dataHome ++ "Google/Chrome/NativeMessagingHosts".toList
        ++ Separator :: manifestName
      = ((joinedHead dataHome ++ "Google".toList) ++ Separator :: "Chrome".toList)
        ++ sepElems ["NativeMessagingHosts".toList, manifestName] := by
    simp [sepElems, Separator]
  have hs2 : joinedHead dataHome ++ "Google/Chrome Beta/NativeMessagingHosts".toList
        ++ Separator :: manifestName
      = ((joinedHead dataHome ++ "Google".toList) ++ Separator :: "Chrome Beta".toList)
        ++ sepElems ["NativeMessagingHosts".toList, manifestName] := by
    simp [sepElems, Separator]
  have hsame := foldl_elemStep_climbs (pathElems profileDirectory)
    ["NativeMessagingHosts".toList, manifestName]
    (pathElems_sepFree profileDirectory.length profileDirectory (Nat.le_refl _))
    (by decide) hclimb (cleanState dataHome).1 (joinedHead dataHome ++ "Google".toList)
    "Chrome".toList "Chrome Beta".toList (cleanState dataHome).2.dotdot
    (by simp only [List.length_append]; have : "Google".toList.length = 6 := rfl; omega)
    (by
      have := dotdot_le_joinedHead dataHome
      simp only [List.length_append]
      omega)
    (by decide) (by decide)
  rw [hs1] at hst1
  rw [hs2] at hst2
  rw [hsame] at hst1
  rw [hres1, hres2, Clean_eq_of_state, Clean_eq_of_state, hst1, hst2]

theorem browserDirs_base {browser dir : GoString} (h : (browser, dir) ∈ browserDirs) :
    ∃ base, dir = base ++ Separator :: "NativeMessagingHosts".toList ∧ 2 ≤ base.length := by
  simp only [browserDirs, List.mem_cons, Prod.mk.injEq, List.mem_singleton, List.not_mem_nil,
    or_false] at h
  rcases h with ⟨_, hd⟩ | ⟨_, hd⟩ | ⟨_, hd⟩ | ⟨_, hd⟩ | ⟨_, hd⟩ | ⟨_, hd⟩ <;> subst hd
  · exact ⟨"Google/Chrome".toList, rfl, by decide⟩
  · exact ⟨"Google/Chrome Beta".toList, rfl, by decide⟩
  · exact ⟨"microsoft/edge".toList, rfl, by decide⟩
  · exact ⟨"BraveSoftware/Brave-Browser".toList, rfl, by decide⟩
  · exact ⟨"vivaldi".toList, rfl, by decide⟩
  · exact ⟨"Google/Chrome".toList, rfl, by decide⟩

/-- C1, the code at a failing input and in general: for Chrome with the profile
directory `Default` the resolved path ends in `Default`, not in the manifest
filename, and the manifest filename is the segment above it; and for every data
home, every supported browser and every profile directory made of real path
elements, the resolved path is the path resolved without a profile directory
(which ends in the manifest filename) followed by a separator and the profile
directory.  The profile directory is appended after the filename, not before
it. -/
theorem C1_profile_appended_after_filename :
    resolveManifestPath "/h/.local/share".toList "chrome".toList "Default".toList
      = some ("/h/.local/share/Google/Chrome/NativeMessagingHosts".toList
          ++ "/".toList ++ manifestName ++ "/".toList ++ "Default".toList) ∧
    resolveManifestPath "/h/.local/share".toList "chrome".toList "Default".toList
      ≠ some ("/h/.local/share/Google/Chrome/NativeMessagingHosts".toList
          ++ "/".toList ++ "Default".toList ++ "/".toList ++ manifestName) ∧
    (resolveManifestPath "/h/.local/share".toList "chrome".toList "Default".toList).map Base
      = some "Default".toList ∧
    (resolveManifestPath "/h/.local/share".toList "chrome".toList "Default".toList).map
        (fun p => Base (Dir p)) = some manifestName ∧
    (∀ dataHome browser profileDirectory : GoString,
      browser ∈ (manifestPaths dataHome).map Prod.fst →
      isPlainPath profileDirectory = true →
      ∃ tablePath, resolveManifestPath dataHome browser [] = some tablePath ∧
        Base tablePath = manifestName ∧
        resolveManifestPath dataHome browser profileDirectory
          = some (tablePath ++ Separator :: profileDirectory)) := by
  refine ⟨by decide, by decide, by decide, by decide, ?_⟩
  intro dataHome browser profileDirectory hb hp
  rw [manifestPaths_keys] at hb
  obtain ⟨dir, hdir⟩ := exists_browserDir hb
  refine ⟨joinedHead dataHome ++ dir ++ Separator :: manifestName, ?_, ?_, ?_⟩
  · simp [resolveManifestPath, manifestPaths_lookup dataHome browser dir hdir]
  · exact Base_append_sep _ _ (by decide)
  · exact resolveManifestPath_plain dataHome browser dir profileDirectory hdir hp

/-- C2: for every supported browser identifier, without a profile directory, the
resolved manifest path is not empty, is absolute whenever the data home is
absolute, and its last segment is the manifest filename
`com.pomdtr.popcorn.json`; for Chrome it is the path
`<data home>/Google/Chrome/NativeMessagingHosts/com.pomdtr.popcorn.json`, cleaned
as `filepath.Join` does, which for an absolute data home is the cleaned data
home followed by `/Google/Chrome/NativeMessagingHosts/com.pomdtr.popcorn.json`. -/
theorem C2_manifest_path_without_profile (dataHome browser : GoString)
    (hb : browser ∈ ["chrome".toList, "chrome-beta".toList, "edge".toList, "brave".toList,
        "vivaldi".toList, "arc".toList]) :
    ∃ path, resolveManifestPath dataHome browser [] = some path ∧
      path ≠ [] ∧
      (IsAbs dataHome = true → IsAbs path = true) ∧
      Base path = manifestName ∧
      (browser = "chrome".toList → dataHome ≠ [] →
        path = Clean (dataHome
          ++ "/Google/Chrome/NativeMessagingHosts/com.pomdtr.popcorn.json".toList)) ∧
      (browser = "chrome".toList → IsAbs dataHome = true →
        path = (if Clean dataHome = "/".toList then [] else Clean dataHome)
          ++ "/Google/Chrome/NativeMessagingHosts/com.pomdtr.popcorn.json".toList) := by
  obtain ⟨dir, hdir⟩ := exists_browserDir hb
  have hl := manifestPaths_lookup dataHome browser dir hdir
  refine ⟨joinedHead dataHome ++ dir ++ Separator :: manifestName, ?_, by simp, ?_, ?_, ?_, ?_⟩
  · simp [resolveManifestPath, hl]
  · intro habs
    rw [List.append_assoc]
    exact joinedHead_isAbs dataHome _ habs
  · exact Base_append_sep _ _ (by decide)
  · intro hchrome hne
    subst hchrome
    have hl' : (manifestPaths dataHome).lookup "chrome".toList
        = some (Join [dataHome, "Google".toList, "Chrome".toList,
            "NativeMessagingHosts".toList, manifestName]) := rfl
    rw [hl'] at hl
    have hj : Join [dataHome, "Google".toList, "Chrome".toList,
          "NativeMessagingHosts".toList, manifestName]
        = Clean (dataHome
          ++ "/Google/Chrome/NativeMessagingHosts/com.pomdtr.popcorn.json".toList) := by
      simp only [Join, ne_eq, hne, not_false_eq_true, if_true, intercalate_cons_eq]
      rfl
    rw [← Option.some.inj hl, hj]
  · intro hchrome habs
    subst hchrome
    have hd : dir = "Google/Chrome/NativeMessagingHosts".toList := by
      simp only [browserDirs, List.mem_cons, Prod.mk.injEq, List.mem_singleton,
        List.not_mem_nil, or_false] at hdir
      rcases hdir with ⟨_, hd⟩ | ⟨hb, _⟩ | ⟨hb, _⟩ | ⟨hb, _⟩ | ⟨hb, _⟩ | ⟨hb, _⟩
      · exact hd
      all_goals exact absurd hb (by decide)
    subst hd
    rw [(joinedHead_of_isAbs dataHome habs).2.2]
    by_cases hroot : Clean dataHome = [Separator]
    · have : Clean dataHome = "/".toList := hroot
      simp only [this, if_true]
      rfl
    · have : ¬ Clean dataHome = "/".toList := hroot
      simp only [hroot, this, if_false, List.append_assoc]
      rfl

/-- C2 at a concrete input: Chrome with the default Linux data home. -/
theorem C2_manifest_path_without_profile_witness :
    ∃ path, resolveManifestPath "/h/.local/share".toList "chrome".toList [] = some path ∧
      path ≠ [] ∧
      (IsAbs "/h/.local/share".toList = true → IsAbs path = true) ∧
      Base path = manifestName ∧
      ("chrome".toList = "chrome".toList → "/h/.local/share".toList ≠ [] →
        path = Clean ("/h/.local/share".toList
          ++ "/Google/Chrome/NativeMessagingHosts/com.pomdtr.popcorn.json".toList)) ∧
      ("chrome".toList = "chrome".toList → IsAbs "/h/.local/share".toList = true →
        path = (if Clean "/h/.local/share".toList = "/".toList then []
            else Clean "/h/.local/share".toList)
          ++ "/Google/Chrome/NativeMessagingHosts/com.pomdtr.popcorn.json".toList) :=
  C2_manifest_path_without_profile "/h/.local/share".toList "chrome".toList (by decide)

/-- C10, the claim as stated fails: with the profile directory `../../..` the
identifiers `chrome` and `chrome-beta`, which are not the alias pair, resolve to
the same path. -/
theorem C10_counterexample :
    "chrome".toList ≠ "chrome-beta".toList ∧
    resolveManifestPath "/h/.local/share".toList "chrome".toList "../../..".toList
      = some "/h/.local/share/Google".toList ∧
    resolveManifestPath "/h/.local/share".toList "chrome-beta".toList "../../..".toList
      = some "/h/.local/share/Google".toList := by
  refine ⟨by decide, by decide, by decide⟩

/-- The profile directories `Default/`, `./Default`, `a//b`, `/Default`, `..` and
`../..` climb at most two levels; `../../..` and `a/../../../..` climb three. -/
theorem climbsAtMost_examples :
    climbsAtMost 2 "Default/".toList = true ∧ climbsAtMost 2 "./Default".toList = true ∧
    climbsAtMost 2 "a//b".toList = true ∧ climbsAtMost 2 "/Default".toList = true ∧
    climbsAtMost 2 "..".toList = true ∧ climbsAtMost 2 "../..".toList = true ∧
    climbsAtMost 2 "../../..".toList = false ∧
    climbsAtMost 2 "a/../../../..".toList = false := by
  decide

/-- C10, amended: the manifest path table is many-to-one with exactly one alias
pair.  For every data home and every profile directory, `arc` and `chrome`
resolve to the same manifest path.  Any two distinct supported identifiers other
than that pair resolve to different manifest paths as long as the profile
directory, read element by element, never climbs three or more levels above the
table entry it is joined to (`..` climbs one level, a real element descends one,
an empty element and `.` stay; no profile directory at all climbs nothing).  A
profile directory that does climb three levels takes `chrome` and `chrome-beta`
to the same path, so the condition cannot be dropped for any such value. -/
theorem C10_one_alias_pair (dataHome : GoString) :
    (∀ profileDirectory,
      resolveManifestPath dataHome "arc".toList profileDirectory
        = resolveManifestPath dataHome "chrome".toList profileDirectory) ∧
    (∀ profileDirectory b1 b2,
      climbsAtMost 2 profileDirectory = true →
      b1 ∈ (manifestPaths dataHome).map Prod.fst →
      b2 ∈ (manifestPaths dataHome).map Prod.fst → b1 ≠ b2 →
      ¬ (b1 = "arc".toList ∧ b2 = "chrome".toList) →
      ¬ (b1 = "chrome".toList ∧ b2 = "arc".toList) →
      resolveManifestPath dataHome b1 profileDirectory
        ≠ resolveManifestPath dataHome b2 profileDirectory) ∧
    (∀ profileDirectory,
      climbsAtMost 2 profileDirectory = false →
      resolveManifestPath dataHome "chrome".toList profileDirectory
        = resolveManifestPath dataHome "chrome-beta".toList profileDirectory) := by
  refine ⟨?_, ?_, ?_⟩
  · intro profileDirectory
    rfl
  · intro profileDirectory b1 b2 hclimb h1 h2 hne ha hc
    rw [manifestPaths_keys] at h1 h2
    obtain ⟨d1, hd1⟩ := exists_browserDir h1
    obtain ⟨d2, hd2⟩ := exists_browserDir h2
    intro heq
    have hdd : d1 = d2 := by
      by_cases hnil : profileDirectory = []
      · subst hnil
        have hl1 := manifestPaths_lookup dataHome b1 d1 hd1
        have hl2 := manifestPaths_lookup dataHome b2 d2 hd2
        simp only [resolveManifestPath, hl1, hl2, ne_eq, not_true_eq_false, if_false,
          Option.some.injEq, List.append_assoc, List.append_cancel_left_eq] at heq
        exact List.append_cancel_right heq
      · obtain ⟨ts, hts⟩ := resolveManifestPath_stays profileDirectory hnil hclimb
        obtain ⟨base1, hb1, hl1⟩ := browserDirs_base hd1
        obtain ⟨base2, hb2, hl2⟩ := browserDirs_base hd2
        subst hb1 hb2
        rw [hts dataHome b1 base1 hd1 hl1, hts dataHome b2 base2 hd2 hl2] at heq
        simp only [Option.some.injEq, List.append_assoc, List.append_cancel_left_eq] at heq
        rw [List.append_cancel_right heq]
    subst hdd
    simp only [browserDirs, List.mem_cons, Prod.mk.injEq, List.mem_singleton,
      List.not_mem_nil, or_false] at hd1 hd2
    rcases hd1 with ⟨e1, f1⟩ | ⟨e1, f1⟩ | ⟨e1, f1⟩ | ⟨e1, f1⟩ | ⟨e1, f1⟩ | ⟨e1, f1⟩ <;>
      rcases hd2 with ⟨e2, f2⟩ | ⟨e2, f2⟩ | ⟨e2, f2⟩ | ⟨e2, f2⟩ | ⟨e2, f2⟩ | ⟨e2, f2⟩ <;>
      first
        | exact hne (e1.trans e2.symm)
        | exact ha ⟨e1, e2⟩
        | exact hc ⟨e1, e2⟩
        | (rw [f1] at f2; exact absurd f2 (by decide))
  · intro profileDirectory hclimb
    exact resolveManifestPath_climbs dataHome profileDirectory hclimb

/-- C10, the amended claim at a concrete input: the profile directory `../..`
climbs two levels, and `chrome` and `chrome-beta` still resolve to different
paths. -/
theorem C10_one_alias_pair_witness :
    climbsAtMost 2 "../..".toList = true ∧
    resolveManifestPath "/h/.local/share".toList "chrome".toList "../..".toList
      ≠ resolveManifestPath "/h/.local/share".toList "chrome-beta".toList "../..".toList :=
  ⟨by decide,
    (C10_one_alias_pair "/h/.local/share".toList).2.1 "../..".toList "chrome".toList
      "chrome-beta".toList (by decide) (by decide) (by decide) (by decide) (by decide)
      (by decide)⟩

/-- C3, the claim as stated fails: without a home directory the unsupported
identifier `firefox` is not reported; the command fails on the home directory
first. -/
theorem C3_counterexample :
    "firefox".toList ∉ (manifestPaths noHomeEnv.dataHome).map Prod.fst ∧
    (RunE noHomeEnv firefoxFlags emptyFS).err
      = some "unable to get user home directory: $HOME is not defined".toList ∧
    (RunE noHomeEnv firefoxFlags emptyFS).err
      ≠ some ("invalid browser: ".toList ++ firefoxFlags.Browser) := by
  refine ⟨by decide, by decide, by decide⟩

/-- C3, amended: for a browser identifier that is not a key of the manifest path
table, and every extension id, profile directory and filesystem, the command
fails, creates no directory and writes no file, and leaves the filesystem as it
was; when the home directory can be resolved the error is the validation error
`invalid browser: <identifier>` (otherwise it is the home-directory error). -/
theorem C3_invalid_browser_fails (env : Env) (flags : Flags) (fs : FS)
    (hkey : flags.Browser ∉ (manifestPaths env.dataHome).map Prod.fst) :
    (RunE env flags fs).fs = fs ∧
    (RunE env flags fs).err ≠ none ∧
    (∀ s ∈ (RunE env flags fs).steps, s.1.name ≠ "os.MkdirAll" ∧ s.1.name ≠ "os.WriteFile") ∧
    (∀ homeDir, env.userHomeDir = .ok homeDir →
      (RunE env flags fs).err = some ("invalid browser: ".toList ++ flags.Browser)) ∧
    (∀ err, env.userHomeDir = .error err →
      (RunE env flags fs).err = some ("unable to get user home directory: ".toList ++ err)) := by
  have h2 := (resolveManifestPath_eq_none_iff env.dataHome flags.Browser
    flags.ProfileDirectory).mpr hkey
  cases h1 : env.userHomeDir with
  | error e =>
    have hr : RunE env flags fs
        = { err := some ("unable to get user home directory: ".toList ++ e), fs := fs, out := [],
            steps := [(.userHomeDir, false)] } := by
      simp only [RunE, h1]
    rw [hr]
    refine ⟨rfl, by simp, ?_, by simp, by simp⟩
    intro s hs
    simp only [List.mem_singleton] at hs
    subst hs
    simp [Step.name]
  | ok homeDir =>
    have hr : RunE env flags fs
        = { err := some ("invalid browser: ".toList ++ flags.Browser), fs := fs, out := [],
            steps := [(.userHomeDir, true), (.lookupBrowser flags.Browser, false)] } := by
      simp only [RunE, h1, h2]
    rw [hr]
    refine ⟨rfl, by simp, ?_, by simp, by simp⟩
    intro s hs
    simp only [List.mem_cons, List.mem_singleton, List.not_mem_nil, or_false] at hs
    rcases hs with hs | hs <;> subst hs <;> simp [Step.name]

/-- C3, the amended claim at a concrete input: `firefox` in the sample
environment. -/
theorem C3_invalid_browser_fails_witness :
    (RunE sampleEnv firefoxFlags emptyFS).err
      = some ("invalid browser: ".toList ++ "firefox".toList) :=
  (C3_invalid_browser_fails sampleEnv firefoxFlags emptyFS (by decide)).2.2.2.1 "/h".toList rfl

/-- C4, the claim as stated fails: with the profile directory
`../../../../../bin/x` the manifest path is `/h/.local/bin/x`, so creating the
manifest's parent directory creates the local-bin directory; the disk then fills
up while the manifest is written, the command fails at that step, and the
local-bin directory, absent before the run, exists after it. -/
theorem C4_counterexample :
    resolveManifestPath fullDiskEnv.dataHome climbingFlags.Browser climbingFlags.ProfileDirectory
      = some "/h/.local/bin/x".toList ∧
    localBin "/h".toList = "/h/.local/bin".toList ∧
    (RunE fullDiskEnv climbingFlags emptyFS).err
      = some ("unable to write manifest file: ".toList
          ++ "write /h/.local/bin/x: no space left on device".toList) ∧
    emptyFS (localBin "/h".toList) = none ∧
    (RunE fullDiskEnv climbingFlags emptyFS).fs (localBin "/h".toList) = some (Node.dir 0o755) := by
  refine ⟨by decide, by decide, by decide, rfl, by decide⟩

/-- C4, amended: if creating the manifest's parent directory, rendering the
manifest, or writing the manifest file fails, the command returns an error and
executes none of the entrypoint steps (the run stops within the first five
steps).  Away from the manifest path itself, where a failed write can leave a new
or truncated file, the filesystem is what creating the manifest directory left;
so the local-bin directory and the entrypoint path are as they were before the
run provided they are not the manifest path, the manifest's parent directory or
one of its parents. -/
theorem C4_manifest_failure_skips_entrypoint (env : Env) (flags : Flags) (fs : FS)
    (homeDir manifestPath : GoString) (h1 : env.userHomeDir = .ok homeDir)
    (h2 : resolveManifestPath env.dataHome flags.Browser flags.ProfileDirectory
      = some manifestPath)
    (hfail : (MkdirAll env.deny env.umask (Dir manifestPath) 0o755 fs).1 ≠ none ∨
      (∃ err, env.manifestTmpl homeDir flags.ExtensionID = .error err) ∨
      (∃ buf, env.manifestTmpl homeDir flags.ExtensionID = .ok buf ∧
        (WriteFile env.deny env.writeFault env.umask manifestPath buf 0o644
          (MkdirAll env.deny env.umask (Dir manifestPath) 0o755 fs).2).1 ≠ none)) :
    (RunE env flags fs).err ≠ none ∧
    (∃ k, k < 5 ∧
      (RunE env flags fs).steps.map (fun s => (s.1.name, s.2))
        = (stepOrder.take k).map (fun n => (n, true)) ++ [(stepOrder.getD k "", false)]) ∧
    (∀ name, name ≠ manifestPath →
      (RunE env flags fs).fs name
        = (MkdirAll env.deny env.umask (Dir manifestPath) 0o755 fs).2 name) ∧
    (localBin homeDir ≠ manifestPath →
      localBin homeDir ∉ pathAndParents ((Dir manifestPath).length + 1) (Dir manifestPath) →
      (RunE env flags fs).fs (localBin homeDir) = fs (localBin homeDir)) ∧
    (entrypointPath homeDir ≠ manifestPath →
      entrypointPath homeDir
        ∉ pathAndParents ((Dir manifestPath).length + 1) (Dir manifestPath) →
      (RunE env flags fs).fs (entrypointPath homeDir) = fs (entrypointPath homeDir)) := by
  rcases h3 : MkdirAll env.deny env.umask (Dir manifestPath) 0o755 fs with ⟨e3, fs1⟩
  have hframe : ∀ name, name ∉ pathAndParents ((Dir manifestPath).length + 1) (Dir manifestPath) →
      fs1 name = fs name := fun name hn => MkdirAll_frame env.deny env.umask _ _ fs h3 hn
  rw [h3] at hfail
  simp only at hfail ⊢
  cases e3 with
  | some e =>
    have hr : RunE env flags fs
        = { err := some ("unable to create manifest directory: ".toList ++ e), fs := fs1,
            out := ["Writing manifest file to ".toList ++ manifestPath ++ "\n".toList],
            steps := [(.userHomeDir, true), (.lookupBrowser flags.Browser, true),
              (.mkdirAll (Dir manifestPath) 0o755, false)] } := by
      simp only [RunE, h1, h2, h3, List.cons_append, List.nil_append]
    rw [hr]
    exact ⟨by simp, ⟨2, by decide, rfl⟩, fun _ _ => rfl, fun _ => hframe _, fun _ => hframe _⟩
  | none =>
  cases h4 : env.manifestTmpl homeDir flags.ExtensionID with
  | error e =>
    have hr : RunE env flags fs
        = { err := some ("unable to execute manifest template: ".toList ++ e), fs := fs1,
            out := ["Writing manifest file to ".toList ++ manifestPath ++ "\n".toList],
            steps := [(.userHomeDir, true), (.lookupBrowser flags.Browser, true),
              (.mkdirAll (Dir manifestPath) 0o755, true),
              (.executeManifest homeDir flags.ExtensionID, false)] } := by
      simp only [RunE, h1, h2, h3, h4, List.cons_append, List.nil_append]
    rw [hr]
    exact ⟨by simp, ⟨3, by decide, rfl⟩, fun _ _ => rfl, fun _ => hframe _, fun _ => hframe _⟩
  | ok b1 =>
  have hw : (WriteFile env.deny env.writeFault env.umask manifestPath b1 0o644 fs1).1 ≠ none := by
    rcases hfail with h | ⟨err, h⟩ | ⟨buf, hb, h⟩
    · exact absurd rfl h
    · rw [h4] at h; cases h
    · rw [h4] at hb
      cases hb
      exact h
  rcases h5 : WriteFile env.deny env.writeFault env.umask manifestPath b1 0o644 fs1
    with ⟨e5, fs2⟩
  rw [h5] at hw
  cases e5 with
  | none => exact absurd rfl hw
  | some e =>
    have hkeep : ∀ name, name ≠ manifestPath → fs2 name = fs1 name :=
      fun name hn => WriteFile_frame env.deny env.writeFault env.umask _ _ _ fs1 h5 hn
    have hr : RunE env flags fs
        = { err := some ("unable to write manifest file: ".toList ++ e), fs := fs2,
            out := ["Writing manifest file to ".toList ++ manifestPath ++ "\n".toList],
            steps := [(.userHomeDir, true), (.lookupBrowser flags.Browser, true),
              (.mkdirAll (Dir manifestPath) 0o755, true),
              (.executeManifest homeDir flags.ExtensionID, true),
              (.writeFile manifestPath b1 0o644, false)] } := by
      simp only [RunE, h1, h2, h3, h4, h5, List.cons_append, List.nil_append]
    rw [hr]
    exact ⟨by simp, ⟨4, by decide, rfl⟩, hkeep,
      fun hne hn => (hkeep _ hne).trans (hframe _ hn),
      fun hne hn => (hkeep _ hne).trans (hframe _ hn)⟩

/-- C4, the amended claim at a concrete input: Chrome without a profile, on a
system that refuses to write the manifest; the local-bin directory is not
created. -/
theorem C4_manifest_failure_skips_entrypoint_witness :
    (RunE refuseManifestEnv chromeFlags emptyFS).err ≠ none ∧
    (RunE refuseManifestEnv chromeFlags emptyFS).fs (localBin "/h".toList) = none :=
  have h := C4_manifest_failure_skips_entrypoint refuseManifestEnv chromeFlags emptyFS
    "/h".toList "/h/.local/share/Google/Chrome/NativeMessagingHosts/com.pomdtr.popcorn.json".toList
    rfl (by decide)
    (Or.inr (Or.inr ⟨"/h/.local/bin/popcorn.sh abc".toList, rfl, by decide⟩))
  ⟨h.1, (h.2.2.2.1 (by decide) (by decide)).trans rfl⟩

/-- C5: install is idempotent.  With the environment (home directory, data home,
executable path, templates) and the flags held fixed, a second run on the
filesystem the first run left returns the same result, executes the same steps
with the same arguments, so that the same bytes are written to the same paths,
prints the same messages, and leaves the filesystem exactly as the first run
left it. -/
theorem C5_install_idempotent (env : Env) (flags : Flags) (fs : FS) :
    (RunE env flags (RunE env flags fs).fs).fs = (RunE env flags fs).fs ∧
    (RunE env flags (RunE env flags fs).fs).err = (RunE env flags fs).err ∧
    (RunE env flags (RunE env flags fs).fs).steps = (RunE env flags fs).steps ∧
    (RunE env flags (RunE env flags fs).fs).out = (RunE env flags fs).out := by
  rw [RunE_rerun env flags fs]
  exact ⟨rfl, rfl, rfl, rfl⟩

/-- C6, the claim as stated fails: when the entrypoint script already exists with
mode 0644, every step succeeds and the script has the new bytes, but its mode is
still 0644, not 0755. -/
theorem C6_counterexample :
    (RunE sampleEnv chromeFlags oldScriptFS).err = none ∧
    oldScriptFS (entrypointPath "/h".toList) = some (Node.file 0o644 "old".toList) ∧
    (RunE sampleEnv chromeFlags oldScriptFS).fs (entrypointPath "/h".toList)
      = some (Node.file 0o644 "exec /bin/popcorn chrome".toList) := by
  refine ⟨by decide, by decide, by decide⟩

/-- C6, amended: whenever every step succeeds, the filesystem afterwards holds at
the fixed path `<home>/.local/bin/popcorn.sh` a file whose bytes are the
entrypoint template rendered with the executable path and the browser, and, when
the manifest path is not that same path, at the manifest path a file whose bytes
are the manifest template rendered with the home directory and the extension id.
In that case a file that existed before keeps its mode, and a file the run
creates has the requested mode less the bits of the umask: `0644 &^ umask` for
the manifest and `0755 &^ umask` for the entrypoint.  The entrypoint path depends
on the home directory only. -/
theorem C6_files_after_success (env : Env) (flags : Flags) (fs : FS)
    (hok : (RunE env flags fs).err = none) :
    ∃ homeDir manifestPath execPath manifestBytes entrypointBytes,
      env.userHomeDir = .ok homeDir ∧
      resolveManifestPath env.dataHome flags.Browser flags.ProfileDirectory
        = some manifestPath ∧
      env.executable = .ok execPath ∧
      env.manifestTmpl homeDir flags.ExtensionID = .ok manifestBytes ∧
      env.entrypointTmpl execPath flags.Browser = .ok entrypointBytes ∧
      (∃ mode, Stat (RunE env flags fs).fs (entrypointPath homeDir)
        = some (Node.file mode entrypointBytes)) ∧
      (manifestPath ≠ entrypointPath homeDir →
        Stat (RunE env flags fs).fs manifestPath
          = some (Node.file (modeAfterWrite fs manifestPath (andNot 0o644 env.umask))
              manifestBytes) ∧
        Stat (RunE env flags fs).fs (entrypointPath homeDir)
          = some (Node.file
              (modeAfterWrite fs (entrypointPath homeDir) (andNot 0o755 env.umask))
              entrypointBytes)) := by
  have hr := RunE_run env flags fs
  generalize RunE env flags fs = r at hr hok
  cases hr with
  | done homeDir p1 b1 execPath b2 fs1 fs2 fs3 fs4 h1 h2 h3 h4 h5 h6 h7 h8 h9 =>
    refine ⟨homeDir, p1, execPath, b1, b2, h1, h2, h7, h4, h8, ?_, ?_⟩
    · obtain ⟨hfs4, hsa, hsb, _⟩ :=
        WriteFile_ok_mode env.deny env.writeFault env.umask _ b2 0o755 fs3 h9
      exact ⟨_, by simp only; rw [hfs4, Stat_set_self _ _ _ hsa hsb]⟩
    · intro hne
      obtain ⟨hfs2, hs1a, hs1b, hnd1⟩ :=
        WriteFile_ok_mode env.deny env.writeFault env.umask p1 b1 0o644 fs1 h5
      obtain ⟨hfs4, hs2a, hs2b, hnd2⟩ :=
        WriteFile_ok_mode env.deny env.writeFault env.umask _ b2 0o755 fs3 h9
      have hm1 : modeAfterWrite fs1 p1 (andNot 0o644 env.umask)
          = modeAfterWrite fs p1 (andNot 0o644 env.umask) :=
        modeAfterWrite_MkdirAll env.deny env.umask _ _ fs h3 p1 _ hnd1
      have hs1_2 : Stat fs2 p1
          = some (Node.file (modeAfterWrite fs p1 (andNot 0o644 env.umask)) b1) := by
        rw [hfs2, Stat_set_self _ _ _ hs1a hs1b, hm1]
      have hs1_3 : Stat fs3 p1
          = some (Node.file (modeAfterWrite fs p1 (andNot 0o644 env.umask)) b1) := by
        rw [Stat_keeps (MkdirAll_keeps env.deny env.umask _ _ fs2 h6 (by rw [hs1_2]; simp))]
        exact hs1_2
      have hnd2_2 : IsDir (Stat fs2 (entrypointPath homeDir)) = false := by
        cases hd : IsDir (Stat fs2 (entrypointPath homeDir)) with
        | false => rfl
        | true =>
          have := MkdirAll_isDir_mono env.deny env.umask _ _ fs2 h6 hd
          rw [hnd2] at this
          exact absurd this (by simp)
      have hnd2_1 : IsDir (Stat fs1 (entrypointPath homeDir)) = false := by
        rw [hfs2, Stat_set_ne _ _ _ _ (Ne.symm hne)] at hnd2_2
        exact hnd2_2
      have hm2 : modeAfterWrite fs3 (entrypointPath homeDir) (andNot 0o755 env.umask)
          = modeAfterWrite fs (entrypointPath homeDir) (andNot 0o755 env.umask) := by
        rw [modeAfterWrite_MkdirAll env.deny env.umask _ _ fs2 h6 _ _ hnd2,
          ← modeAfterWrite_MkdirAll env.deny env.umask _ _ fs h3 _ _ hnd2_1]
        unfold modeAfterWrite
        rw [hfs2, Stat_set_ne _ _ _ _ (Ne.symm hne)]
      constructor
      · simp only
        rw [hfs4, Stat_set_ne _ _ _ _ hne]
        exact hs1_3
      · simp only
        rw [hfs4, Stat_set_self _ _ _ hs2a hs2b, hm2]
  | _ => simp at hok

/-- C6, the amended claim at a concrete input: Chrome in the sample environment on
an empty filesystem. -/
theorem C6_files_after_success_witness :
    ∃ homeDir manifestPath execPath manifestBytes entrypointBytes,
      sampleEnv.userHomeDir = .ok homeDir ∧
      resolveManifestPath sampleEnv.dataHome chromeFlags.Browser chromeFlags.ProfileDirectory
        = some manifestPath ∧
      sampleEnv.executable = .ok execPath ∧
      sampleEnv.manifestTmpl homeDir chromeFlags.ExtensionID = .ok manifestBytes ∧
      sampleEnv.entrypointTmpl execPath chromeFlags.Browser = .ok entrypointBytes ∧
      (∃ mode, Stat (RunE sampleEnv chromeFlags emptyFS).fs (entrypointPath homeDir)
        = some (Node.file mode entrypointBytes)) ∧
      (manifestPath ≠ entrypointPath homeDir →
        Stat (RunE sampleEnv chromeFlags emptyFS).fs manifestPath
          = some (Node.file (modeAfterWrite emptyFS manifestPath (andNot 0o644 sampleEnv.umask))
              manifestBytes) ∧
        Stat (RunE sampleEnv chromeFlags emptyFS).fs (entrypointPath homeDir)
          = some (Node.file
              (modeAfterWrite emptyFS (entrypointPath homeDir) (andNot 0o755 sampleEnv.umask))
              entrypointBytes)) :=
  C6_files_after_success sampleEnv chromeFlags emptyFS (by decide)

/-- C7, the claim as stated fails: with the profile directory
`../../../../../bin/popcorn.sh` the manifest path is the entrypoint path.  The
manifest is written to it successfully (step five), then the entrypoint write
opens the same file, truncates it and fails with an I/O error; the command
returns an error and the file is empty, so the manifest does not remain with its
rendered contents. -/
theorem C7_counterexample :
    resolveManifestPath scriptFaultEnv.dataHome aliasFlags.Browser aliasFlags.ProfileDirectory
      = some "/h/.local/bin/popcorn.sh".toList ∧
    entrypointPath "/h".toList = "/h/.local/bin/popcorn.sh".toList ∧
    (RunE scriptFaultEnv aliasFlags emptyFS).steps.get? 4
      = some (Step.writeFile "/h/.local/bin/popcorn.sh".toList
          "/h/.local/bin/popcorn.sh abc".toList 0o644, true) ∧
    (RunE scriptFaultEnv aliasFlags emptyFS).err
      = some ("unable to write entrypoint file: ".toList
          ++ "write /h/.local/bin/popcorn.sh: input/output error".toList) ∧
    (RunE scriptFaultEnv aliasFlags emptyFS).fs "/h/.local/bin/popcorn.sh".toList
      = some (Node.file 0o644 []) := by
  refine ⟨by decide, by decide, by decide, by decide, by decide⟩

/-- C7, amended: there is no rollback.  Once the manifest file has been written,
if a later step fails (creating the local-bin directory, resolving the
executable path, rendering the entrypoint, or writing the entrypoint) the
command returns an error and the run ends with the failing step: every step ran
once, in the order of the source, and nothing ran after the failure.  The
manifest file is still at the manifest path with its rendered contents, unless
the failing step is the entrypoint write and the manifest path is the entrypoint
path itself. -/
theorem C7_no_rollback (env : Env) (flags : Flags) (fs fs1 fs2 : FS)
    (homeDir manifestPath manifestBytes : GoString) (h1 : env.userHomeDir = .ok homeDir)
    (h2 : resolveManifestPath env.dataHome flags.Browser flags.ProfileDirectory
      = some manifestPath)
    (h3 : MkdirAll env.deny env.umask (Dir manifestPath) 0o755 fs = (none, fs1))
    (h4 : env.manifestTmpl homeDir flags.ExtensionID = .ok manifestBytes)
    (h5 : WriteFile env.deny env.writeFault env.umask manifestPath manifestBytes 0o644 fs1
      = (none, fs2))
    (hlater : (MkdirAll env.deny env.umask (localBin homeDir) 0o755 fs2).1 ≠ none ∨
      (∃ err, env.executable = .error err) ∨
      (∃ execPath err, env.executable = .ok execPath ∧
        env.entrypointTmpl execPath flags.Browser = .error err) ∨
      (∃ execPath buf, env.executable = .ok execPath ∧
        env.entrypointTmpl execPath flags.Browser = .ok buf ∧
        (WriteFile env.deny env.writeFault env.umask (entrypointPath homeDir) buf 0o755
          (MkdirAll env.deny env.umask (localBin homeDir) 0o755 fs2).2).1 ≠ none)) :
    (RunE env flags fs).err ≠ none ∧
    (∃ k, 5 ≤ k ∧ k < 9 ∧
      (RunE env flags fs).steps.map (fun s => (s.1.name, s.2))
        = (stepOrder.take k).map (fun n => (n, true)) ++ [(stepOrder.getD k "", false)] ∧
      (k < 8 ∨ manifestPath ≠ entrypointPath homeDir →
        ∃ mode, Stat (RunE env flags fs).fs manifestPath
          = some (Node.file mode manifestBytes))) := by
  obtain ⟨hfs2, hsa, hsb, _⟩ :=
    WriteFile_ok_mode env.deny env.writeFault env.umask manifestPath manifestBytes 0o644 fs1 h5
  have hs2 : Stat fs2 manifestPath
      = some (Node.file (modeAfterWrite fs1 manifestPath (andNot 0o644 env.umask))
          manifestBytes) := by
    rw [hfs2, Stat_set_self _ _ _ hsa hsb]
  rcases h6 : MkdirAll env.deny env.umask (localBin homeDir) 0o755 fs2 with ⟨e6, fs3⟩
  have hs3 : Stat fs3 manifestPath
      = some (Node.file (modeAfterWrite fs1 manifestPath (andNot 0o644 env.umask))
          manifestBytes) := by
    rw [Stat_keeps (MkdirAll_keeps env.deny env.umask _ _ fs2 h6 (by rw [hs2]; simp))]
    exact hs2
  rw [h6] at hlater
  simp only at hlater
  cases e6 with
  | some e =>
    have hr : (RunE env flags fs).err
          = some ("unable to create entrypoint directory: ".toList ++ e) ∧
        (RunE env flags fs).fs = fs3 ∧
        (RunE env flags fs).steps.map (fun s => (s.1.name, s.2))
          = (stepOrder.take 5).map (fun n => (n, true)) ++ [(stepOrder.getD 5 "", false)] := by
      refine ⟨by simp only [RunE, h1, h2, h3, h4, h5, h6], by simp only [RunE, h1, h2, h3, h4, h5, h6], ?_⟩
      simp only [RunE, h1, h2, h3, h4, h5, h6]
      rfl
    rw [hr.1, hr.2.1]
    exact ⟨by simp, 5, by decide, by decide, hr.2.2, fun _ => ⟨_, hs3⟩⟩
  | none =>
  cases h7 : env.executable with
  | error e =>
    have hr : (RunE env flags fs).err = some ("unable to get executable path: ".toList ++ e) ∧
        (RunE env flags fs).fs = fs3 ∧
        (RunE env flags fs).steps.map (fun s => (s.1.name, s.2))
          = (stepOrder.take 6).map (fun n => (n, true)) ++ [(stepOrder.getD 6 "", false)] := by
      refine ⟨by simp only [RunE, h1, h2, h3, h4, h5, h6, h7], by simp only [RunE, h1, h2, h3, h4, h5, h6, h7], ?_⟩
      simp only [RunE, h1, h2, h3, h4, h5, h6, h7]
      rfl
    rw [hr.1, hr.2.1]
    exact ⟨by simp, 6, by decide, by decide, hr.2.2, fun _ => ⟨_, hs3⟩⟩
  | ok execPath =>
  cases h8 : env.entrypointTmpl execPath flags.Browser with
  | error e =>
    have hr : (RunE env flags fs).err
          = some ("unable to execute entrypoint template: ".toList ++ e) ∧
        (RunE env flags fs).fs = fs3 ∧
        (RunE env flags fs).steps.map (fun s => (s.1.name, s.2))
          = (stepOrder.take 7).map (fun n => (n, true)) ++ [(stepOrder.getD 7 "", false)] := by
      refine ⟨by simp only [RunE, h1, h2, h3, h4, h5, h6, h7, h8], by simp only [RunE, h1, h2, h3, h4, h5, h6, h7, h8], ?_⟩
      simp only [RunE, h1, h2, h3, h4, h5, h6, h7, h8]
      rfl
    rw [hr.1, hr.2.1]
    exact ⟨by simp, 7, by decide, by decide, hr.2.2, fun _ => ⟨_, hs3⟩⟩
  | ok b2 =>
  have hw : (WriteFile env.deny env.writeFault env.umask (entrypointPath homeDir) b2 0o755
      fs3).1 ≠ none := by
    rcases hlater with h | ⟨err, h⟩ | ⟨x, err, hx, h⟩ | ⟨x, buf, hx, hb, h⟩
    · exact absurd rfl h
    · rw [h7] at h; cases h
    · rw [h7] at hx
      cases hx
      rw [h8] at h
      cases h
    · rw [h7] at hx
      cases hx
      rw [h8] at hb
      cases hb
      exact h
  rcases h9 : WriteFile env.deny env.writeFault env.umask (entrypointPath homeDir) b2 0o755 fs3
    with ⟨e9, fs4⟩
  rw [h9] at hw
  cases e9 with
  | none => exact absurd rfl hw
  | some e =>
    have hr : (RunE env flags fs).err = some ("unable to write entrypoint file: ".toList ++ e) ∧
        (RunE env flags fs).fs = fs4 ∧
        (RunE env flags fs).steps.map (fun s => (s.1.name, s.2))
          = (stepOrder.take 8).map (fun n => (n, true)) ++ [(stepOrder.getD 8 "", false)] := by
      refine ⟨by simp only [RunE, h1, h2, h3, h4, h5, h6, h7, h8, h9], by simp only [RunE, h1, h2, h3, h4, h5, h6, h7, h8, h9], ?_⟩
      simp only [RunE, h1, h2, h3, h4, h5, h6, h7, h8, h9]
      rfl
    rw [hr.1, hr.2.1]
    refine ⟨by simp, 8, by decide, by decide, hr.2.2, ?_⟩
    intro hk
    rcases hk with hk | hne
    · omega
    · refine ⟨modeAfterWrite fs1 manifestPath (andNot 0o644 env.umask), ?_⟩
      rw [Stat_keeps (WriteFile_frame env.deny env.writeFault env.umask _ _ _ fs3 h9 hne)]
      exact hs3

/-- C7, the amended claim at a concrete input: Chrome in the sample environment
when `os.Executable` fails; the manifest stays where it was written. -/
theorem C7_no_rollback_witness :
    (RunE noExecutableEnv chromeFlags emptyFS).err ≠ none ∧
    (∃ mode, Stat (RunE noExecutableEnv chromeFlags emptyFS).fs
        "/h/.local/share/Google/Chrome/NativeMessagingHosts/com.pomdtr.popcorn.json".toList
      = some (Node.file mode "/h/.local/bin/popcorn.sh abc".toList)) :=
  have h := C7_no_rollback noExecutableEnv chromeFlags emptyFS
    (MkdirAll noExecutableEnv.deny noExecutableEnv.umask
      (Dir "/h/.local/share/Google/Chrome/NativeMessagingHosts/com.pomdtr.popcorn.json".toList)
      0o755 emptyFS).2
    (WriteFile noExecutableEnv.deny noExecutableEnv.writeFault noExecutableEnv.umask
      "/h/.local/share/Google/Chrome/NativeMessagingHosts/com.pomdtr.popcorn.json".toList
      "/h/.local/bin/popcorn.sh abc".toList 0o644
      (MkdirAll noExecutableEnv.deny noExecutableEnv.umask
        (Dir "/h/.local/share/Google/Chrome/NativeMessagingHosts/com.pomdtr.popcorn.json".toList)
        0o755 emptyFS).2).2
    "/h".toList
    "/h/.local/share/Google/Chrome/NativeMessagingHosts/com.pomdtr.popcorn.json".toList
    "/h/.local/bin/popcorn.sh abc".toList
    rfl (by decide) (Prod.ext (by decide) rfl) rfl (Prod.ext (by decide) rfl)
    (Or.inr (Or.inl ⟨_, rfl⟩))
  ⟨h.1, Exists.elim h.2 (fun _ hk => hk.2.2.2 (Or.inr (by decide)))⟩

/-- C8: the identifiers the installer accepts are exactly the keys of the manifest
path table, and the completion of the `--browser` flag lists, as a set, exactly
those identifiers, whatever the partial input and whatever the order in which
the map is visited: an identifier is offered by completion if and only if it is
one of `chrome`, `chrome-beta`, `edge`, `brave`, `vivaldi`, `arc`, if and only if
the table has a path for it, if and only if no run of the command rejects it as
an invalid browser. -/
theorem C8_completion_matches_accepted (dataHome : GoString)
    (iter : List (GoString × GoString)) (hiter : iter.Perm (manifestPaths dataHome))
    (args : List GoString) (toComplete browser : GoString) :
    (browser ∈ (browserCompletion iter args toComplete).1 ↔
      browser ∈ ["chrome".toList, "chrome-beta".toList, "edge".toList, "brave".toList,
        "vivaldi".toList, "arc".toList]) ∧
    (browser ∈ (browserCompletion iter args toComplete).1 ↔
      ∃ path, (manifestPaths dataHome).lookup browser = some path) ∧
    (browser ∈ (browserCompletion iter args toComplete).1 ↔
      ∀ (env : Env) (flags : Flags) (fs : FS), env.dataHome = dataHome →
        flags.Browser = browser →
        (RunE env flags fs).err ≠ some ("invalid browser: ".toList ++ browser)) ∧
    (browserCompletion iter args toComplete).2 = 4 := by
  have hmem : browser ∈ (browserCompletion iter args toComplete).1
      ↔ browser ∈ (manifestPaths dataHome).map Prod.fst := by
    rw [browserCompletion_eq]
    exact (hiter.map Prod.fst).mem_iff
  refine ⟨?_, ?_, ?_, rfl⟩
  · rw [hmem, manifestPaths_keys]
  · rw [hmem]
    constructor
    · exact lookup_isSome_of_mem browser _
    · rintro ⟨path, hp⟩
      by_contra hn
      rw [lookup_eq_none_of_not_mem browser _ hn] at hp
      cases hp
  · rw [hmem]
    constructor
    · intro hk env flags fs hd hb
      have hr := RunE_run env flags fs
      generalize RunE env flags fs = r at hr
      have hu : ∀ (c : Char) (x y z : GoString), c ≠ 'i' →
          some (c :: x ++ y) ≠ some ("invalid browser: ".toList ++ z) := by
        intro c x y z hc h
        simp only [Option.some.injEq] at h
        have : c = 'i' := (List.cons.inj h).1
        exact hc this
      cases hr with
      | invalidBrowser homeDir h1 h2 =>
        have := (resolveManifestPath_eq_none_iff env.dataHome flags.Browser
          flags.ProfileDirectory).mp h2
        rw [hd, hb] at this
        exact absurd hk this
      | done => simp
      | homeDirFails => exact hu 'u' _ _ _ (by decide)
      | manifestDirFails => exact hu 'u' _ _ _ (by decide)
      | manifestRenderFails => exact hu 'u' _ _ _ (by decide)
      | manifestWriteFails => exact hu 'u' _ _ _ (by decide)
      | binDirFails => exact hu 'u' _ _ _ (by decide)
      | executableFails => exact hu 'u' _ _ _ (by decide)
      | entrypointRenderFails => exact hu 'u' _ _ _ (by decide)
      | entrypointWriteFails => exact hu 'u' _ _ _ (by decide)
    · intro h
      by_contra hn
      have h2 := (resolveManifestPath_eq_none_iff dataHome browser []).mpr hn
      have := h { sampleEnv with dataHome := dataHome }
        { Browser := browser, ExtensionID := [], ProfileDirectory := [] } emptyFS rfl rfl
      apply this
      simp only [RunE, sampleEnv, h2]

/-- C8 at a concrete input: the map visited in the order of the source, the
partial input `ch`, and the identifier `edge`. -/
theorem C8_completion_matches_accepted_witness :
    "edge".toList ∈ (browserCompletion (manifestPaths "/h/.local/share".toList) []
      "ch".toList).1 :=
  (C8_completion_matches_accepted "/h/.local/share".toList
    (manifestPaths "/h/.local/share".toList) (List.Perm.refl _) [] "ch".toList
    "edge".toList).1.mpr (by decide)

/-- C9: `RunE` returns a nil error (and `main` exits with status zero) if and only
if every step of the sequence succeeds; in that case it has executed the nine
steps in order and printed four messages, the two success messages being
"Manifest file written successfully" and then "Entrypoint file written
successfully"; when a step fails the error is not nil, the steps before it
succeeded and no step after it is executed. -/
theorem C9_nil_error_iff_all_steps_succeed (env : Env) (flags : Flags) (fs : FS) :
    ((RunE env flags fs).err = none ↔ AllStepsSucceed env flags fs) ∧
    (main (Execute env flags fs).err = 0 ↔ (RunE env flags fs).err = none) ∧
    ((RunE env flags fs).err = none →
      (RunE env flags fs).steps.map (fun s => (s.1.name, s.2))
          = stepOrder.map (fun n => (n, true)) ∧
      ∃ homeDir manifestPath, env.userHomeDir = .ok homeDir ∧
        resolveManifestPath env.dataHome flags.Browser flags.ProfileDirectory
          = some manifestPath ∧
        (RunE env flags fs).out
          = ["Writing manifest file to ".toList ++ manifestPath ++ "\n".toList,
              "Manifest file written successfully\n".toList,
              "Writing entrypoint file to ".toList ++ entrypointPath homeDir ++ "\n".toList,
              "Entrypoint file written successfully\n".toList]) ∧
    ((RunE env flags fs).err ≠ none →
      ∃ k, k < 9 ∧
        (RunE env flags fs).steps.map (fun s => (s.1.name, s.2))
          = (stepOrder.take k).map (fun n => (n, true)) ++ [(stepOrder.getD k "", false)]) := by
  refine ⟨⟨?_, ?_⟩, ?_, ?_, ?_⟩
  · intro h
    have hr := RunE_run env flags fs
    generalize RunE env flags fs = r at hr h
    cases hr with
    | done homeDir p1 b1 execPath b2 fs1 fs2 fs3 fs4 h1 h2 h3 h4 h5 h6 h7 h8 h9 =>
      exact ⟨homeDir, p1, b1, execPath, b2, fs1, fs2, fs3, fs4, h1, h2, h3, h4, h5, h6, h7, h8, h9⟩
    | _ => simp at h
  · rintro ⟨homeDir, p1, b1, execPath, b2, fs1, fs2, fs3, fs4, h1, h2, h3, h4, h5, h6, h7, h8, h9⟩
    simp only [RunE, h1, h2, h3, h4, h5, h6, h7, h8, h9]
  · unfold main Execute
    cases (RunE env flags fs).err <;> simp
  · intro h
    have hr := RunE_run env flags fs
    generalize RunE env flags fs = r at hr h
    cases hr with
    | done homeDir p1 b1 execPath b2 fs1 fs2 fs3 fs4 h1 h2 h3 h4 h5 h6 h7 h8 h9 =>
      exact ⟨rfl, homeDir, p1, h1, h2, rfl⟩
    | _ => simp at h
  · intro h
    have hr := RunE_run env flags fs
    generalize RunE env flags fs = r at hr h
    cases hr with
    | done homeDir p1 b1 execPath b2 fs1 fs2 fs3 fs4 h1 h2 h3 h4 h5 h6 h7 h8 h9 =>
      exact absurd rfl h
    | homeDirFails => exact ⟨0, by decide, rfl⟩
    | invalidBrowser => exact ⟨1, by decide, rfl⟩
    | manifestDirFails => exact ⟨2, by decide, rfl⟩
    | manifestRenderFails => exact ⟨3, by decide, rfl⟩
    | manifestWriteFails => exact ⟨4, by decide, rfl⟩
    | binDirFails => exact ⟨5, by decide, rfl⟩
    | executableFails => exact ⟨6, by decide, rfl⟩
    | entrypointRenderFails => exact ⟨7, by decide, rfl⟩
    | entrypointWriteFails => exact ⟨8, by decide, rfl⟩

end Webterm
